import Mathlib

/-!
# Verification of the siglatools format-dispatched MongoDB loader

A shallow embedding of `siglatools/databases/mongodb_database.py`
(class `MongoDBDatabase`): the document store is a map from collection
names to ordered lists of documents, a document is an association list
from field names to values, and the pymongo operations used by the
loader (`find`, `find_one`, `find_one_and_update` with upsert, ordered
`bulk_write` of `UpdateOne(filter, {"$set": fields}, upsert=True)`)
are given executable semantics.

Modelling conventions:
* Document identities (BSON ObjectIds) are natural numbers, drawn from a
  fresh-id counter in the store state.
* Field values are stratified: `SValue` holds the scalar values
  (null, strings, numbers, object ids) and `Value` additionally holds
  the list-shaped values the loader stores (sigla-answer lists, grouped
  sigla answers, lists of document ids, lists of child documents).
  MongoDB itself forbids array values as `_id`, so extracting an `_id`
  into an id list flattens through `Value.asId` without loss.
* Python's `dict.get` returns `None` for a missing key; `Doc.get`
  returns `Value.sc SValue.sNone` likewise, which also matches the
  Mongo convention that an equality filter on `null` matches a missing
  field.
* Python dictionaries cannot have duplicate keys; documents produced by
  the loader never do, and theorems about arbitrary input rows carry
  explicit `Nodup` hypotheses on their key lists where this matters.
-/

/-- One sigla answer cell: the row dictionaries under the
`sigla_answers` field, each with a `name` and an `answer` entry. -/
structure SiglaAnswer where
  name : String
  answer : String
  deriving DecidableEq, Repr

/-- Scalar field values: BSON null / string / int / ObjectId. -/
inductive SValue where
  | sNone : SValue
  | sStr : String → SValue
  | sNat : Nat → SValue
  | sOid : Nat → SValue
  deriving DecidableEq, Repr

/-- A child-variable dictionary (an element of a row's `childs` list):
field names mapped to scalar values. -/
abbrev ChildDoc := List (String × SValue)

/-- Field values of documents and of input rows. -/
inductive Value where
  | sc : SValue → Value
  | vAnswers : List SiglaAnswer → Value
  | vAnswerGroups : List (List SiglaAnswer) → Value
  | vIdList : List SValue → Value
  | vChilds : List ChildDoc → Value
  deriving DecidableEq, Repr

def vNone : Value := .sc .sNone

def vStr (s : String) : Value := .sc (.sStr s)

def vNat (n : Nat) : Value := .sc (.sNat n)

def vOid (n : Nat) : Value := .sc (.sOid n)

/-- MongoDB forbids arrays as `_id` values, so flattening an `_id`
value to a scalar when building an id list loses nothing. -/
def Value.asId : Value → SValue
  | .sc s => s
  | _ => .sNone

/-- A document: an ordered association list of fields.  Also the type of
the input rows (`formatted_data` elements) and of `$set` payloads. -/
abbrev Doc := List (String × Value)

/-- `dict.get(k)` / Mongo field access: the first binding of `k`, or
null when absent. -/
def Doc.get (d : Doc) (k : String) : Value :=
  match d.find? (fun kv => kv.1 = k) with
  | some kv => kv.2
  | none => vNone

/-- Set one field: replace the first binding in place, or append. -/
def Doc.setKey (d : Doc) (k : String) (v : Value) : Doc :=
  match d with
  | [] => [(k, v)]
  | kv :: rest => if kv.1 = k then (k, v) :: rest else kv :: Doc.setKey rest k v

/-- Apply a `$set` payload: set each field in order (later entries of
the payload overwrite earlier ones, as in Python dict construction). -/
def Doc.setMany (d : Doc) (s : Doc) : Doc :=
  s.foldl (fun acc kv => acc.setKey kv.1 kv.2) d

def Doc.keys (d : Doc) : List String := d.map (·.1)

/-- An equality-only filter document matches a document when every
filter field equals the corresponding document field. -/
def matchesDoc (filter : Doc) (d : Doc) : Bool :=
  filter.all (fun kv => d.get kv.1 = kv.2)

/-- One condition of a `find` query: equality or `$in`. -/
inductive QCond where
  | qEq : Value → QCond
  | qIn : List Value → QCond
  deriving DecidableEq, Repr

/-- A `find` query document. -/
abbrev Query := List (String × QCond)

def matchesQuery (q : Query) (d : Doc) : Bool :=
  q.all (fun kc =>
    match kc.2 with
    | .qEq v => d.get kc.1 = v
    | .qIn vs => vs.contains (d.get kc.1))

/-- The store: named collections of documents plus a fresh-id counter. -/
structure DB where
  colls : List (String × List Doc)
  nextId : Nat
  deriving DecidableEq, Repr

def DB.getCollection (db : DB) (name : String) : List Doc :=
  match db.colls.find? (fun c => c.1 = name) with
  | some c => c.2
  | none => []

def setCollAux (colls : List (String × List Doc)) (name : String)
    (docs : List Doc) : List (String × List Doc) :=
  match colls with
  | [] => [(name, docs)]
  | c :: rest =>
      if c.1 = name then (name, docs) :: rest else c :: setCollAux rest name docs

def DB.setCollection (db : DB) (name : String) (docs : List Doc) : DB :=
  { db with colls := setCollAux db.colls name docs }

/-- `collection.find(query)`: all matching documents in natural
(insertion) order. -/
def findDocs (docs : List Doc) (q : Query) : List Doc :=
  docs.filter (matchesQuery q)

/-- `collection.find_one(filter)`: the first matching document. -/
def find_one (db : DB) (coll : String) (filter : Doc) : Option Doc :=
  (db.getCollection coll).find? (fun d => matchesDoc filter d)

/-- Update the first document satisfying `p` by `f`; also return the
updated document. -/
def updateFirst (p : Doc → Bool) (f : Doc → Doc) :
    List Doc → List Doc × Option Doc
  | [] => ([], none)
  | d :: ds =>
      if p d then (f d :: ds, some (f d))
      else
        let r := updateFirst p f ds
        (d :: r.1, r.2)

/-- The document a failed-upsert insert creates: `_id` fresh, then the
filter's equality fields, then the `$set` payload. -/
def upsertInsertDoc (filter : Doc) (setPayload : Doc) (id : Nat) : Doc :=
  (Doc.setMany (Doc.setMany [("_id", vOid id)] filter) setPayload)

/-- `find_one_and_update(pks, {"$set": pks}, upsert=True,
return_document=AFTER)` as used by `MongoDBDatabase._find_one`: find
the first match and re-apply its primary keys, or insert a fresh
document carrying exactly the primary keys; return the post-update
document. -/
def find_one_and_update (db : DB) (coll : String) (primary_keys : Doc) :
    DB × Doc :=
  let docs := db.getCollection coll
  match updateFirst (matchesDoc primary_keys) (fun d => d.setMany primary_keys) docs with
  | (docs1, some d) => (db.setCollection coll docs1, d)
  | (_, none) =>
      let newDoc := upsertInsertDoc primary_keys primary_keys db.nextId
      ({ colls := (db.setCollection coll (docs ++ [newDoc])).colls,
         nextId := db.nextId + 1 }, newDoc)

/-- One `UpdateOne(filter, {"$set": set}, upsert=True)` request. -/
structure UpdateOne where
  filter : Doc
  set : Doc
  deriving DecidableEq, Repr

/-- Result of an ordered `bulk_write`: the ids of newly created
documents, keyed by request index (pymongo's `upserted_ids`). -/
structure BulkWriteResult where
  upserted_ids : List (Nat × Nat)
  deriving DecidableEq, Repr

def BulkWriteResult.upserted_count (r : BulkWriteResult) : Nat :=
  r.upserted_ids.length

def BulkWriteResult.getUpserted (r : BulkWriteResult) (i : Nat) : Option Nat :=
  match r.upserted_ids.find? (fun p => p.1 = i) with
  | some p => some p.2
  | none => none

/-- Apply one upsert request to a collection: update the first match in
place, or append a freshly-identified document. -/
def applyUpdateOne (docs : List Doc) (nid : Nat) (req : UpdateOne) :
    List Doc × Nat × Option Nat :=
  match updateFirst (matchesDoc req.filter) (fun d => d.setMany req.set) docs with
  | (docs1, some _) => (docs1, nid, none)
  | (_, none) => (docs ++ [upsertInsertDoc req.filter req.set nid], nid + 1, some nid)

/-- Ordered bulk application, accumulating upserted ids by request
index. -/
def bulkApply (docs : List Doc) (nid : Nat) (i : Nat) :
    List UpdateOne → List Doc × Nat × List (Nat × Nat)
  | [] => (docs, nid, [])
  | req :: reqs =>
      match applyUpdateOne docs nid req with
      | (docs1, nid1, created) =>
          let rest := bulkApply docs1 nid1 (i + 1) reqs
          (rest.1, rest.2.1,
            (match created with
             | some id => [(i, id)]
             | none => []) ++ rest.2.2)

/-- pymongo raises `InvalidOperation` on an empty request list. -/
inductive LoadError where
  | unableToFindDocument (sheet_title : String) (collection : String) (query : Query)
  | unrecognizedFormat (sheet_title : String) (format : Option String)
      (data_type : Option String)
  | invalidOperation : LoadError
  deriving DecidableEq, Repr

/-- `collection.bulk_write(requests)` on an ordered list of upserting
`UpdateOne` requests. -/
def bulk_write (db : DB) (coll : String) (reqs : List UpdateOne) :
    DB × Except LoadError BulkWriteResult :=
  if reqs.isEmpty then (db, .error .invalidOperation)
  else
    match bulkApply (db.getCollection coll) db.nextId 0 reqs with
    | (docs1, nid1, ids) =>
        ({ colls := (db.setCollection coll docs1).colls, nextId := nid1 },
         .ok { upserted_ids := ids })

/- Modelled from the spec: the `DatabaseCollection` constants module
(`siglatools/databases/constants.py` is not in the sources); §6 names
the collections `institutions`, `variables` and the dynamically named
`legal_framework`. -/
namespace db_collection

def institutions : String := "institutions"

def «variables» : String := "variables"

def legal_framework : String := "legal_framework"

end db_collection

/- Modelled from the spec: the `VariableType` constants module; §3
gives `type ∈ {composite, aggregate, standard}`. -/
namespace VariableType

def composite : String := "composite"

def aggregate : String := "aggregate"

def standard : String := "standard"

end VariableType

/- Modelled from the spec: the `GoogleSheetsFormat` constants
(`institution_extracters/constants.py` is not in the sources); §6 lists
the five recognized `meta_data.format` values. -/
namespace gs_format

def standard_institution : String := "standard_institution"

def institution_by_rows : String := "institution_by_rows"

def institution_and_composite_variable : String := "institution_and_composite_variable"

def composite_variable : String := "composite_variable"

def multiple_sigla_answer_variable : String := "multiple_sigla_answer_variable"

end gs_format

/-- Modelled from the spec: `FormattedSheetData`
(`institution_extracters/utils.py` is not in the sources); §3 gives its
attributes: a sheet title, a string-valued metadata mapping and the
ordered row records. -/
structure FormattedSheetData where
  sheet_title : String
  meta_data : List (String × String)
  formatted_data : List Doc
  deriving DecidableEq, Repr

/-- `meta_data.get(k)`: `Dict[str, str]` access. -/
def metaGet (meta : List (String × String)) (k : String) : Option String :=
  match meta.find? (fun kv => kv.1 = k) with
  | some kv => some kv.2
  | none => none

/-- `meta_data.get(k)` used as a query / document value (`None` becomes
null). -/
def metaValue (meta : List (String × String)) (k : String) : Value :=
  match metaGet meta k with
  | some s => vStr s
  | none => vNone

/-- Python's `str.split(sep)` on characters: splitting the empty string
yields one empty part, and every separator starts a new part. -/
def pySplit (sep : Char) : List Char → List (List Char)
  | [] => [[]]
  | c :: cs =>
      if c = sep then [] :: pySplit sep cs
      else
        match pySplit sep cs with
        | t :: ts => (c :: t) :: ts
        | [] => [[c]]

/-- Python's `str.strip()`: drop leading and trailing whitespace. -/
def pyStrip (l : List Char) : List Char :=
  ((l.dropWhile Char.isWhitespace).reverse.dropWhile Char.isWhitespace).reverse

/-- `[name.strip() for name in meta_data.get("name").split(";")]`.  The
source calls `.split` without a `None` check; a missing `name` is
modelled as the empty string. -/
def institutionNamesOf (meta : List (String × String)) : List String :=
  (pySplit ';' ((metaGet meta "name").getD "").data).map
    (fun cs => String.mk (pyStrip cs))

/-- The institution lookup of `_create_variable_reference`. -/
def institutionQuery (meta : List (String × String)) : Query :=
  [("name", .qIn ((institutionNamesOf meta).map vStr)),
   ("country", .qEq (metaValue meta "country")),
   ("category", .qEq (metaValue meta "category"))]

def institutionDocsId (db : DB) (meta : List (String × String)) : List Value :=
  (findDocs (db.getCollection db_collection.institutions)
      (institutionQuery meta)).map (fun d => d.get "_id")

/-- The variable lookup of `_create_variable_reference`. -/
def variableQuery (db : DB) (meta : List (String × String)) : Query :=
  [("institution", .qIn (institutionDocsId db meta)),
   ("heading", .qEq (metaValue meta "variable_heading")),
   ("name", .qEq (metaValue meta "variable_name")),
   ("type", .qEq (vStr VariableType.composite))]

def variableDocsId (db : DB) (meta : List (String × String)) : List Value :=
  (findDocs (db.getCollection db_collection.variables)
      (variableQuery db meta)).map (fun d => d.get "_id")

/-- `MongoDBDatabase._create_variable_reference`.  The single-variable
branch indexes `variable_docs_id[0]`; the unreachable empty case is
modelled as null (claim C9 proves it unreachable). -/
def create_variable_reference (db : DB) (sheet_title : String)
    (meta : List (String × String)) : Except LoadError Doc :=
  let institution_names := institutionNamesOf meta
  let variable_docs_id := variableDocsId db meta
  if variable_docs_id.length ≠ institution_names.length then
    .error (.unableToFindDocument sheet_title db_collection.variables (variableQuery db meta))
  else if metaGet meta "data_type" = some db_collection.legal_framework then
    .ok [("variables", Value.vIdList (variable_docs_id.map Value.asId))]
  else
    .ok [("variable", variable_docs_id.headD vNone)]

/-- `["name", "category"]`, plus `"country"` when present in the
sheet's metadata. -/
def institutionPrimaryKeys (meta : List (String × String)) : List String :=
  ["name", "category"] ++ (if (metaGet meta "country").isSome then ["country"] else [])

/-- `{pk: institution.get(pk) for pk in institution_primary_keys}`. -/
def pkFilter (pks : List String) (row : Doc) : Doc :=
  pks.map (fun pk => (pk, row.get pk))

/-- `{key: institution.get(key) for key in institution.keys() if key != "childs"}`. -/
def institutionSetPayload (row : Doc) : Doc :=
  row.filter (fun kv => kv.1 ≠ "childs")

/-- The institution bulk requests of `_load_institutions`. -/
def institutionRequests (pks : List String) (rows : List Doc) : List UpdateOne :=
  rows.map (fun row => ⟨pkFilter pks row, institutionSetPayload row⟩)

/-- `institution.get("childs")` (iterated; a missing or non-list value,
which the source would crash on, is modelled as no children). -/
def childsOf (row : Doc) : List ChildDoc :=
  match row.get "childs" with
  | .vChilds l => l
  | _ => []

def childGet (c : ChildDoc) (k : String) : Value :=
  match c.find? (fun kv => kv.1 = k) with
  | some kv => .sc kv.2
  | none => vNone

/-- The variable natural-key filter used by `_load_institutions`. -/
def childFilter (instId : Value) (child : ChildDoc) : Doc :=
  [("institution", instId), ("heading", childGet child "heading"),
   ("name", childGet child "name"),
   ("variable_index", childGet child "variable_index"),
   ("sigla_answer_index", childGet child "sigla_answer_index")]

/-- `{"institution": institution_doc_id_dict.get(i), **child}`. -/
def childSetPayload (instId : Value) (child : ChildDoc) : Doc :=
  ("institution", instId) :: child.map (fun kv => (kv.1, Value.sc kv.2))

/-- `institution_doc.get("_id")` after a `find_one`; the source would
raise on a missing document (unreachable after the preceding bulk
upsert). -/
def docGetId : Option Doc → Value
  | some d => d.get "_id"
  | none => vNone

/-- `institution_doc_id_dict[i]`: the upserted id when the bulk write
created document `i`, otherwise the `_id` of the document found by
re-querying the natural key. -/
def institutionDocId (db : DB) (pks : List String) (res : BulkWriteResult)
    (rows : List Doc) (i : Nat) : Value :=
  match res.getUpserted i with
  | some id => vOid id
  | none => docGetId (find_one db db_collection.institutions (pkFilter pks (rows.getD i [])))

/-- The variable bulk requests of `_load_institutions`: one request per
child of each row, carrying the row's resolved institution id. -/
def variableRequests (ids : Nat → Value) (rows : List Doc) : List UpdateOne :=
  (rows.enum.map (fun p =>
    (childsOf p.2).map (fun child =>
      UpdateOne.mk (childFilter (ids p.1) child) (childSetPayload (ids p.1) child)))).flatten

/-- `MongoDBDatabase._load_institutions`. -/
def load_institutions (db : DB) (fsd : FormattedSheetData) :
    DB × Except LoadError (List (String × Nat)) :=
  match bulk_write db db_collection.institutions
      (institutionRequests (institutionPrimaryKeys fsd.meta_data) fsd.formatted_data) with
  | (db1, .error e) => (db1, .error e)
  | (db1, .ok res) =>
      match bulk_write db1 db_collection.variables
          (variableRequests (institutionDocId db1 (institutionPrimaryKeys fsd.meta_data)
            res fsd.formatted_data) fsd.formatted_data) with
      | (db2, .error e) => (db2, .error e)
      | (db2, .ok vres) =>
          (db2, .ok [(db_collection.institutions, res.upserted_count),
                     (db_collection.variables, vres.upserted_count)])

/-- The special institution's primary keys in
`_load_institution_with_aggregate_variable`. -/
def aggInstitutionKeys (meta : List (String × String)) : Doc :=
  [("name", metaValue meta "variable_heading"),
   ("country", metaValue meta "country"),
   ("category", metaValue meta "category")]

/-- `datum.get("sigla_answers")[0].get("answer")` (the category of a
right); malformed rows, which the source would crash on, yield "". -/
def headingOf (datum : Doc) : String :=
  match datum.get "sigla_answers" with
  | .vAnswers (a :: _) => a.answer
  | _ => ""

/-- `datum.get("sigla_answers")[1:]`. -/
def restAnswersOf (datum : Doc) : List SiglaAnswer :=
  match datum.get "sigla_answers" with
  | .vAnswers (_ :: t) => t
  | _ => []

def assocLookup (dict : List (String × List (List SiglaAnswer))) (k : String) :
    Option (List (List SiglaAnswer)) :=
  match dict.find? (fun kv => kv.1 = k) with
  | some kv => some kv.2
  | none => none

def assocAppend (dict : List (String × List (List SiglaAnswer))) (k : String)
    (v : List SiglaAnswer) : List (String × List (List SiglaAnswer)) :=
  dict.map (fun kv => if kv.1 = k then (kv.1, kv.2 ++ [v]) else kv)

/-- One iteration of the grouping loop of
`_load_institution_with_aggregate_variable`: append the row's remaining
answers to its heading's group, registering a fresh heading at the end
of `variable_heading_list`. -/
def groupStep (acc : List (String × List (List SiglaAnswer)) × List String)
    (datum : Doc) : List (String × List (List SiglaAnswer)) × List String :=
  match assocLookup acc.1 (headingOf datum) with
  | some _ => (assocAppend acc.1 (headingOf datum) (restAnswersOf datum), acc.2)
  | none =>
      (acc.1 ++ [(headingOf datum, [restAnswersOf datum])],
       acc.2 ++ [headingOf datum])

/-- The grouping loop of `_load_institution_with_aggregate_variable`:
build `variable_heading_dict` and `variable_heading_list` (headings in
first-occurrence order). -/
def groupFold (data : List Doc) :
    List (String × List (List SiglaAnswer)) × List String :=
  data.foldl groupStep ([], [])

/-- `variable_heading_list.sort()`: Python sorts strings
lexicographically; the heading list is duplicate-free by construction,
on which every comparison sort agrees. -/
def sortStrings (l : List String) : List String :=
  l.insertionSort (fun a b => a ≤ b)

/-- The aggregate Variable documents: one per heading, in
lexicographic heading order, indexed by position. -/
def aggregateVariables (instDocId : Value) (data : List Doc) : List Doc :=
  let g := groupFold data
  (sortStrings g.2).enum.map (fun p =>
    [("institution", instDocId), ("name", vStr p.2), ("heading", vStr p.2),
     ("sigla_answer", Value.vAnswerGroups ((assocLookup g.1 p.2).getD [])),
     ("type", vStr VariableType.aggregate),
     ("variable_index", vNat p.1),
     ("sigla_answer_index", vNat 0)])

/-- The variable bulk requests of
`_load_institution_with_aggregate_variable`: note the filter carries
`institution`, `name`, `variable_index` and `sigla_answer_index` but
not `heading`. -/
def aggregateRequests (vars : List Doc) : List UpdateOne :=
  vars.map (fun v =>
    ⟨[("institution", v.get "institution"), ("name", v.get "name"),
      ("variable_index", v.get "variable_index"),
      ("sigla_answer_index", v.get "sigla_answer_index")], v⟩)

/-- `MongoDBDatabase._load_institution_with_aggregate_variable`. -/
def load_institution_with_aggregate_variable (db : DB)
    (fsd : FormattedSheetData) : DB × Except LoadError (List (String × Nat)) :=
  match bulk_write
      (find_one_and_update db db_collection.institutions
        (aggInstitutionKeys fsd.meta_data)).1
      db_collection.variables
      (aggregateRequests (aggregateVariables
        ((find_one_and_update db db_collection.institutions
          (aggInstitutionKeys fsd.meta_data)).2.get "_id")
        fsd.formatted_data)) with
  | (db2, .ok res) =>
      (db2, .ok [(db_collection.variables, res.upserted_count)])
  | (db2, .error e) => (db2, .error e)

/-- The composite bulk requests of `_load_composite_variable`: filter
`{**variable_reference, "index": datum.get("index")}`, payload
`{**variable_reference, **datum}`. -/
def compositeRequests (ref : Doc) (data : List Doc) : List UpdateOne :=
  data.map (fun datum => ⟨ref ++ [("index", datum.get "index")], ref ++ datum⟩)

/-- `MongoDBDatabase._load_composite_variable`.  The source uses
`meta_data.get("data_type")` as the target collection name; a missing
value is modelled as the empty name. -/
def load_composite_variable (db : DB) (fsd : FormattedSheetData) :
    DB × Except LoadError (List (String × Nat)) :=
  match create_variable_reference db fsd.sheet_title fsd.meta_data with
  | .error e => (db, .error e)
  | .ok ref =>
      match bulk_write db ((metaGet fsd.meta_data "data_type").getD "")
          (compositeRequests ref fsd.formatted_data) with
      | (db1, .ok res) =>
          (db1, .ok [((metaGet fsd.meta_data "data_type").getD "", res.upserted_count)])
      | (db1, .error e) => (db1, .error e)

/-- `MongoDBDatabase._load_institution_and_composite_variable`: the
composite load, then the aggregate-institution load. -/
def load_institution_and_composite_variable (db : DB)
    (fsd : FormattedSheetData) : DB × Except LoadError (List (String × Nat)) :=
  match load_composite_variable db fsd with
  | (db1, .ok s1) =>
      match load_institution_with_aggregate_variable db1 fsd with
      | (db2, .ok s2) => (db2, .ok (s1 ++ s2))
      | (db2, .error e) => (db2, .error e)
  | (db1, .error e) => (db1, .error e)

/-- The keys of `_load_function_dict`. -/
def recognizedFormats : List String :=
  [gs_format.standard_institution, gs_format.institution_by_rows,
   gs_format.institution_and_composite_variable, gs_format.composite_variable,
   gs_format.multiple_sigla_answer_variable]

/-- `MongoDBDatabase.load`: dispatch on `meta_data.get("format")`. -/
def load (db : DB) (fsd : FormattedSheetData) :
    DB × Except LoadError (List (String × Nat)) :=
  let key := metaGet fsd.meta_data "format"
  match key with
  | some f =>
      if f = gs_format.standard_institution then load_institutions db fsd
      else if f = gs_format.institution_by_rows then load_institutions db fsd
      else if f = gs_format.institution_and_composite_variable then
        load_institution_and_composite_variable db fsd
      else if f = gs_format.composite_variable then load_composite_variable db fsd
      else if f = gs_format.multiple_sigla_answer_variable then load_institutions db fsd
      else (db, .error (.unrecognizedFormat fsd.sheet_title key
        (metaGet fsd.meta_data "data_type")))
  | none =>
      (db, .error (.unrecognizedFormat fsd.sheet_title none
        (metaGet fsd.meta_data "data_type")))

/-! ## Association-list algebra for documents -/

theorem get_nil (k : String) : Doc.get [] k = vNone := rfl

theorem get_cons (kv : String × Value) (d : Doc) (k : String) :
    Doc.get (kv :: d) k = if kv.1 = k then kv.2 else Doc.get d k := by
  simp only [Doc.get, List.find?]
  by_cases h : kv.1 = k <;> simp [h]

theorem get_eq_vNone_of_not_mem {d : Doc} {k : String} (h : k ∉ d.keys) :
    d.get k = vNone := by
  induction d with
  | nil => rfl
  | cons kv rest ih =>
      rw [get_cons]
      simp only [Doc.keys, List.map_cons, List.mem_cons] at h
      push_neg at h
      rw [if_neg (Ne.symm h.1), ih (by simpa [Doc.keys] using h.2)]

theorem mem_get_of_mem_keys {d : Doc} {k : String} (h : k ∈ d.keys) :
    (k, d.get k) ∈ d := by
  induction d with
  | nil => simp [Doc.keys] at h
  | cons kv rest ih =>
      rw [get_cons]
      by_cases hk : kv.1 = k
      · subst hk; simp
      · simp only [Doc.keys, List.map_cons, List.mem_cons] at h
        rcases h with h | h
        · exact absurd h.symm hk
        · simp only [if_neg hk, List.mem_cons]
          exact Or.inr (ih (by simpa [Doc.keys] using h))

theorem get_eq_of_mem_nodup {d : Doc} {kv : String × Value}
    (hnd : d.keys.Nodup) (h : kv ∈ d) : d.get kv.1 = kv.2 := by
  induction d with
  | nil => simp at h
  | cons kv0 rest ih =>
      rw [get_cons]
      simp only [Doc.keys, List.map_cons, List.nodup_cons] at hnd
      rcases List.mem_cons.mp h with h | h
      · subst h; simp
      · have hne : kv0.1 ≠ kv.1 := by
          intro he
          exact hnd.1 (he ▸ List.mem_map_of_mem Prod.fst h)
        rw [if_neg hne]
        exact ih hnd.2 h

theorem mem_keys_of_mem {d : Doc} {kv : String × Value} (h : kv ∈ d) :
    kv.1 ∈ d.keys := List.mem_map_of_mem Prod.fst h

/-! setKey lemmas -/

theorem get_setKey_same (d : Doc) (k : String) (v : Value) :
    (d.setKey k v).get k = v := by
  induction d with
  | nil => simp [Doc.setKey, get_cons]
  | cons kv rest ih =>
      rw [Doc.setKey]
      by_cases h : kv.1 = k
      · simp [h, get_cons]
      · simp only [if_neg h, get_cons, ih]

theorem get_setKey_ne (d : Doc) {k k1 : String} (v : Value) (h : k1 ≠ k) :
    (d.setKey k v).get k1 = d.get k1 := by
  induction d with
  | nil => simp [Doc.setKey, get_cons, Ne.symm h]
  | cons kv rest ih =>
      rw [Doc.setKey]
      by_cases hk : kv.1 = k
      · subst hk
        rw [if_pos rfl, get_cons, get_cons, if_neg (Ne.symm h), if_neg (Ne.symm h)]
      · rw [if_neg hk, get_cons, get_cons, ih]

theorem keys_setKey_mem {d : Doc} {k : String} (v : Value) (h : k ∈ d.keys) :
    (d.setKey k v).keys = d.keys := by
  induction d with
  | nil => simp [Doc.keys] at h
  | cons kv rest ih =>
      rw [Doc.setKey]
      by_cases hk : kv.1 = k
      · simp [Doc.keys, hk]
      · simp only [Doc.keys, List.map_cons, List.mem_cons] at h
        rcases h with h | h
        · exact absurd h.symm hk
        · simp only [if_neg hk, Doc.keys, List.map_cons, List.cons.injEq, true_and]
          exact ih (by simpa [Doc.keys] using h)

theorem keys_setKey_not_mem {d : Doc} {k : String} (v : Value) (h : k ∉ d.keys) :
    (d.setKey k v).keys = d.keys ++ [k] := by
  induction d with
  | nil => simp [Doc.setKey, Doc.keys]
  | cons kv rest ih =>
      simp only [Doc.keys, List.map_cons, List.mem_cons] at h
      push_neg at h
      rw [Doc.setKey, if_neg (Ne.symm h.1)]
      simp only [Doc.keys, List.map_cons, List.cons_append, List.cons.injEq, true_and]
      exact ih (by simpa [Doc.keys] using h.2)

theorem mem_keys_setKey_iff (d : Doc) (k k1 : String) (v : Value) :
    k1 ∈ (d.setKey k v).keys ↔ k1 ∈ d.keys ∨ k1 = k := by
  by_cases h : k ∈ d.keys
  · rw [keys_setKey_mem v h]
    constructor
    · exact Or.inl
    · rintro (h1 | rfl) <;> [exact h1; exact h]
  · rw [keys_setKey_not_mem v h]
    simp

theorem nodup_keys_setKey {d : Doc} (k : String) (v : Value)
    (h : d.keys.Nodup) : (d.setKey k v).keys.Nodup := by
  by_cases hm : k ∈ d.keys
  · rw [keys_setKey_mem v hm]; exact h
  · rw [keys_setKey_not_mem v hm]
    simpa [List.nodup_append] using ⟨h, hm⟩

theorem setKey_eq_self {d : Doc} {k : String} (hm : k ∈ d.keys)
    (hv : d.get k = v) : d.setKey k v = d := by
  induction d with
  | nil => simp [Doc.keys] at hm
  | cons kv rest ih =>
      rw [Doc.setKey]
      by_cases hk : kv.1 = k
      · subst hk
        rw [get_cons, if_pos rfl] at hv
        subst hv
        simp
      · rw [get_cons, if_neg hk] at hv
        simp only [Doc.keys, List.map_cons, List.mem_cons] at hm
        rcases hm with hm | hm
        · exact absurd hm.symm hk
        · rw [if_neg hk, ih (by simpa [Doc.keys] using hm) hv]

/-- The value the last binding of `k` in a `$set` payload carries, if
any: the value `Doc.setMany` leaves at `k`. -/
def lastVal? : Doc → String → Option Value
  | [], _ => none
  | kv :: rest, k =>
      match lastVal? rest k with
      | some v => some v
      | none => if kv.1 = k then some kv.2 else none

theorem lastVal?_mem {s : Doc} {k : String} {v : Value}
    (h : lastVal? s k = some v) : (k, v) ∈ s := by
  induction s with
  | nil => simp [lastVal?] at h
  | cons kv rest ih =>
      rcases hr : lastVal? rest k with _ | w
      · simp only [lastVal?, hr] at h
        by_cases hk : kv.1 = k
        · rw [if_pos hk] at h
          injection h with h
          subst h
          subst hk
          exact List.mem_cons_self _ _
        · rw [if_neg hk] at h
          cases h
      · simp only [lastVal?, hr, Option.some.injEq] at h
        subst h
        exact List.mem_cons_of_mem _ (ih hr)

theorem lastVal?_eq_none_of_not_mem {s : Doc} {k : String} (h : k ∉ s.keys) :
    lastVal? s k = none := by
  induction s with
  | nil => rfl
  | cons kv rest ih =>
      simp only [Doc.keys, List.map_cons, List.mem_cons] at h
      push_neg at h
      rw [lastVal?, ih (by simpa [Doc.keys] using h.2), if_neg (Ne.symm h.1)]

theorem lastVal?_of_nodup {s : Doc} (hnd : s.keys.Nodup) {k : String} {v : Value}
    (h : (k, v) ∈ s) : lastVal? s k = some v := by
  induction s with
  | nil => simp at h
  | cons kv0 rest ih =>
      simp only [Doc.keys, List.map_cons, List.nodup_cons] at hnd
      rcases List.mem_cons.mp h with heq | hmem
      · subst heq
        rcases hr : lastVal? rest k with _ | w
        · simp [lastVal?, hr]
        · exact absurd (mem_keys_of_mem (lastVal?_mem hr))
            (by simpa [Doc.keys] using hnd.1)
      · simp only [lastVal?, ih hnd.2 hmem]

theorem get_setMany (d s : Doc) (k : String) :
    (d.setMany s).get k = (lastVal? s k).getD (d.get k) := by
  induction s generalizing d with
  | nil => simp [Doc.setMany, lastVal?]
  | cons kv rest ih =>
      have hstep : Doc.setMany d (kv :: rest) = Doc.setMany (d.setKey kv.1 kv.2) rest := by
        simp [Doc.setMany]
      rw [hstep, ih, lastVal?]
      rcases hr : lastVal? rest k with _ | w
      · by_cases hk : kv.1 = k
        · subst hk
          simp [get_setKey_same]
        · simp [if_neg hk, get_setKey_ne _ _ (Ne.symm hk)]
      · simp

theorem mem_keys_setMany_iff (d s : Doc) (k : String) :
    k ∈ (d.setMany s).keys ↔ k ∈ d.keys ∨ k ∈ s.keys := by
  induction s generalizing d with
  | nil => simp [Doc.setMany, Doc.keys]
  | cons kv rest ih =>
      have hstep : Doc.setMany d (kv :: rest) = Doc.setMany (d.setKey kv.1 kv.2) rest := by
        simp [Doc.setMany]
      rw [hstep, ih, mem_keys_setKey_iff]
      have hck : Doc.keys (kv :: rest) = kv.1 :: Doc.keys rest := rfl
      rw [hck]
      simp only [List.mem_cons]
      tauto

theorem nodup_keys_setMany {d : Doc} (s : Doc) (h : d.keys.Nodup) :
    (d.setMany s).keys.Nodup := by
  induction s generalizing d with
  | nil => simpa [Doc.setMany]
  | cons kv rest ih =>
      have hstep : Doc.setMany d (kv :: rest) = Doc.setMany (d.setKey kv.1 kv.2) rest := by
        simp [Doc.setMany]
      rw [hstep]
      exact ih (nodup_keys_setKey _ _ h)

theorem keys_setMany_of_subset {d : Doc} {s : Doc}
    (h : ∀ k ∈ s.keys, k ∈ d.keys) : (d.setMany s).keys = d.keys := by
  induction s generalizing d with
  | nil => simp [Doc.setMany]
  | cons kv rest ih =>
      have hstep : Doc.setMany d (kv :: rest) = Doc.setMany (d.setKey kv.1 kv.2) rest := by
        simp [Doc.setMany]
      have hm : kv.1 ∈ d.keys := h kv.1 (List.mem_cons_self _ _)
      rw [hstep]
      rw [ih (fun k hk => by
        rw [mem_keys_setKey_iff]
        exact Or.inl (h k (List.mem_cons_of_mem _ hk)))]
      exact keys_setKey_mem _ hm

/-- Documents with equal duplicate-free key lists and equal field
reads are equal. -/
theorem doc_ext {d1 d2 : Doc} (hk : d1.keys = d2.keys) (hnd : d1.keys.Nodup)
    (hg : ∀ k, d1.get k = d2.get k) : d1 = d2 := by
  induction d1 generalizing d2 with
  | nil =>
      cases d2 with
      | nil => rfl
      | cons kv rest => exact absurd hk (by simp [Doc.keys])
  | cons kv rest ih =>
      cases d2 with
      | nil => exact absurd hk (by simp [Doc.keys])
      | cons kv2 rest2 =>
          have hk2 : kv.1 :: Doc.keys rest = kv2.1 :: Doc.keys rest2 := hk
          obtain ⟨h1, h2⟩ : kv.1 = kv2.1 ∧ Doc.keys rest = Doc.keys rest2 := by
            injection hk2 with a b
            exact ⟨a, b⟩
          have hnd2 : kv.1 ∉ Doc.keys rest ∧ (Doc.keys rest).Nodup :=
            List.nodup_cons.mp hnd
          have hv : kv.2 = kv2.2 := by
            have hgk := hg kv.1
            rw [get_cons, get_cons, if_pos rfl, if_pos h1.symm] at hgk
            exact hgk
          have htl : rest = rest2 := by
            refine ih h2 hnd2.2 (fun k => ?_)
            by_cases hkk : k = kv.1
            · subst hkk
              rw [get_eq_vNone_of_not_mem hnd2.1, get_eq_vNone_of_not_mem (h2 ▸ hnd2.1)]
            · have hgk := hg k
              rw [get_cons, get_cons, if_neg (fun he => hkk he.symm),
                if_neg (fun he => hkk (he ▸ h1).symm)] at hgk
              exact hgk
          cases kv
          cases kv2
          simp only at h1 hv
          rw [h1, hv, htl]

/-- Re-applying the same `$set` payload is a no-op. -/
theorem setMany_setMany {d : Doc} (s : Doc) (hnd : d.keys.Nodup) :
    (d.setMany s).setMany s = d.setMany s := by
  refine doc_ext ?_ (nodup_keys_setMany s (nodup_keys_setMany s hnd)) (fun k => ?_)
  · exact keys_setMany_of_subset (fun k hk => (mem_keys_setMany_iff d s k).mpr (Or.inr hk))
  · rw [get_setMany, get_setMany]
    rcases hr : lastVal? s k with _ | w
    · rfl
    · rfl

/-! ## Filter matching -/

theorem bool_eq_of_iff {a b : Bool} (h : a = true ↔ b = true) : a = b := by
  cases a <;> cases b <;> simp_all

theorem matchesDoc_iff {f d : Doc} :
    matchesDoc f d = true ↔ ∀ kv ∈ f, d.get kv.1 = kv.2 := by
  simp [matchesDoc, List.all_eq_true]

/-- A `$set` payload agrees with a filter when every binding it carries
at a filter key carries the filter's value. -/
def Agrees (f s : Doc) : Prop :=
  ∀ kv ∈ s, kv.1 ∈ f.keys → kv.2 = f.get kv.1

instance (f s : Doc) : Decidable (Agrees f s) := by
  unfold Agrees
  infer_instance

/-- Applying an agreeing payload to a matching document does not change
reads at filter keys. -/
theorem get_setMany_of_agrees {f d s : Doc}
    (ha : Agrees f s) (hm : matchesDoc f d = true) {k : String} (hk : k ∈ f.keys) :
    (d.setMany s).get k = d.get k := by
  rw [get_setMany]
  rcases hr : lastVal? s k with _ | w
  · rfl
  · have hw : w = f.get k := ha (k, w) (lastVal?_mem hr) hk
    have hd : d.get k = f.get k := matchesDoc_iff.mp hm (k, f.get k) (mem_get_of_mem_keys hk)
    simp [hw, hd]

/-- Matching against any filter with the same key set is invariant
under an agreeing update of a matching document. -/
theorem matches_setMany_iff_of_agrees {f g d s : Doc}
    (ha : Agrees f s) (hm : matchesDoc f d = true)
    (hkeys : ∀ k ∈ g.keys, k ∈ f.keys) :
    matchesDoc g (d.setMany s) = matchesDoc g d := by
  apply bool_eq_of_iff
  rw [matchesDoc_iff, matchesDoc_iff]
  constructor
  · intro h kv hkv
    rw [← get_setMany_of_agrees ha hm (hkeys kv.1 (mem_keys_of_mem hkv))]
    exact h kv hkv
  · intro h kv hkv
    rw [get_setMany_of_agrees ha hm (hkeys kv.1 (mem_keys_of_mem hkv))]
    exact h kv hkv

/-- Two filters over the same duplicate-free key list that match a
common document are equal. -/
theorem filter_eq_of_common_match {f g d : Doc} (hkeys : f.keys = g.keys)
    (hnd : f.keys.Nodup) (hf : matchesDoc f d = true) (hg : matchesDoc g d = true) :
    f = g := by
  refine doc_ext hkeys hnd (fun k => ?_)
  by_cases hk : k ∈ f.keys
  · have h1 : d.get k = f.get k := matchesDoc_iff.mp hf _ (mem_get_of_mem_keys hk)
    have h2 : d.get k = g.get k := matchesDoc_iff.mp hg _ (mem_get_of_mem_keys (hkeys ▸ hk))
    rw [← h1, ← h2]
  · rw [get_eq_vNone_of_not_mem hk, get_eq_vNone_of_not_mem (hkeys ▸ hk)]

/-! ## The inserted document of a failed upsert -/

theorem upsertInsert_keys_nodup (f s : Doc) (id : Nat) :
    (upsertInsertDoc f s id).keys.Nodup := by
  unfold upsertInsertDoc
  exact nodup_keys_setMany _ (nodup_keys_setMany _ (by simp [Doc.keys]))

theorem upsertInsert_matches {f s : Doc} (hnd : f.keys.Nodup) (ha : Agrees f s)
    (id : Nat) : matchesDoc f (upsertInsertDoc f s id) = true := by
  rw [matchesDoc_iff]
  intro kv hkv
  unfold upsertInsertDoc
  rw [get_setMany]
  have hbase : (Doc.setMany [("_id", vOid id)] f).get kv.1 = kv.2 := by
    rw [get_setMany, lastVal?_of_nodup hnd hkv]
    rfl
  rcases hr : lastVal? s kv.1 with _ | w
  · exact hbase
  · have hk1 : kv.1 ∈ f.keys := mem_keys_of_mem hkv
    have hw : w = f.get kv.1 := ha (kv.1, w) (lastVal?_mem hr) hk1
    have hfv : f.get kv.1 = kv.2 := get_eq_of_mem_nodup hnd hkv
    simp [hw, hfv]

theorem upsertInsert_id {f s : Doc} (hf : "_id" ∉ f.keys) (hs : "_id" ∉ s.keys)
    (id : Nat) : (upsertInsertDoc f s id).get "_id" = vOid id := by
  unfold upsertInsertDoc
  rw [get_setMany, lastVal?_eq_none_of_not_mem hs, get_setMany,
    lastVal?_eq_none_of_not_mem hf]
  rfl

theorem upsertInsert_fix (f s : Doc) (id : Nat) :
    (upsertInsertDoc f s id).setMany s = upsertInsertDoc f s id := by
  unfold upsertInsertDoc
  exact setMany_setMany s (nodup_keys_setMany _ (by simp [Doc.keys]))

/-! ## updateFirst and find? positional specifications -/

theorem updateFirst_of_forall_neg {p : Doc → Bool} {f : Doc → Doc} {l : List Doc}
    (h : ∀ d ∈ l, ¬ p d = true) : updateFirst p f l = (l, none) := by
  induction l with
  | nil => rfl
  | cons d ds ih =>
      rw [updateFirst, if_neg (h d (List.mem_cons_self _ _))]
      simp [ih (fun x hx => h x (List.mem_cons_of_mem _ hx))]

theorem updateFirst_none_spec {p : Doc → Bool} {f : Doc → Doc} {l l1 : List Doc}
    (h : updateFirst p f l = (l1, none)) : l1 = l ∧ ∀ d ∈ l, ¬ p d = true := by
  induction l generalizing l1 with
  | nil =>
      rw [updateFirst] at h
      cases h
      exact ⟨rfl, by simp⟩
  | cons d ds ih =>
      rw [updateFirst] at h
      by_cases hp : p d = true
      · rw [if_pos hp] at h
        cases h
      · rw [if_neg hp] at h
        injection h with h1 h2
        have h3 : updateFirst p f ds = ((updateFirst p f ds).1, none) := by
          rw [← h2]
        obtain ⟨he, hall⟩ := ih h3
        constructor
        · rw [← h1, he]
        · intro x hx
          rcases List.mem_cons.mp hx with rfl | hx
          · exact hp
          · exact hall x hx

theorem updateFirst_some_spec {p : Doc → Bool} {f : Doc → Doc} {l l1 : List Doc}
    {d : Doc} (h : updateFirst p f l = (l1, some d)) :
    ∃ n, ∃ hn : n < l.length, p l[n] = true ∧ d = f l[n] ∧ l1 = l.set n d ∧
      ∀ m, ∀ hm : m < l.length, m < n → ¬ p l[m] = true := by
  induction l generalizing l1 with
  | nil =>
      rw [updateFirst] at h
      cases h
  | cons d0 ds ih =>
      rw [updateFirst] at h
      by_cases hp : p d0 = true
      · rw [if_pos hp] at h
        obtain ⟨h1, h2⟩ := Prod.mk.injEq .. ▸ h
        injection h
        rename_i hl hd
        injection hd with hd
        refine ⟨0, by simp, by simpa using hp, by simpa using hd.symm, ?_, ?_⟩
        · rw [← hl, hd]
          rfl
        · intro m hm hlt
          omega
      · rw [if_neg hp] at h
        injection h with hl hd
        have h2 : updateFirst p f ds = ((updateFirst p f ds).1, some d) := by
          rw [← hd]
        obtain ⟨n, hn, hpn, hdn, hset, hpre⟩ := ih h2
        refine ⟨n + 1, by simpa using Nat.succ_lt_succ hn, ?_, ?_, ?_, ?_⟩
        · simpa using hpn
        · simpa using hdn
        · rw [← hl, hset]
          rfl
        · intro m hm hlt
          cases m with
          | zero => simpa using hp
          | succ m =>
              have hm2 : m < ds.length := by simpa using hm
              have := hpre m hm2 (by omega)
              simpa using this

theorem updateFirst_of_first_fix {p : Doc → Bool} {f : Doc → Doc} {l : List Doc}
    {n : Nat} (hn : n < l.length) (hp : p l[n] = true)
    (hfix : f l[n] = l[n])
    (hpre : ∀ m, ∀ hm : m < l.length, m < n → ¬ p l[m] = true) :
    updateFirst p f l = (l, some l[n]) := by
  induction l generalizing n with
  | nil => simp at hn
  | cons d0 ds ih =>
      cases n with
      | zero =>
          rw [updateFirst, if_pos (by simpa using hp)]
          simp only [List.getElem_cons_zero] at hfix ⊢
          rw [hfix]
      | succ n =>
          have hd0 : ¬ p d0 = true := hpre 0 (by simp) (by omega)
          rw [updateFirst, if_neg hd0]
          have hn2 : n < ds.length := by simpa using hn
          have := ih hn2 (by simpa using hp) (by simpa using hfix)
            (fun m hm hlt => by
              have := hpre (m + 1) (by simpa using Nat.succ_lt_succ hm) (by omega)
              simpa using this)
          rw [this]
          rfl

theorem find?_eq_of_first {p : Doc → Bool} {l : List Doc} {n : Nat}
    (hn : n < l.length) (hp : p l[n] = true)
    (hpre : ∀ m, ∀ hm : m < l.length, m < n → ¬ p l[m] = true) :
    l.find? p = some l[n] := by
  induction l generalizing n with
  | nil => simp at hn
  | cons d0 ds ih =>
      cases n with
      | zero =>
          simp only [List.getElem_cons_zero] at hp ⊢
          rw [List.find?_cons, hp]
      | succ n =>
          have hd0 : ¬ p d0 = true := hpre 0 (by simp) (by omega)
          rw [List.find?_cons]
          rcases hb : p d0
          · have hn2 : n < ds.length := by simpa using hn
            have := ih hn2 (by simpa using hp)
              (fun m hm hlt => by
                have := hpre (m + 1) (by simpa using Nat.succ_lt_succ hm) (by omega)
                simpa using this)
            rw [this]
            simp
          · exact absurd hb hd0

/-! ## Collection access -/

theorem getCollection_setCollection_same (db : DB) (name : String)
    (docs : List Doc) : (db.setCollection name docs).getCollection name = docs := by
  show (match (setCollAux db.colls name docs).find? (fun c => c.1 = name) with
    | some c => c.2 | none => []) = docs
  induction db.colls with
  | nil => simp [setCollAux, List.find?]
  | cons c rest ih =>
      rw [setCollAux]
      by_cases h : c.1 = name
      · rw [if_pos h, List.find?_cons_of_pos _ (by simp)]
      · rw [if_neg h, List.find?_cons_of_neg _ (by simpa using h)]
        exact ih

theorem find?_setCollAux_ne (colls : List (String × List Doc)) {n1 n2 : String}
    (docs : List Doc) (h : n1 ≠ n2) :
    (setCollAux colls n1 docs).find? (fun c => c.1 = n2) =
      colls.find? (fun c => c.1 = n2) := by
  induction colls with
  | nil => simp [setCollAux, List.find?, h]
  | cons c rest ih =>
      rw [setCollAux]
      by_cases hc : c.1 = n1
      · rw [if_pos hc]
        rw [List.find?_cons_of_neg _ (by simpa using h),
          List.find?_cons_of_neg _ (by simp only [hc]; simpa using h)]
      · rw [if_neg hc]
        by_cases hb : c.1 = n2
        · rw [List.find?_cons_of_pos _ (by simpa using hb),
            List.find?_cons_of_pos _ (by simpa using hb)]
        · rw [List.find?_cons_of_neg _ (by simpa using hb),
            List.find?_cons_of_neg _ (by simpa using hb)]
          exact ih

theorem getCollection_setCollection_ne (db : DB) {n1 n2 : String}
    (docs : List Doc) (h : n1 ≠ n2) :
    (db.setCollection n1 docs).getCollection n2 = db.getCollection n2 := by
  show (match (setCollAux db.colls n1 docs).find? (fun c => c.1 = n2) with
    | some c => c.2 | none => []) =
    (match db.colls.find? (fun c => c.1 = n2) with
    | some c => c.2 | none => [])
  rw [find?_setCollAux_ne db.colls docs h]

/-! ## Bulk write machinery -/

theorem bulkApply_nil (docs : List Doc) (nid i : Nat) :
    bulkApply docs nid i [] = (docs, nid, []) := rfl

theorem bulkApply_cons (docs : List Doc) (nid i : Nat) (r : UpdateOne)
    (reqs : List UpdateOne) :
    bulkApply docs nid i (r :: reqs) =
      ((bulkApply (applyUpdateOne docs nid r).1 (applyUpdateOne docs nid r).2.1
          (i + 1) reqs).1,
       (bulkApply (applyUpdateOne docs nid r).1 (applyUpdateOne docs nid r).2.1
          (i + 1) reqs).2.1,
       (match (applyUpdateOne docs nid r).2.2 with
        | some id => [(i, id)]
        | none => []) ++
         (bulkApply (applyUpdateOne docs nid r).1 (applyUpdateOne docs nid r).2.1
           (i + 1) reqs).2.2) := by
  rw [bulkApply.eq_def]

theorem applyUpdateOne_matched {docs : List Doc} {nid : Nat} {r : UpdateOne}
    {docsu : List Doc} {d : Doc}
    (hu : updateFirst (matchesDoc r.filter) (fun d => d.setMany r.set) docs =
      (docsu, some d)) :
    applyUpdateOne docs nid r = (docsu, nid, none) := by
  rw [applyUpdateOne, hu]

theorem applyUpdateOne_created {docs : List Doc} {nid : Nat} {r : UpdateOne}
    {docsu : List Doc}
    (hu : updateFirst (matchesDoc r.filter) (fun d => d.setMany r.set) docs =
      (docsu, none)) :
    applyUpdateOne docs nid r =
      (docs ++ [upsertInsertDoc r.filter r.set nid], nid + 1, some nid) := by
  rw [applyUpdateOne, hu]


theorem bulkApply_length {reqs : List UpdateOne} {docs : List Doc} {nid i : Nat} :
    docs.length ≤ (bulkApply docs nid i reqs).1.length := by
  induction reqs generalizing docs nid i with
  | nil => exact le_refl _
  | cons r rest ih =>
      rw [bulkApply_cons]
      rcases hu : updateFirst (matchesDoc r.filter) (fun d => d.setMany r.set) docs with
        ⟨docsu, od⟩
      cases od with
      | some d =>
          rw [applyUpdateOne_matched hu]
          obtain ⟨n, hn, _, _, hset, _⟩ := updateFirst_some_spec hu
          have h1 : docsu.length = docs.length := by rw [hset, List.length_set]
          show docs.length ≤ (bulkApply docsu nid (i + 1) rest).1.length
          exact le_trans (le_of_eq h1.symm) ih
      | none =>
          rw [applyUpdateOne_created hu]
          show docs.length ≤
            (bulkApply (docs ++ [upsertInsertDoc r.filter r.set nid]) (nid + 1)
              (i + 1) rest).1.length
          refine le_trans ?_ ih
          simp

theorem bulkApply_ids_ge {reqs : List UpdateOne} {docs : List Doc} {nid i : Nat} :
    ∀ p ∈ (bulkApply docs nid i reqs).2.2, i ≤ p.1 := by
  induction reqs generalizing docs nid i with
  | nil => simp [bulkApply_nil]
  | cons r rest ih =>
      rw [bulkApply_cons]
      intro p hp
      simp only [List.mem_append] at hp
      rcases hp with hp | hp
      · rcases hc : (applyUpdateOne docs nid r).2.2 with _ | id
        · rw [hc] at hp
          simp at hp
        · rw [hc] at hp
          simp only [List.mem_singleton] at hp
          subst hp
          exact le_refl _
      · have := ih p hp
        omega

theorem getUpserted_nil (i : Nat) :
    BulkWriteResult.getUpserted ⟨[]⟩ i = none := rfl

theorem getElem_congr_list {l1 l2 : List Doc} (h : l1 = l2) {n : Nat}
    (hn : n < l1.length) (hn2 : n < l2.length) : l1[n] = l2[n] := by
  subst h
  rfl

/-- Reads at keys a bulk never rewrites differently are stable at every
pre-existing position (the filter keys `K` of agreeing requests, and
keys no payload mentions). -/
theorem bulkApply_get_stable {K : List String} {reqs : List UpdateOne}
    (hK : ∀ r ∈ reqs, r.filter.keys = K)
    (hA : ∀ r ∈ reqs, Agrees r.filter r.set)
    {docs : List Doc} {nid i : Nat} {n : Nat} (hn : n < docs.length)
    {k : String} (hk : k ∈ K ∨ ∀ r ∈ reqs, k ∉ r.set.keys) :
    ∀ hn2 : n < (bulkApply docs nid i reqs).1.length,
      ((bulkApply docs nid i reqs).1[n]).get k = (docs[n]).get k := by
  induction reqs generalizing docs nid i with
  | nil => intro hn2; rfl
  | cons r rest ih =>
      intro hn2
      have hkrest : k ∈ K ∨ ∀ x ∈ rest, k ∉ x.set.keys := by
        rcases hk with hk | hk
        · exact Or.inl hk
        · exact Or.inr (fun x hx => hk x (List.mem_cons_of_mem _ hx))
      have hKrest : ∀ x ∈ rest, x.filter.keys = K :=
        fun x hx => hK x (List.mem_cons_of_mem _ hx)
      have hArest : ∀ x ∈ rest, Agrees x.filter x.set :=
        fun x hx => hA x (List.mem_cons_of_mem _ hx)
      rcases hu : updateFirst (matchesDoc r.filter) (fun d => d.setMany r.set) docs with
        ⟨docsu, od⟩
      cases od with
      | some d =>
          have hfst : (bulkApply docs nid i (r :: rest)).1 =
              (bulkApply docsu nid (i + 1) rest).1 := by
            rw [bulkApply_cons, applyUpdateOne_matched hu]
          obtain ⟨m, hm, hmatch, hd, hset, hpre⟩ := updateFirst_some_spec hu
          have hlen1 : docsu.length = docs.length := by rw [hset, List.length_set]
          have hn1 : n < docsu.length := by omega
          have hn3 : n < (bulkApply docsu nid (i + 1) rest).1.length := by
            rw [← hfst]
            exact hn2
          have hstep : (docsu[n]).get k = (docs[n]).get k := by
            by_cases hnm : n = m
            · subst hnm
              have hlen2 : n < (docs.set n d).length := by
                simp [List.length_set]
                omega
              have hg : docsu[n] = d := by
                rw [getElem_congr_list hset hn1 hlen2]
                exact List.getElem_set_self hlen2
              rw [hg, hd]
              rcases hk with hk | hk
              · exact get_setMany_of_agrees (hA r (List.mem_cons_self _ _)) hmatch
                  ((hK r (List.mem_cons_self _ _)) ▸ hk)
              · rw [get_setMany, lastVal?_eq_none_of_not_mem (hk r (List.mem_cons_self _ _))]
                rfl
            · have hlen2 : n < (docs.set m d).length := by
                simp [List.length_set]
                omega
              have hg : docsu[n] = docs[n] := by
                rw [getElem_congr_list hset hn1 hlen2]
                exact List.getElem_set_ne (fun he => hnm he.symm) hlen2
              rw [hg]
          rw [getElem_congr_list hfst hn2 hn3, ← hstep]
          exact ih hKrest hArest hn1 hkrest hn3
      | none =>
          have hfst : (bulkApply docs nid i (r :: rest)).1 =
              (bulkApply (docs ++ [upsertInsertDoc r.filter r.set nid]) (nid + 1)
                (i + 1) rest).1 := by
            rw [bulkApply_cons, applyUpdateOne_created hu]
          have hn1 : n < (docs ++ [upsertInsertDoc r.filter r.set nid]).length := by
            simp
            omega
          have hn3 : n < (bulkApply (docs ++ [upsertInsertDoc r.filter r.set nid])
              (nid + 1) (i + 1) rest).1.length := by
            rw [← hfst]
            exact hn2
          have hstep : (docs ++ [upsertInsertDoc r.filter r.set nid])[n] = docs[n] :=
            List.getElem_append_left hn
          rw [getElem_congr_list hfst hn2 hn3, ← hstep]
          exact ih hKrest hArest hn1 hkrest hn3

/-- A request is settled in a collection state: the first document
matching its filter exists and re-applying its payload to it changes
nothing. -/
def Settled (docs : List Doc) (r : UpdateOne) : Prop :=
  ∃ n, ∃ hn : n < docs.length, matchesDoc r.filter docs[n] = true ∧
    docs[n].setMany r.set = docs[n] ∧
    ∀ m, ∀ hm : m < docs.length, m < n → ¬ matchesDoc r.filter docs[m] = true

/-- A bulk of settled requests is a no-op: the collection is unchanged,
no id is consumed, and nothing is upserted. -/
theorem bulkApply_of_settled {docs : List Doc} {reqs : List UpdateOne}
    (h : ∀ r ∈ reqs, Settled docs r) (nid i : Nat) :
    bulkApply docs nid i reqs = (docs, nid, []) := by
  induction reqs generalizing i with
  | nil => rfl
  | cons r rest ih =>
      obtain ⟨n, hn, hmatch, hfix, hpre⟩ := h r (List.mem_cons_self _ _)
      have hu : updateFirst (matchesDoc r.filter) (fun d => d.setMany r.set) docs =
          (docs, some docs[n]) :=
        updateFirst_of_first_fix hn hmatch hfix hpre
      rw [bulkApply_cons, applyUpdateOne_matched hu]
      have hrest := ih (fun x hx => h x (List.mem_cons_of_mem _ hx)) (i + 1)
      simp [hrest]

theorem getUpserted_of_keys_gt {l : List (Nat × Nat)} {t : Nat}
    (h : ∀ p ∈ l, t < p.1) : BulkWriteResult.getUpserted ⟨l⟩ t = none := by
  rw [BulkWriteResult.getUpserted]
  have : l.find? (fun p => p.1 = t) = none := by
    rw [List.find?_eq_none]
    intro p hp
    have := h p hp
    simp
    omega
  rw [this]

theorem getUpserted_cons_ne {e : Nat × Nat} {l : List (Nat × Nat)} {t : Nat}
    (h : e.1 ≠ t) :
    BulkWriteResult.getUpserted ⟨e :: l⟩ t = BulkWriteResult.getUpserted ⟨l⟩ t := by
  rw [BulkWriteResult.getUpserted, BulkWriteResult.getUpserted,
    List.find?_cons_of_neg _ (by simpa using h)]

theorem getUpserted_cons_self {e : Nat × Nat} {l : List (Nat × Nat)} :
    BulkWriteResult.getUpserted ⟨e :: l⟩ e.1 = some e.2 := by
  rw [BulkWriteResult.getUpserted, List.find?_cons_of_pos _ (by simp)]

/-- A settled-like target position survives a bulk whose requests all
carry different filters over the same key list: the document there is
untouched and nothing before it starts matching. -/
theorem settled_stable {K : List String} {r : UpdateOne} {reqs : List UpdateOne}
    (hKnd : K.Nodup) (hrK : r.filter.keys = K)
    (hK : ∀ x ∈ reqs, x.filter.keys = K)
    (hA : ∀ x ∈ reqs, Agrees x.filter x.set)
    (hne : ∀ x ∈ reqs, x.filter ≠ r.filter)
    {docs : List Doc} {n : Nat} (hn : n < docs.length)
    (hmatch : matchesDoc r.filter docs[n] = true)
    (hpre : ∀ m, ∀ hm : m < docs.length, m < n → ¬ matchesDoc r.filter docs[m] = true)
    (nid i : Nat) :
    ∃ hn2 : n < (bulkApply docs nid i reqs).1.length,
      (bulkApply docs nid i reqs).1[n] = docs[n] ∧
      ∀ m, ∀ hm : m < (bulkApply docs nid i reqs).1.length, m < n →
        ¬ matchesDoc r.filter ((bulkApply docs nid i reqs).1[m]) = true := by
  induction reqs generalizing docs nid i with
  | nil => exact ⟨hn, rfl, fun m hm hlt => hpre m hm hlt⟩
  | cons x rest ih =>
      have hxK := hK x (List.mem_cons_self _ _)
      have hxA := hA x (List.mem_cons_self _ _)
      have hxne := hne x (List.mem_cons_self _ _)
      rcases hu : updateFirst (matchesDoc x.filter) (fun d => d.setMany x.set) docs with
        ⟨docsu, od⟩
      cases od with
      | some d =>
          obtain ⟨m, hm, hxmatch, hd, hset, hxpre⟩ := updateFirst_some_spec hu
          have hmn : m ≠ n := by
            intro he
            subst he
            exact hxne (filter_eq_of_common_match (hxK.trans hrK.symm)
              (hxK ▸ hKnd) hxmatch hmatch)
          have hlen1 : docsu.length = docs.length := by rw [hset, List.length_set]
          have hn1 : n < docsu.length := by omega
          have hgn : docsu[n] = docs[n] := by
            rw [getElem_congr_list hset hn1 (by simp only [List.length_set]; omega)]
            exact List.getElem_set_ne hmn (by simp only [List.length_set]; omega)
          have hpre1 : ∀ p, ∀ hp : p < docsu.length, p < n →
              ¬ matchesDoc r.filter (docsu[p]) = true := by
            intro p hp hlt
            by_cases hpm : p = m
            · subst hpm
              have hgp : docsu[p] = docs[p].setMany x.set := by
                rw [getElem_congr_list hset hp (by simp only [List.length_set]; omega), hd]
                exact List.getElem_set_self (by simp only [List.length_set]; omega)
              rw [hgp, matches_setMany_iff_of_agrees hxA hxmatch
                (fun k hk => by rw [hxK]; exact hrK ▸ hk)]
              exact hpre p (by omega) hlt
            · have hgp : docsu[p] = docs[p] := by
                rw [getElem_congr_list hset hp (by simp only [List.length_set]; omega)]
                exact List.getElem_set_ne (fun he => hpm he.symm) (by simp only [List.length_set]; omega)
              rw [hgp]
              exact hpre p (by omega) hlt
          have hrec := ih (fun y hy => hK y (List.mem_cons_of_mem _ hy))
            (fun y hy => hA y (List.mem_cons_of_mem _ hy))
            (fun y hy => hne y (List.mem_cons_of_mem _ hy))
            hn1 (hgn ▸ hmatch) hpre1 nid (i + 1)
          obtain ⟨hn2, hfinal, hprefin⟩ := hrec
          have hfst : (bulkApply docs nid i (x :: rest)).1 =
              (bulkApply docsu nid (i + 1) rest).1 := by
            rw [bulkApply_cons, applyUpdateOne_matched hu]
          refine ⟨by rw [hfst]; exact hn2, ?_, ?_⟩
          · rw [getElem_congr_list hfst (by rw [hfst]; exact hn2) hn2, hfinal, hgn]
          · intro p hp hlt
            have hp2 : p < (bulkApply docsu nid (i + 1) rest).1.length := by
              rw [← hfst]
              exact hp
            rw [getElem_congr_list hfst hp hp2]
            exact hprefin p hp2 hlt
      | none =>
          obtain ⟨he, hall⟩ := updateFirst_none_spec hu
          have hn1 : n < (docs ++ [upsertInsertDoc x.filter x.set nid]).length := by
            simp
            omega
          have hgn : (docs ++ [upsertInsertDoc x.filter x.set nid])[n] = docs[n] :=
            List.getElem_append_left hn
          have hpre1 : ∀ p, ∀ hp : p < (docs ++ [upsertInsertDoc x.filter x.set nid]).length,
              p < n → ¬ matchesDoc r.filter
                ((docs ++ [upsertInsertDoc x.filter x.set nid])[p]) = true := by
            intro p hp hlt
            have hpd : p < docs.length := by omega
            have hgp : (docs ++ [upsertInsertDoc x.filter x.set nid])[p] = docs[p] :=
              List.getElem_append_left hpd
            rw [hgp]
            exact hpre p hpd hlt
          have hrec := ih (fun y hy => hK y (List.mem_cons_of_mem _ hy))
            (fun y hy => hA y (List.mem_cons_of_mem _ hy))
            (fun y hy => hne y (List.mem_cons_of_mem _ hy))
            hn1 (hgn ▸ hmatch) hpre1 (nid + 1) (i + 1)
          obtain ⟨hn2, hfinal, hprefin⟩ := hrec
          have hfst : (bulkApply docs nid i (x :: rest)).1 =
              (bulkApply (docs ++ [upsertInsertDoc x.filter x.set nid]) (nid + 1)
                (i + 1) rest).1 := by
            rw [bulkApply_cons, applyUpdateOne_created hu]
          refine ⟨by rw [hfst]; exact hn2, ?_, ?_⟩
          · rw [getElem_congr_list hfst (by rw [hfst]; exact hn2) hn2, hfinal, hgn]
          · intro p hp hlt
            have hp2 : p < (bulkApply (docs ++ [upsertInsertDoc x.filter x.set nid])
                (nid + 1) (i + 1) rest).1.length := by
              rw [← hfst]
              exact hp
            rw [getElem_congr_list hfst hp hp2]
            exact hprefin p hp2 hlt

/-- Master specification of one bulk pass over requests with pairwise
distinct filters on a common duplicate-free key list `K`, each payload
agreeing with its filter and never writing `_id`: afterwards every
request is settled at a definite first-match position, and when the
pass reports an upserted id for a request, the settled document carries
that id. -/
theorem bulkApply_master {K : List String} {reqs : List UpdateOne}
    (hKnd : K.Nodup)
    (hK : ∀ x ∈ reqs, x.filter.keys = K)
    (hA : ∀ x ∈ reqs, Agrees x.filter x.set)
    (hDist : (reqs.map (fun x => x.filter)).Nodup)
    (hIdK : "_id" ∉ K) (hIdS : ∀ x ∈ reqs, "_id" ∉ x.set.keys)
    {docs : List Doc} (hDnd : ∀ d ∈ docs, d.keys.Nodup) (nid i : Nat) :
    ∀ j, ∀ hj : j < reqs.length,
      ∃ n, ∃ hn2 : n < (bulkApply docs nid i reqs).1.length,
        matchesDoc (reqs[j]).filter ((bulkApply docs nid i reqs).1[n]) = true ∧
        ((bulkApply docs nid i reqs).1[n]).setMany (reqs[j]).set =
          (bulkApply docs nid i reqs).1[n] ∧
        (∀ m, ∀ hm : m < (bulkApply docs nid i reqs).1.length, m < n →
          ¬ matchesDoc (reqs[j]).filter ((bulkApply docs nid i reqs).1[m]) = true) ∧
        (∀ id, BulkWriteResult.getUpserted ⟨(bulkApply docs nid i reqs).2.2⟩ (i + j) =
            some id → ((bulkApply docs nid i reqs).1[n]).get "_id" = vOid id) := by
  induction reqs generalizing docs nid i with
  | nil => intro j hj; simp at hj
  | cons r rest ih =>
      have hrK := hK r (List.mem_cons_self _ _)
      have hrA := hA r (List.mem_cons_self _ _)
      have hrIdS := hIdS r (List.mem_cons_self _ _)
      have hKrest : ∀ x ∈ rest, x.filter.keys = K :=
        fun x hx => hK x (List.mem_cons_of_mem _ hx)
      have hArest : ∀ x ∈ rest, Agrees x.filter x.set :=
        fun x hx => hA x (List.mem_cons_of_mem _ hx)
      have hIdSrest : ∀ x ∈ rest, "_id" ∉ x.set.keys :=
        fun x hx => hIdS x (List.mem_cons_of_mem _ hx)
      have hDistRest : (rest.map (fun x => x.filter)).Nodup :=
        (List.nodup_cons.mp hDist).2
      have hrne : ∀ x ∈ rest, x.filter ≠ r.filter := by
        intro x hx he
        have hmem : r.filter ∈ rest.map (fun y => y.filter) := by
          rw [← he]
          exact List.mem_map_of_mem _ hx
        exact (List.nodup_cons.mp hDist).1 hmem
      rcases hu : updateFirst (matchesDoc r.filter) (fun d => d.setMany r.set) docs with
        ⟨docsu, od⟩
      cases od with
      | some d =>
          obtain ⟨m, hm, hmatch, hd, hset, hpre⟩ := updateFirst_some_spec hu
          have hlen1 : docsu.length = docs.length := by rw [hset, List.length_set]
          have hDnd1 : ∀ x ∈ docsu, x.keys.Nodup := by
            intro x hx
            rw [hset] at hx
            rcases List.mem_or_eq_of_mem_set hx with hx | rfl
            · exact hDnd x hx
            · rw [hd]
              exact nodup_keys_setMany _ (hDnd _ (List.getElem_mem hm))
          have hfst : (bulkApply docs nid i (r :: rest)).1 =
              (bulkApply docsu nid (i + 1) rest).1 := by
            rw [bulkApply_cons, applyUpdateOne_matched hu]
          have hids : (bulkApply docs nid i (r :: rest)).2.2 =
              (bulkApply docsu nid (i + 1) rest).2.2 := by
            rw [bulkApply_cons, applyUpdateOne_matched hu]
            rfl
          intro j hj
          cases j with
          | zero =>
              have hgm : ∀ hmu : m < docsu.length, docsu[m] = docs[m].setMany r.set := by
                intro hmu
                rw [getElem_congr_list hset hmu (by simp only [List.length_set]; omega), hd]
                exact List.getElem_set_self (by simp only [List.length_set]; omega)
              have hmu : m < docsu.length := by omega
              have hmatch1 : matchesDoc r.filter (docsu[m]) = true := by
                rw [hgm hmu, matches_setMany_iff_of_agrees hrA hmatch (fun k hk => hk)]
                exact hmatch
              have hpre1 : ∀ p, ∀ hp : p < docsu.length, p < m →
                  ¬ matchesDoc r.filter (docsu[p]) = true := by
                intro p hp hlt
                have hgp : docsu[p] = docs[p] := by
                  rw [getElem_congr_list hset hp (by simp only [List.length_set]; omega)]
                  exact List.getElem_set_ne (by omega) (by simp only [List.length_set]; omega)
                rw [hgp]
                exact hpre p (by omega) hlt
              obtain ⟨hn2, hkeep, hprefin⟩ := settled_stable hKnd hrK hKrest hArest hrne
                hmu hmatch1 hpre1 nid (i + 1)
              refine ⟨m, by rw [hfst]; exact hn2, ?_, ?_, ?_, ?_⟩
              · rw [getElem_congr_list hfst (by rw [hfst]; exact hn2) hn2, hkeep]
                simpa using hmatch1
              · rw [getElem_congr_list hfst (by rw [hfst]; exact hn2) hn2, hkeep, hgm hmu,
                  List.getElem_cons_zero]
                exact setMany_setMany _ (hDnd _ (List.getElem_mem hm))
              · intro p hp hlt
                have hp2 : p < (bulkApply docsu nid (i + 1) rest).1.length := by
                  rw [← hfst]
                  exact hp
                rw [getElem_congr_list hfst hp hp2]
                simpa using hprefin p hp2 hlt
              · intro id hid
                rw [hids] at hid
                have := @bulkApply_ids_ge rest docsu nid (i + 1)
                rw [getUpserted_of_keys_gt (by
                  intro p hp
                  have := this p hp
                  omega)] at hid
                cases hid
          | succ j =>
              have hj2 : j < rest.length := by simpa using hj
              obtain ⟨n, hn2, hmatch2, hfix2, hpre2, hid2⟩ :=
                ih hKrest hArest hDistRest hIdSrest hDnd1 nid (i + 1) j hj2
              refine ⟨n, by rw [hfst]; exact hn2, ?_, ?_, ?_, ?_⟩
              · rw [getElem_congr_list hfst (by rw [hfst]; exact hn2) hn2]
                simpa using hmatch2
              · rw [getElem_congr_list hfst (by rw [hfst]; exact hn2) hn2]
                simpa using hfix2
              · intro p hp hlt
                have hp2 : p < (bulkApply docsu nid (i + 1) rest).1.length := by
                  rw [← hfst]
                  exact hp
                rw [getElem_congr_list hfst hp hp2]
                simpa using hpre2 p hp2 hlt
              · intro id hid
                rw [hids] at hid
                have harith : i + (j + 1) = (i + 1) + j := by omega
                rw [harith] at hid
                rw [getElem_congr_list hfst (by rw [hfst]; exact hn2) hn2]
                exact hid2 id hid
      | none =>
          obtain ⟨he, hall⟩ := updateFirst_none_spec hu
          have hDnd1 : ∀ x ∈ docs ++ [upsertInsertDoc r.filter r.set nid], x.keys.Nodup := by
            intro x hx
            rcases List.mem_append.mp hx with hx | hx
            · exact hDnd x hx
            · simp only [List.mem_singleton] at hx
              subst hx
              exact upsertInsert_keys_nodup _ _ _
          have hfst : (bulkApply docs nid i (r :: rest)).1 =
              (bulkApply (docs ++ [upsertInsertDoc r.filter r.set nid]) (nid + 1)
                (i + 1) rest).1 := by
            rw [bulkApply_cons, applyUpdateOne_created hu]
          have hids : (bulkApply docs nid i (r :: rest)).2.2 =
              (i, nid) :: (bulkApply (docs ++ [upsertInsertDoc r.filter r.set nid])
                (nid + 1) (i + 1) rest).2.2 := by
            rw [bulkApply_cons, applyUpdateOne_created hu]
            rfl
          intro j hj
          cases j with
          | zero =>
              have hnlen : docs.length < (docs ++ [upsertInsertDoc r.filter r.set nid]).length := by
                simp
              have hgnew : (docs ++ [upsertInsertDoc r.filter r.set nid])[docs.length] =
                  upsertInsertDoc r.filter r.set nid :=
                List.getElem_concat_length _ _ _ rfl _
              have hmatch1 : matchesDoc r.filter
                  ((docs ++ [upsertInsertDoc r.filter r.set nid])[docs.length]) = true := by
                rw [hgnew]
                exact upsertInsert_matches (hrK ▸ hKnd) hrA nid
              have hpre1 : ∀ p, ∀ hp : p < (docs ++ [upsertInsertDoc r.filter r.set nid]).length,
                  p < docs.length →
                  ¬ matchesDoc r.filter ((docs ++ [upsertInsertDoc r.filter r.set nid])[p]) = true := by
                intro p hp hlt
                have hgp : (docs ++ [upsertInsertDoc r.filter r.set nid])[p] = docs[p] :=
                  List.getElem_append_left hlt
                rw [hgp]
                exact hall _ (List.getElem_mem hlt)
              obtain ⟨hn2, hkeep, hprefin⟩ := settled_stable hKnd hrK hKrest hArest hrne
                hnlen hmatch1 hpre1 (nid + 1) (i + 1)
              refine ⟨docs.length, by rw [hfst]; exact hn2, ?_, ?_, ?_, ?_⟩
              · rw [getElem_congr_list hfst (by rw [hfst]; exact hn2) hn2, hkeep]
                simpa using hmatch1
              · rw [getElem_congr_list hfst (by rw [hfst]; exact hn2) hn2, hkeep, hgnew,
                  List.getElem_cons_zero]
                exact upsertInsert_fix _ _ _
              · intro p hp hlt
                have hp2 : p < (bulkApply (docs ++ [upsertInsertDoc r.filter r.set nid])
                    (nid + 1) (i + 1) rest).1.length := by
                  rw [← hfst]
                  exact hp
                rw [getElem_congr_list hfst hp hp2]
                simpa using hprefin p hp2 hlt
              · intro id hid
                rw [hids] at hid
                have hfirst : BulkWriteResult.getUpserted
                    ⟨(i, nid) :: (bulkApply (docs ++ [upsertInsertDoc r.filter r.set nid])
                      (nid + 1) (i + 1) rest).2.2⟩ (i + 0) = some nid := by
                  have : i + 0 = (i, nid).1 := by omega
                  rw [this]
                  exact getUpserted_cons_self
                rw [hfirst] at hid
                injection hid with hid
                subst hid
                rw [getElem_congr_list hfst (by rw [hfst]; exact hn2) hn2, hkeep, hgnew]
                exact upsertInsert_id (hrK ▸ hIdK) hrIdS nid
          | succ j =>
              have hj2 : j < rest.length := by simpa using hj
              obtain ⟨n, hn2, hmatch2, hfix2, hpre2, hid2⟩ :=
                ih hKrest hArest hDistRest hIdSrest hDnd1 (nid + 1) (i + 1) j hj2
              refine ⟨n, by rw [hfst]; exact hn2, ?_, ?_, ?_, ?_⟩
              · rw [getElem_congr_list hfst (by rw [hfst]; exact hn2) hn2]
                simpa using hmatch2
              · rw [getElem_congr_list hfst (by rw [hfst]; exact hn2) hn2]
                simpa using hfix2
              · intro p hp hlt
                have hp2 : p < (bulkApply (docs ++ [upsertInsertDoc r.filter r.set nid])
                    (nid + 1) (i + 1) rest).1.length := by
                  rw [← hfst]
                  exact hp
                rw [getElem_congr_list hfst hp hp2]
                simpa using hpre2 p hp2 hlt
              · intro id hid
                rw [hids, getUpserted_cons_ne (by show i ≠ i + (j + 1); omega),
                  ← Nat.add_assoc] at hid
                rw [getElem_congr_list hfst (by rw [hfst]; exact hn2) hn2]
                exact hid2 id (by
                  have harith : i + 1 + j = i + (j + 1) := by omega
                  rw [harith]
                  exact hid)

/-! ## bulk_write wrappers and loader error shapes -/

theorem bulk_write_of_ne_nil {db : DB} {coll : String} {reqs : List UpdateOne}
    (hne : reqs ≠ []) :
    bulk_write db coll reqs =
      ({ colls := (db.setCollection coll
            (bulkApply (db.getCollection coll) db.nextId 0 reqs).1).colls,
         nextId := (bulkApply (db.getCollection coll) db.nextId 0 reqs).2.1 },
       .ok ⟨(bulkApply (db.getCollection coll) db.nextId 0 reqs).2.2⟩) := by
  rw [bulk_write, if_neg (by simpa using hne)]

theorem bulk_write_nil {db : DB} {coll : String} :
    bulk_write db coll [] = (db, .error .invalidOperation) := by
  rw [bulk_write]
  rfl

theorem bulk_write_error {db db1 : DB} {coll : String} {reqs : List UpdateOne}
    {e : LoadError} (h : bulk_write db coll reqs = (db1, .error e)) :
    e = .invalidOperation ∧ db1 = db ∧ reqs = [] := by
  by_cases hne : reqs = []
  · subst hne
    rw [bulk_write_nil] at h
    injection h with h1 h2
    injection h2 with h2
    exact ⟨h2.symm, h1.symm, rfl⟩
  · rw [bulk_write_of_ne_nil hne] at h
    injection h with h1 h2
    cases h2

theorem bulk_write_ok_shape {db db1 : DB} {coll : String} {reqs : List UpdateOne}
    {res : BulkWriteResult} (h : bulk_write db coll reqs = (db1, .ok res)) :
    reqs ≠ [] ∧
    db1 = DB.mk (db.setCollection coll
        (bulkApply (db.getCollection coll) db.nextId 0 reqs).1).colls
      (bulkApply (db.getCollection coll) db.nextId 0 reqs).2.1 ∧
    res = ⟨(bulkApply (db.getCollection coll) db.nextId 0 reqs).2.2⟩ := by
  by_cases hne : reqs = []
  · subst hne
    rw [bulk_write_nil] at h
    injection h with h1 h2
    cases h2
  · rw [bulk_write_of_ne_nil hne] at h
    injection h with h1 h2
    injection h2 with h2
    exact ⟨hne, h1.symm, h2.symm⟩

theorem bulk_write_getCollection_other {db db1 : DB} {coll other : String}
    {reqs : List UpdateOne} {r : Except LoadError BulkWriteResult}
    (h : bulk_write db coll reqs = (db1, r)) (hne : other ≠ coll) :
    db1.getCollection other = db.getCollection other := by
  by_cases hnil : reqs = []
  · subst hnil
    rw [bulk_write_nil] at h
    injection h with h1 h2
    rw [← h1]
  · rw [bulk_write_of_ne_nil hnil] at h
    injection h with h1 h2
    rw [← h1]
    exact getCollection_setCollection_ne db _ (fun he => hne he.symm)

theorem bulk_write_getCollection_same {db db1 : DB} {coll : String}
    {reqs : List UpdateOne} {res : BulkWriteResult}
    (h : bulk_write db coll reqs = (db1, .ok res)) :
    db1.getCollection coll = (bulkApply (db.getCollection coll) db.nextId 0 reqs).1 := by
  obtain ⟨hne, hdb, hres⟩ := bulk_write_ok_shape h
  rw [hdb]
  show (DB.setCollection db coll
    (bulkApply (db.getCollection coll) db.nextId 0 reqs).1).getCollection coll = _
  exact getCollection_setCollection_same db coll _

theorem create_variable_reference_error {db : DB} {t : String}
    {meta : List (String × String)} {e : LoadError}
    (h : create_variable_reference db t meta = .error e) :
    e = .unableToFindDocument t db_collection.variables (variableQuery db meta) ∧
    (variableDocsId db meta).length ≠ (institutionNamesOf meta).length := by
  rw [create_variable_reference] at h
  by_cases hlen : (variableDocsId db meta).length ≠ (institutionNamesOf meta).length
  · rw [if_pos hlen] at h
    injection h with h1
    exact ⟨h1.symm, hlen⟩
  · rw [if_neg hlen] at h
    by_cases hdt : metaGet meta "data_type" = some db_collection.legal_framework
    · rw [if_pos hdt] at h
      cases h
    · rw [if_neg hdt] at h
      cases h

theorem create_variable_reference_ok {db : DB} {t : String}
    {meta : List (String × String)} {ref : Doc}
    (h : create_variable_reference db t meta = .ok ref) :
    (variableDocsId db meta).length = (institutionNamesOf meta).length := by
  rw [create_variable_reference] at h
  by_cases hlen : (variableDocsId db meta).length ≠ (institutionNamesOf meta).length
  · rw [if_pos hlen] at h
    cases h
  · omega

theorem matches_congr_of_gets {f d1 d2 : Doc}
    (h : ∀ k ∈ f.keys, d1.get k = d2.get k) :
    matchesDoc f d1 = matchesDoc f d2 := by
  apply bool_eq_of_iff
  rw [matchesDoc_iff, matchesDoc_iff]
  constructor
  · intro hx kv hkv
    rw [← h kv.1 (mem_keys_of_mem hkv)]
    exact hx kv hkv
  · intro hx kv hkv
    rw [h kv.1 (mem_keys_of_mem hkv)]
    exact hx kv hkv

/-- After one bulk pass of agreeing requests over a common key list,
every request has a matching document, and a request the pass reports
an upserted id for has a matching document carrying that id.  (No
distinctness of filters is required.) -/
theorem bulkApply_exists_spec {K : List String} {reqs : List UpdateOne}
    (hKnd : K.Nodup)
    (hK : ∀ x ∈ reqs, x.filter.keys = K)
    (hA : ∀ x ∈ reqs, Agrees x.filter x.set)
    (hIdK : "_id" ∉ K) (hIdS : ∀ x ∈ reqs, "_id" ∉ x.set.keys)
    {docs : List Doc} (nid i : Nat) :
    ∀ j, ∀ hj : j < reqs.length,
      ∃ n, ∃ hn2 : n < (bulkApply docs nid i reqs).1.length,
        matchesDoc (reqs[j]).filter ((bulkApply docs nid i reqs).1[n]) = true ∧
        (∀ id, BulkWriteResult.getUpserted ⟨(bulkApply docs nid i reqs).2.2⟩ (i + j) =
            some id → ((bulkApply docs nid i reqs).1[n]).get "_id" = vOid id) := by
  induction reqs generalizing docs nid i with
  | nil => intro j hj; simp at hj
  | cons r rest ih =>
      have hrK := hK r (List.mem_cons_self _ _)
      have hrA := hA r (List.mem_cons_self _ _)
      have hrIdS := hIdS r (List.mem_cons_self _ _)
      have hKrest : ∀ x ∈ rest, x.filter.keys = K :=
        fun x hx => hK x (List.mem_cons_of_mem _ hx)
      have hArest : ∀ x ∈ rest, Agrees x.filter x.set :=
        fun x hx => hA x (List.mem_cons_of_mem _ hx)
      have hIdSrest : ∀ x ∈ rest, "_id" ∉ x.set.keys :=
        fun x hx => hIdS x (List.mem_cons_of_mem _ hx)
      rcases hu : updateFirst (matchesDoc r.filter) (fun d => d.setMany r.set) docs with
        ⟨docsu, od⟩
      cases od with
      | some d =>
          obtain ⟨m, hm, hmatch, hd, hset, hpre⟩ := updateFirst_some_spec hu
          have hlen1 : docsu.length = docs.length := by rw [hset, List.length_set]
          have hfst : (bulkApply docs nid i (r :: rest)).1 =
              (bulkApply docsu nid (i + 1) rest).1 := by
            rw [bulkApply_cons, applyUpdateOne_matched hu]
          have hids : (bulkApply docs nid i (r :: rest)).2.2 =
              (bulkApply docsu nid (i + 1) rest).2.2 := by
            rw [bulkApply_cons, applyUpdateOne_matched hu]
            rfl
          intro j hj
          cases j with
          | zero =>
              have hmu : m < docsu.length := by omega
              have hgm : docsu[m] = docs[m].setMany r.set := by
                rw [getElem_congr_list hset hmu (by simp only [List.length_set]; omega), hd]
                exact List.getElem_set_self (by simp only [List.length_set]; omega)
              have hmatch1 : matchesDoc r.filter (docsu[m]) = true := by
                rw [hgm, matches_setMany_iff_of_agrees hrA hmatch (fun k hk => hk)]
                exact hmatch
              have hmfin : m < (bulkApply docsu nid (i + 1) rest).1.length := by
                have := @bulkApply_length rest docsu nid (i + 1)
                omega
              have hmatchfin : matchesDoc r.filter
                  ((bulkApply docsu nid (i + 1) rest).1[m]) = true := by
                rw [matches_congr_of_gets (fun k hk =>
                  bulkApply_get_stable hKrest hArest hmu (Or.inl (hrK ▸ hk)) hmfin)]
                exact hmatch1
              refine ⟨m, by rw [hfst]; exact hmfin, ?_, ?_⟩
              · rw [getElem_congr_list hfst (by rw [hfst]; exact hmfin) hmfin]
                simpa using hmatchfin
              · intro id hid
                rw [hids] at hid
                have hge := @bulkApply_ids_ge rest docsu nid (i + 1)
                rw [getUpserted_of_keys_gt (by
                  intro p hp
                  have := hge p hp
                  omega)] at hid
                cases hid
          | succ j =>
              have hj2 : j < rest.length := by simpa using hj
              have hDocsu : True := trivial
              obtain ⟨n, hn2, hmatch2, hid2⟩ := ih hKrest hArest hIdSrest nid (i + 1) j hj2
              refine ⟨n, by rw [hfst]; exact hn2, ?_, ?_⟩
              · rw [getElem_congr_list hfst (by rw [hfst]; exact hn2) hn2]
                simpa using hmatch2
              · intro id hid
                rw [hids] at hid
                have harith : i + (j + 1) = (i + 1) + j := by omega
                rw [harith] at hid
                rw [getElem_congr_list hfst (by rw [hfst]; exact hn2) hn2]
                exact hid2 id hid
      | none =>
          obtain ⟨he, hall⟩ := updateFirst_none_spec hu
          have hfst : (bulkApply docs nid i (r :: rest)).1 =
              (bulkApply (docs ++ [upsertInsertDoc r.filter r.set nid]) (nid + 1)
                (i + 1) rest).1 := by
            rw [bulkApply_cons, applyUpdateOne_created hu]
          have hids : (bulkApply docs nid i (r :: rest)).2.2 =
              (i, nid) :: (bulkApply (docs ++ [upsertInsertDoc r.filter r.set nid])
                (nid + 1) (i + 1) rest).2.2 := by
            rw [bulkApply_cons, applyUpdateOne_created hu]
            rfl
          intro j hj
          cases j with
          | zero =>
              have hnlen : docs.length < (docs ++ [upsertInsertDoc r.filter r.set nid]).length := by
                simp
              have hgnew : (docs ++ [upsertInsertDoc r.filter r.set nid])[docs.length] =
                  upsertInsertDoc r.filter r.set nid :=
                List.getElem_concat_length _ _ _ rfl _
              have hnfin : docs.length < (bulkApply
                  (docs ++ [upsertInsertDoc r.filter r.set nid]) (nid + 1)
                  (i + 1) rest).1.length := by
                have := @bulkApply_length rest
                  (docs ++ [upsertInsertDoc r.filter r.set nid]) (nid + 1) (i + 1)
                simp at this
                omega
              have hmatchfin : matchesDoc r.filter ((bulkApply
                  (docs ++ [upsertInsertDoc r.filter r.set nid]) (nid + 1)
                  (i + 1) rest).1[docs.length]) = true := by
                rw [matches_congr_of_gets (fun k hk =>
                  bulkApply_get_stable hKrest hArest hnlen (Or.inl (hrK ▸ hk)) hnfin),
                  hgnew]
                exact upsertInsert_matches (hrK ▸ hKnd) hrA nid
              have hidfin : ((bulkApply (docs ++ [upsertInsertDoc r.filter r.set nid])
                  (nid + 1) (i + 1) rest).1[docs.length]).get "_id" = vOid nid := by
                rw [bulkApply_get_stable hKrest hArest hnlen (Or.inr hIdSrest) hnfin, hgnew]
                exact upsertInsert_id (hrK ▸ hIdK) hrIdS nid
              refine ⟨docs.length, by rw [hfst]; exact hnfin, ?_, ?_⟩
              · rw [getElem_congr_list hfst (by rw [hfst]; exact hnfin) hnfin]
                simpa using hmatchfin
              · intro id hid
                rw [hids] at hid
                have hfirst : BulkWriteResult.getUpserted
                    ⟨(i, nid) :: (bulkApply (docs ++ [upsertInsertDoc r.filter r.set nid])
                      (nid + 1) (i + 1) rest).2.2⟩ (i + 0) = some nid := by
                  have he2 : i + 0 = (i, nid).1 := by omega
                  rw [he2]
                  exact getUpserted_cons_self
                rw [hfirst] at hid
                injection hid with hid
                subst hid
                rw [getElem_congr_list hfst (by rw [hfst]; exact hnfin) hnfin]
                exact hidfin
          | succ j =>
              have hj2 : j < rest.length := by simpa using hj
              obtain ⟨n, hn2, hmatch2, hid2⟩ := ih hKrest hArest hIdSrest (nid + 1)
                (i + 1) j hj2
              refine ⟨n, by rw [hfst]; exact hn2, ?_, ?_⟩
              · rw [getElem_congr_list hfst (by rw [hfst]; exact hn2) hn2]
                simpa using hmatch2
              · intro id hid
                rw [hids, getUpserted_cons_ne (by show i ≠ i + (j + 1); omega),
                  ← Nat.add_assoc] at hid
                rw [getElem_congr_list hfst (by rw [hfst]; exact hn2) hn2]
                exact hid2 id (by
                  have harith : i + 1 + j = i + (j + 1) := by omega
                  rw [harith]
                  exact hid)

theorem load_institutions_error_shape {db : DB} {fsd : FormattedSheetData}
    {e : LoadError} (h : (load_institutions db fsd).2 = .error e) :
    e = .invalidOperation := by
  rw [load_institutions] at h
  split at h
  · rename_i db1 e1 heq
    injection h with h1
    obtain ⟨h2, _, _⟩ := bulk_write_error heq
    rw [← h1, h2]
  · rename_i db1 res heq
    split at h
    · rename_i db2 e2 heq2
      injection h with h1
      obtain ⟨h2, _, _⟩ := bulk_write_error heq2
      rw [← h1, h2]
    · rename_i db2 vres heq2
      cases h

theorem load_composite_variable_error_shape {db : DB} {fsd : FormattedSheetData}
    {e : LoadError} (h : (load_composite_variable db fsd).2 = .error e) :
    e = .unableToFindDocument fsd.sheet_title db_collection.variables
        (variableQuery db fsd.meta_data) ∨
    e = .invalidOperation := by
  rw [load_composite_variable] at h
  split at h
  · rename_i e1 heq
    injection h with h1
    obtain ⟨h2, _⟩ := create_variable_reference_error heq
    rw [← h1, h2]
    exact Or.inl rfl
  · rename_i ref heq
    split at h
    · rename_i db1 res heq2
      cases h
    · rename_i db1 e2 heq2
      injection h with h1
      obtain ⟨h2, _, _⟩ := bulk_write_error heq2
      rw [← h1, h2]
      exact Or.inr rfl

theorem load_aggregate_error_shape {db : DB} {fsd : FormattedSheetData}
    {e : LoadError}
    (h : (load_institution_with_aggregate_variable db fsd).2 = .error e) :
    e = .invalidOperation := by
  rw [load_institution_with_aggregate_variable] at h
  split at h
  · rename_i db2 res heq
    cases h
  · rename_i db2 e2 heq
    injection h with h1
    obtain ⟨h2, _, _⟩ := bulk_write_error heq
    rw [← h1, h2]

theorem load_combined_error_shape {db : DB} {fsd : FormattedSheetData}
    {e : LoadError}
    (h : (load_institution_and_composite_variable db fsd).2 = .error e) :
    e = .unableToFindDocument fsd.sheet_title db_collection.variables
        (variableQuery db fsd.meta_data) ∨
    e = .invalidOperation := by
  rw [load_institution_and_composite_variable] at h
  split at h
  · rename_i db1 s1 heq
    split at h
    · rename_i db2 s2 heq2
      cases h
    · rename_i db2 e2 heq2
      injection h with h1
      have h2 : (load_institution_with_aggregate_variable db1 fsd).2 = .error e2 := by
        rw [heq2]
      rw [← h1, load_aggregate_error_shape h2]
      exact Or.inr rfl
  · rename_i db1 e1 heq
    injection h with h1
    have h2 : (load_composite_variable db fsd).2 = .error e1 := by
      rw [heq]
    rw [← h1]
    exact load_composite_variable_error_shape h2

theorem load_dispatch_no_unrecog {db : DB} {fsd : FormattedSheetData} {f : String}
    (hm : metaGet fsd.meta_data "format" = some f) (hf : f ∈ recognizedFormats) :
    ∀ t g d, (load db fsd).2 ≠ .error (.unrecognizedFormat t g d) := by
  intro t g d hc
  simp only [recognizedFormats, List.mem_cons, List.not_mem_nil, or_false] at hf
  rcases hf with rfl | rfl | rfl | rfl | rfl
  · rw [show load db fsd = load_institutions db fsd by simp [load, hm, gs_format.standard_institution, gs_format.institution_by_rows, gs_format.institution_and_composite_variable, gs_format.composite_variable, gs_format.multiple_sigla_answer_variable]] at hc
    have := load_institutions_error_shape hc
    simp at this
  · rw [show load db fsd = load_institutions db fsd by simp [load, hm, gs_format.standard_institution, gs_format.institution_by_rows, gs_format.institution_and_composite_variable, gs_format.composite_variable, gs_format.multiple_sigla_answer_variable]] at hc
    have := load_institutions_error_shape hc
    simp at this
  · rw [show load db fsd = load_institution_and_composite_variable db fsd by
      simp [load, hm, gs_format.standard_institution, gs_format.institution_by_rows, gs_format.institution_and_composite_variable, gs_format.composite_variable, gs_format.multiple_sigla_answer_variable]] at hc
    rcases load_combined_error_shape hc with h | h <;> simp at h
  · rw [show load db fsd = load_composite_variable db fsd by simp [load, hm, gs_format.standard_institution, gs_format.institution_by_rows, gs_format.institution_and_composite_variable, gs_format.composite_variable, gs_format.multiple_sigla_answer_variable]] at hc
    rcases load_composite_variable_error_shape hc with h | h <;> simp at h
  · rw [show load db fsd = load_institutions db fsd by simp [load, hm, gs_format.standard_institution, gs_format.institution_by_rows, gs_format.institution_and_composite_variable, gs_format.composite_variable, gs_format.multiple_sigla_answer_variable]] at hc
    have := load_institutions_error_shape hc
    simp at this

theorem load_unrecognized_eq {db : DB} {fsd : FormattedSheetData}
    (h : match metaGet fsd.meta_data "format" with
      | some f => f ∉ recognizedFormats
      | none => True) :
    load db fsd = (db, .error (.unrecognizedFormat fsd.sheet_title
      (metaGet fsd.meta_data "format") (metaGet fsd.meta_data "data_type"))) := by
  rcases hm : metaGet fsd.meta_data "format" with _ | f
  · simp only [load, hm]
  · rw [hm] at h
    simp only [recognizedFormats, List.mem_cons, List.not_mem_nil, or_false] at h
    push_neg at h
    obtain ⟨h1, h2, h3, h4, h5⟩ := h
    simp only [load, hm]
    rw [if_neg h1, if_neg h2, if_neg h3, if_neg h4, if_neg h5]

/-- C3: `load` raises the unrecognized-format error if and only if
`meta_data.format` is not one of the five recognized tags (including a
missing tag); the error carries the sheet title, the format tag, and
the declared `data_type`, and in that case no document is written (the
store is returned unchanged). -/
theorem claim_C3 (db : DB) (fsd : FormattedSheetData) :
    ((∃ t g d, (load db fsd).2 = .error (.unrecognizedFormat t g d)) ↔
      ¬ ∃ f, metaGet fsd.meta_data "format" = some f ∧ f ∈ recognizedFormats) ∧
    (∀ t g d, (load db fsd).2 = .error (.unrecognizedFormat t g d) →
      t = fsd.sheet_title ∧ g = metaGet fsd.meta_data "format" ∧
      d = metaGet fsd.meta_data "data_type" ∧ (load db fsd).1 = db) := by
  by_cases hrec : ∃ f, metaGet fsd.meta_data "format" = some f ∧ f ∈ recognizedFormats
  · obtain ⟨f, hm, hf⟩ := hrec
    constructor
    · constructor
      · rintro ⟨t, g, d, hc⟩
        exact absurd hc (load_dispatch_no_unrecog hm hf t g d)
      · intro hR
        exact absurd ⟨f, hm, hf⟩ hR
    · intro t g d hc
      exact absurd hc (load_dispatch_no_unrecog hm hf t g d)
  · have hcond : match metaGet fsd.meta_data "format" with
        | some f => f ∉ recognizedFormats
        | none => True := by
      rcases hm : metaGet fsd.meta_data "format" with _ | f
      · trivial
      · intro hmem
        exact hrec ⟨f, hm, hmem⟩
    have hload := @load_unrecognized_eq db fsd hcond
    constructor
    · constructor
      · intro _
        exact hrec
      · intro _
        refine ⟨fsd.sheet_title, metaGet fsd.meta_data "format",
          metaGet fsd.meta_data "data_type", ?_⟩
        rw [hload]
    · intro t g d hc
      rw [hload] at hc
      injection hc with hc
      injection hc with h1 h2 h3
      exact ⟨h1.symm, h2.symm, h3.symm, by rw [hload]⟩

/-- C2 (amended): a composite-variable load raises the
document-not-found error if and only if the number of resolved variable
identities differs from the number of semicolon-separated institution
names; the error always carries the sheet title, the `variables`
collection (regardless of which lookup actually failed) and the
variable query, and nothing has been written when it raises. -/
theorem claim_C2 (db : DB) (fsd : FormattedSheetData) :
    ((∃ t c q, (load_composite_variable db fsd).2 =
        .error (.unableToFindDocument t c q)) ↔
      (variableDocsId db fsd.meta_data).length ≠
        (institutionNamesOf fsd.meta_data).length) ∧
    (∀ t c q, (load_composite_variable db fsd).2 =
        .error (.unableToFindDocument t c q) →
      t = fsd.sheet_title ∧ c = db_collection.variables ∧
      q = variableQuery db fsd.meta_data ∧
      (load_composite_variable db fsd).1 = db) := by
  by_cases hlen : (variableDocsId db fsd.meta_data).length ≠
      (institutionNamesOf fsd.meta_data).length
  · have hcvr : create_variable_reference db fsd.sheet_title fsd.meta_data =
        .error (.unableToFindDocument fsd.sheet_title db_collection.variables
          (variableQuery db fsd.meta_data)) := by
      simp only [create_variable_reference]
      rw [if_pos hlen]
    have hload : load_composite_variable db fsd =
        (db, .error (.unableToFindDocument fsd.sheet_title db_collection.variables
          (variableQuery db fsd.meta_data))) := by
      rw [load_composite_variable, hcvr]
    constructor
    · constructor
      · intro _
        exact hlen
      · intro _
        refine ⟨fsd.sheet_title, db_collection.variables,
          variableQuery db fsd.meta_data, ?_⟩
        rw [hload]
    · intro t c q hc
      rw [hload] at hc
      injection hc with hc
      injection hc with h1 h2 h3
      exact ⟨h1.symm, h2.symm, h3.symm, by rw [hload]⟩
  · have hno : ∀ t c q, (load_composite_variable db fsd).2 ≠
        .error (.unableToFindDocument t c q) := by
      intro t c q hc
      rw [load_composite_variable] at hc
      split at hc
      · rename_i e1 heq
        obtain ⟨_, hl2⟩ := create_variable_reference_error heq
        exact hlen hl2
      · rename_i ref heq
        split at hc
        · rename_i db1 res heq2
          cases hc
        · rename_i db1 e2 heq2
          injection hc with h3
          obtain ⟨h4, _, _⟩ := bulk_write_error heq2
          rw [h4] at h3
          cases h3
    constructor
    · constructor
      · rintro ⟨t, c, q, hc⟩
        exact absurd hc (hno t c q)
      · intro h
        exact absurd h hlen
    · intro t c q hc
      exact absurd hc (hno t c q)

/-- Concrete inputs for the C2 counterexample: a store with no
institutions at all, and a composite sheet naming two institutions. -/
def exDbNoInst : DB := ⟨[], 5⟩

def exMetaAB : List (String × String) :=
  [("data_type", "legal_framework"), ("name", "A;B"), ("country", "FR"),
   ("category", "gov"), ("variable_heading", "H"), ("variable_name", "N")]

def exFsdAB : FormattedSheetData := ⟨"S", exMetaAB, [[("index", vNat 0)]]⟩

/-- C2 counterexample: the claim says the raised error names the
collection whose lookup failed, `variables` or `institutions`.  On a
store with no institutions the institution lookup is what finds nothing
(the resolved institution-id list is empty), yet the raised error names
the `variables` collection — the source's single raise site always
passes `db_collection.variables`. -/
theorem claim_C2_counterexample :
    institutionDocsId exDbNoInst exMetaAB = [] ∧
    (load_composite_variable exDbNoInst exFsdAB).2 =
      .error (.unableToFindDocument "S" db_collection.variables
        (variableQuery exDbNoInst exMetaAB)) ∧
    db_collection.variables ≠ db_collection.institutions := by
  refine ⟨rfl, rfl, by decide⟩

/-- C6: the reference resolver's output shape is decided by
`meta_data.data_type`: exactly for the legal-framework data type it
returns the whole list of resolved variable identities under a
`variables` key, and for every other data type it returns only the
first resolved identity under a `variable` key. -/
theorem claim_C6 (db : DB) (sheet_title : String) (meta : List (String × String))
    (hlen : (variableDocsId db meta).length = (institutionNamesOf meta).length) :
    (metaGet meta "data_type" = some db_collection.legal_framework →
      create_variable_reference db sheet_title meta =
        .ok [("variables", Value.vIdList ((variableDocsId db meta).map Value.asId))]) ∧
    (metaGet meta "data_type" ≠ some db_collection.legal_framework →
      create_variable_reference db sheet_title meta =
        .ok [("variable", (variableDocsId db meta).headD vNone)]) := by
  constructor
  · intro h
    simp only [create_variable_reference]
    rw [if_neg (by omega), if_pos h]
  · intro h
    simp only [create_variable_reference]
    rw [if_neg (by omega), if_neg h]

/-- A store holding one institution `A` and its composite variable. -/
def exDbOneInst : DB :=
  ⟨[("institutions",
      [[("_id", vOid 1), ("name", vStr "A"), ("country", vStr "FR"),
        ("category", vStr "gov")]]),
    ("variables",
      [[("_id", vOid 2), ("institution", vOid 1), ("heading", vStr "H"),
        ("name", vStr "N"), ("type", vStr "composite")]])], 10⟩

def exMetaA : List (String × String) :=
  [("data_type", "x"), ("name", "A"), ("country", "FR"), ("category", "gov"),
   ("variable_heading", "H"), ("variable_name", "N")]

theorem claim_C6_witness :
    create_variable_reference exDbOneInst "S" exMetaA =
      .ok [("variable", (variableDocsId exDbOneInst exMetaA).headD vNone)] :=
  (claim_C6 exDbOneInst "S" exMetaA (by decide)).2 (by decide)

theorem pySplit_ne_nil (sep : Char) (l : List Char) : pySplit sep l ≠ [] := by
  induction l with
  | nil => simp [pySplit]
  | cons c cs ih =>
      rw [pySplit]
      by_cases h : c = sep
      · simp [h]
      · rw [if_neg h]
        rcases hr : pySplit sep cs with _ | ⟨t, ts⟩
        · exact absurd hr ih
        · simp

theorem institutionNamesOf_ne_nil (meta : List (String × String)) :
    institutionNamesOf meta ≠ [] := by
  rw [institutionNamesOf]
  intro h
  exact pySplit_ne_nil ';' _ (List.map_eq_nil_iff.mp h)

/-- C9: splitting any string on ";" yields at least one part, so the
resolver's institution-name list is never empty, and the length
equality guarding the single-variable branch forces the resolved
variable-identity list to be non-empty there — the first-element access
cannot fail. -/
theorem claim_C9 (db : DB) (meta : List (String × String))
    (hlen : (variableDocsId db meta).length = (institutionNamesOf meta).length) :
    0 < (institutionNamesOf meta).length ∧ variableDocsId db meta ≠ [] := by
  have h1 : institutionNamesOf meta ≠ [] := institutionNamesOf_ne_nil meta
  have h2 : 0 < (institutionNamesOf meta).length := List.length_pos.mpr h1
  refine ⟨h2, fun h => ?_⟩
  rw [h] at hlen
  simp at hlen
  omega

theorem claim_C9_witness :
    0 < (institutionNamesOf exMetaA).length ∧
    variableDocsId exDbOneInst exMetaA ≠ [] :=
  claim_C9 exDbOneInst exMetaA (by decide)

theorem claim_C2_witness :
    ∃ t c q, (load_composite_variable exDbNoInst exFsdAB).2 =
      .error (.unableToFindDocument t c q) :=
  (claim_C2 exDbNoInst exFsdAB).1.mpr (by decide)

def exFsdUnknown : FormattedSheetData :=
  ⟨"S2", [("format", "unknown_shape"), ("data_type", "dt")], []⟩

theorem claim_C3_witness :
    ∃ t g d, (load exDbNoInst exFsdUnknown).2 =
      .error (.unrecognizedFormat t g d) :=
  (claim_C3 exDbNoInst exFsdUnknown).1.mpr (by
    rintro ⟨f, hf, hmem⟩
    have h2 : metaGet exFsdUnknown.meta_data "format" = some "unknown_shape" := rfl
    rw [h2] at hf
    injection hf with hf
    rw [← hf] at hmem
    exact absurd hmem (by decide))

theorem metaGet_cons_name (s : String) (rest : List (String × String)) :
    metaGet (("name", s) :: rest) "name" = some s := by
  rw [metaGet, List.find?_cons_of_pos _ (by simp)]

theorem metaGet_cons_not_name (s : String) (rest : List (String × String))
    {k : String} (h : k ≠ "name") :
    metaGet (("name", s) :: rest) k = metaGet rest k := by
  rw [metaGet, metaGet, List.find?_cons_of_neg _ (by simpa using fun he => h he.symm)]

/-- C10: the institution names used by the reference resolver are the
semicolon-split parts of `meta_data.name` with surrounding whitespace
stripped, so any two `name` values whose stripped split parts coincide
(for example a value with spaces around the separators and its unpadded
form) produce the same institution lookup, and the whole resolution
behaves identically. -/
theorem claim_C10 (db : DB) (sheet_title : String)
    (rest : List (String × String)) (s1 s2 : String)
    (h : (pySplit ';' s1.data).map pyStrip = (pySplit ';' s2.data).map pyStrip) :
    institutionNamesOf (("name", s1) :: rest) =
      institutionNamesOf (("name", s2) :: rest) ∧
    institutionDocsId db (("name", s1) :: rest) =
      institutionDocsId db (("name", s2) :: rest) ∧
    create_variable_reference db sheet_title (("name", s1) :: rest) =
      create_variable_reference db sheet_title (("name", s2) :: rest) := by
  have hmk : ∀ s : String, (pySplit ';' s.data).map (fun cs => String.mk (pyStrip cs)) =
      ((pySplit ';' s.data).map pyStrip).map String.mk := by
    intro s
    rw [List.map_map]
    rfl
  have hnames : institutionNamesOf (("name", s1) :: rest) =
      institutionNamesOf (("name", s2) :: rest) := by
    rw [institutionNamesOf, institutionNamesOf, metaGet_cons_name, metaGet_cons_name]
    simp only [Option.getD_some]
    rw [hmk, hmk, h]
  have hmv : ∀ k, k ≠ "name" → metaValue (("name", s1) :: rest) k =
      metaValue (("name", s2) :: rest) k := by
    intro k hk
    rw [metaValue, metaValue, metaGet_cons_not_name _ _ hk, metaGet_cons_not_name _ _ hk]
  have hq : institutionQuery (("name", s1) :: rest) =
      institutionQuery (("name", s2) :: rest) := by
    rw [institutionQuery, institutionQuery, hnames, hmv "country" (by decide),
      hmv "category" (by decide)]
  have hids : institutionDocsId db (("name", s1) :: rest) =
      institutionDocsId db (("name", s2) :: rest) := by
    rw [institutionDocsId, institutionDocsId, hq]
  have hvq : variableQuery db (("name", s1) :: rest) =
      variableQuery db (("name", s2) :: rest) := by
    rw [variableQuery, variableQuery, hids, hmv "variable_heading" (by decide),
      hmv "variable_name" (by decide)]
  have hvdi : variableDocsId db (("name", s1) :: rest) =
      variableDocsId db (("name", s2) :: rest) := by
    rw [variableDocsId, variableDocsId, hvq]
  refine ⟨hnames, hids, ?_⟩
  simp only [create_variable_reference]
  rw [hvdi, hnames, hvq, metaGet_cons_not_name _ _ (by decide),
    metaGet_cons_not_name _ _ (by decide)]

/-- The padded metadata of the C10 witness differs from the unpadded
one only by whitespace around the `;` separators. -/
def exRestMeta : List (String × String) :=
  [("data_type", "legal_framework"), ("country", "FR"), ("category", "gov"),
   ("variable_heading", "H"), ("variable_name", "N")]

theorem claim_C10_witness :
    institutionNamesOf (("name", " A ; B ") :: exRestMeta) =
      institutionNamesOf (("name", "A;B") :: exRestMeta) ∧
    institutionDocsId exDbOneInst (("name", " A ; B ") :: exRestMeta) =
      institutionDocsId exDbOneInst (("name", "A;B") :: exRestMeta) ∧
    create_variable_reference exDbOneInst "S" (("name", " A ; B ") :: exRestMeta) =
      create_variable_reference exDbOneInst "S" (("name", "A;B") :: exRestMeta) :=
  claim_C10 exDbOneInst "S" exRestMeta " A ; B " "A;B" (by decide)

/-! ## Claim C4: variable natural-key filters -/

theorem variableRequests_mem {ids : Nat → Value} {rows : List Doc} {r : UpdateOne}
    (h : r ∈ variableRequests ids rows) :
    ∃ p ∈ rows.enum, ∃ child ∈ childsOf p.2,
      r = ⟨childFilter (ids p.1) child, childSetPayload (ids p.1) child⟩ := by
  rw [variableRequests] at h
  simp only [List.mem_flatten, List.mem_map] at h
  obtain ⟨l, ⟨p, hp, rfl⟩, hr⟩ := h
  obtain ⟨child, hc, rfl⟩ := List.mem_map.mp hr
  exact ⟨p, hp, child, hc, rfl⟩

/-- C4 (amended): the three institution strategies bulk-upsert
variables matching on the full natural key
`{institution, heading, name, variable_index, sigla_answer_index}`; the
aggregate-variable strategy instead matches on
`{institution, name, variable_index, sigla_answer_index}` — its filter
omits `heading` (in the documents it writes, `heading` always equals
`name`, both being the group's heading). -/
theorem claim_C4 :
    (∀ (ids : Nat → Value) (rows : List Doc), ∀ r ∈ variableRequests ids rows,
      r.filter.keys =
        ["institution", "heading", "name", "variable_index", "sigla_answer_index"]) ∧
    (∀ (instId : Value) (data : List Doc),
      ∀ r ∈ aggregateRequests (aggregateVariables instId data),
        r.filter.keys =
          ["institution", "name", "variable_index", "sigla_answer_index"] ∧
        "heading" ∉ r.filter.keys ∧
        r.set.get "heading" = r.set.get "name") := by
  constructor
  · intro ids rows r h
    obtain ⟨p, hp, child, hc, rfl⟩ := variableRequests_mem h
    rfl
  · intro instId data r h
    rw [aggregateRequests] at h
    obtain ⟨v, hv, rfl⟩ := List.mem_map.mp h
    refine ⟨rfl, by simp [Doc.keys], ?_⟩
    simp only [aggregateVariables] at hv
    obtain ⟨p, hp, rfl⟩ := List.mem_map.mp hv
    rfl

def exAggRow : Doc :=
  [("index", vNat 0),
   ("sigla_answers", Value.vAnswers [⟨"cat", "Civil"⟩, ⟨"right", "r1"⟩])]

/-- C4 counterexample: in the aggregate strategy (whose
`aggregateRequests` are bulk-written into the `variables` collection by
`load_institution_with_aggregate_variable`) the upsert filter does not
carry the `heading` key, so it is not the full Variable natural key. -/
theorem claim_C4_counterexample :
    ∃ r ∈ aggregateRequests (aggregateVariables (vOid 0) [exAggRow]),
      r.filter.keys ≠
        ["institution", "heading", "name", "variable_index", "sigla_answer_index"] ∧
      "heading" ∉ r.filter.keys := by decide

def exInstRow : Doc :=
  [("name", vStr "X"), ("category", vStr "gov"),
   ("childs", Value.vChilds [[("heading", .sStr "H"), ("name", .sStr "V"),
     ("variable_index", .sNat 0), ("sigla_answer_index", .sNat 0)]])]

def exVarReq : UpdateOne :=
  (variableRequests (fun _ => vOid 9) [exInstRow]).headD ⟨[], []⟩

def exAggReq : UpdateOne :=
  (aggregateRequests (aggregateVariables (vOid 0) [exAggRow])).headD ⟨[], []⟩

theorem claim_C4_witness :
    exVarReq.filter.keys =
      ["institution", "heading", "name", "variable_index", "sigla_answer_index"] ∧
    (exAggReq.filter.keys =
        ["institution", "name", "variable_index", "sigla_answer_index"] ∧
      "heading" ∉ exAggReq.filter.keys ∧
      exAggReq.set.get "heading" = exAggReq.set.get "name") :=
  ⟨claim_C4.1 (fun _ => vOid 9) [exInstRow] exVarReq (by decide),
   claim_C4.2 (vOid 0) [exAggRow] exAggReq (by decide)⟩

/-! ## Claim C5: aggregate grouping determinism -/

theorem assocLookup_isSome_iff (dict : List (String × List (List SiglaAnswer)))
    (s : String) : (assocLookup dict s).isSome ↔ s ∈ dict.map Prod.fst := by
  induction dict with
  | nil => simp [assocLookup]
  | cons kv rest ih =>
      rw [assocLookup]
      by_cases h : kv.1 = s
      · rw [List.find?_cons_of_pos _ (by simpa using h)]
        simp [h]
      · rw [List.find?_cons_of_neg _ (by simpa using h)]
        rw [assocLookup] at ih
        have hs : ¬ s = kv.1 := fun hc => h hc.symm
        simp only [List.map_cons, List.mem_cons]
        rw [← ih]
        simp [hs]

theorem assocAppend_keys (dict : List (String × List (List SiglaAnswer)))
    (k : String) (v : List SiglaAnswer) :
    (assocAppend dict k v).map Prod.fst = dict.map Prod.fst := by
  rw [assocAppend, List.map_map]
  congr 1
  funext kv
  by_cases h : kv.1 = k <;> simp [h]

theorem assocLookup_assocAppend_isSome (dict : List (String × List (List SiglaAnswer)))
    (k s : String) (v : List SiglaAnswer) :
    (assocLookup (assocAppend dict k v) s).isSome = (assocLookup dict s).isSome := by
  apply bool_eq_of_iff
  rw [assocLookup_isSome_iff, assocLookup_isSome_iff, assocAppend_keys]

theorem assocLookup_append_one (dict : List (String × List (List SiglaAnswer)))
    (k s : String) (g : List (List SiglaAnswer)) :
    assocLookup (dict ++ [(k, g)]) s =
      match assocLookup dict s with
      | some x => some x
      | none => if k = s then some g else none := by
  induction dict with
  | nil =>
      rw [assocLookup, assocLookup]
      simp only [List.nil_append, List.find?_nil]
      by_cases h : k = s
      · rw [List.find?_cons_of_pos _ (by simpa using h)]
        simp [h]
      · rw [List.find?_cons_of_neg _ (by simpa using h)]
        simp [h]
  | cons kv rest ih =>
      rw [assocLookup, assocLookup]
      by_cases h : kv.1 = s
      · rw [List.cons_append, List.find?_cons_of_pos _ (by simpa using h),
          List.find?_cons_of_pos _ (by simpa using h)]
      · rw [List.cons_append, List.find?_cons_of_neg _ (by simpa using h),
          List.find?_cons_of_neg _ (by simpa using h)]
        have hih := ih
        rw [assocLookup, assocLookup] at hih
        exact hih

/-- Invariant of the grouping loop: the heading list is duplicate-free
and registers exactly the dictionary's keys; folding more rows extends
its membership by the rows' headings. -/
theorem groupFold_inv (data : List Doc) :
    ∀ acc : List (String × List (List SiglaAnswer)) × List String,
      acc.2.Nodup → (∀ s, s ∈ acc.2 ↔ (assocLookup acc.1 s).isSome) →
      (data.foldl groupStep acc).2.Nodup ∧
      (∀ s, s ∈ (data.foldl groupStep acc).2 ↔ s ∈ acc.2 ∨ s ∈ data.map headingOf) := by
  induction data with
  | nil =>
      intro acc h1 h2
      exact ⟨h1, fun s => by simp⟩
  | cons datum rest ih =>
      intro acc h1 h2
      rw [List.foldl_cons]
      rcases hl : assocLookup acc.1 (headingOf datum) with _ | g
      · have hstep : groupStep acc datum =
            (acc.1 ++ [(headingOf datum, [restAnswersOf datum])],
             acc.2 ++ [headingOf datum]) := by
          rw [groupStep, hl]
        have hnotmem : headingOf datum ∉ acc.2 := by
          intro hmem
          have := (h2 _).mp hmem
          rw [hl] at this
          cases this
        have h1a : (acc.2 ++ [headingOf datum]).Nodup := by
          rw [List.nodup_append]
          exact ⟨h1, List.nodup_singleton _, by simpa using hnotmem⟩
        have h2a : ∀ s, s ∈ acc.2 ++ [headingOf datum] ↔
            (assocLookup (acc.1 ++ [(headingOf datum, [restAnswersOf datum])]) s).isSome := by
          intro s
          rw [assocLookup_append_one]
          rcases hd : assocLookup acc.1 s with _ | x
          · have hs2 : s ∉ acc.2 := by
              intro hmem
              have := (h2 s).mp hmem
              rw [hd] at this
              cases this
            by_cases he : headingOf datum = s
            · subst he
              simp
            · have he2 : ¬ s = headingOf datum := fun hc => he hc.symm
              simp [hs2, he, he2]
          · have hs2 : s ∈ acc.2 := (h2 s).mpr (by rw [hd]; rfl)
            simp [hs2]
        obtain ⟨hn, hm⟩ := ih (acc.1 ++ [(headingOf datum, [restAnswersOf datum])],
          acc.2 ++ [headingOf datum]) h1a h2a
        rw [hstep]
        refine ⟨hn, fun s => ?_⟩
        rw [hm s]
        simp only [List.mem_append, List.mem_singleton, List.map_cons, List.mem_cons]
        tauto
      · have hstep : groupStep acc datum =
            (assocAppend acc.1 (headingOf datum) (restAnswersOf datum), acc.2) := by
          rw [groupStep, hl]
        have h2a : ∀ s, s ∈ acc.2 ↔
            (assocLookup (assocAppend acc.1 (headingOf datum)
              (restAnswersOf datum)) s).isSome := by
          intro s
          rw [assocLookup_assocAppend_isSome]
          exact h2 s
        obtain ⟨hn, hm⟩ := ih (assocAppend acc.1 (headingOf datum)
          (restAnswersOf datum), acc.2) h1 h2a
        rw [hstep]
        refine ⟨hn, fun s => ?_⟩
        rw [hm s]
        have hmemd : headingOf datum ∈ acc.2 := (h2 _).mpr (by rw [hl]; rfl)
        simp only [List.map_cons, List.mem_cons]
        constructor
        · rintro (h | h)
          · exact Or.inl h
          · exact Or.inr (Or.inr h)
        · rintro (h | (h | h))
          · exact Or.inl h
          · exact Or.inl (h ▸ hmemd)
          · exact Or.inr h

theorem groupFold_headings_nodup (data : List Doc) : (groupFold data).2.Nodup :=
  (groupFold_inv data ([], []) (by simp) (fun s => by simp [assocLookup])).1

theorem groupFold_headings_mem (data : List Doc) :
    ∀ s, s ∈ (groupFold data).2 ↔ s ∈ data.map headingOf := by
  intro s
  have := (groupFold_inv data ([], []) (by simp) (fun s => by simp [assocLookup])).2 s
  rw [groupFold]
  rw [this]
  simp

theorem sortStrings_sorted (l : List String) :
    (sortStrings l).Sorted (fun a b => a ≤ b) :=
  List.sorted_insertionSort _ l

theorem sortStrings_perm (l : List String) : List.Perm (sortStrings l) l :=
  List.perm_insertionSort _ l

theorem sortStrings_eq_of_nodup_mem {l1 l2 : List String} (h1 : l1.Nodup)
    (h2 : l2.Nodup) (hm : ∀ s, s ∈ l1 ↔ s ∈ l2) :
    sortStrings l1 = sortStrings l2 := by
  have hp : List.Perm l1 l2 := (List.perm_ext_iff_of_nodup h1 h2).mpr hm
  exact List.eq_of_perm_of_sorted
    ((sortStrings_perm l1).trans (hp.trans (sortStrings_perm l2).symm))
    (sortStrings_sorted l1) (sortStrings_sorted l2)

/-- C5: the aggregate strategy groups rows by their first answer (the
heading), sorts the distinct headings lexicographically, and assigns
each aggregate Variable a `variable_index` equal to its heading's
position in that sorted order; consequently the (heading,
variable_index) assignment depends only on the set of headings, not on
the input row order. -/
theorem claim_C5 (instId : Value) (data1 data2 : List Doc)
    (hset : ∀ s, s ∈ data1.map headingOf ↔ s ∈ data2.map headingOf) :
    ((sortStrings (groupFold data1).2).Sorted (fun a b => a ≤ b) ∧
      (sortStrings (groupFold data1).2).Nodup) ∧
    ((aggregateVariables instId data1).map
        (fun v => (v.get "heading", v.get "variable_index")) =
      (sortStrings (groupFold data1).2).enum.map (fun p => (vStr p.2, vNat p.1))) ∧
    ((aggregateVariables instId data1).map
        (fun v => (v.get "heading", v.get "variable_index")) =
      (aggregateVariables instId data2).map
        (fun v => (v.get "heading", v.get "variable_index"))) := by
  have hproj : ∀ data : List Doc, (aggregateVariables instId data).map
      (fun v => (v.get "heading", v.get "variable_index")) =
      (sortStrings (groupFold data).2).enum.map (fun p => (vStr p.2, vNat p.1)) := by
    intro data
    simp only [aggregateVariables, List.map_map]
    rfl
  refine ⟨⟨sortStrings_sorted _, ?_⟩, hproj data1, ?_⟩
  · exact ((sortStrings_perm _).nodup_iff).mpr (groupFold_headings_nodup data1)
  · rw [hproj data1, hproj data2]
    rw [sortStrings_eq_of_nodup_mem (groupFold_headings_nodup data1)
      (groupFold_headings_nodup data2)
      (fun s => by rw [groupFold_headings_mem, groupFold_headings_mem]; exact hset s)]

def exDataCrimCiv : List Doc :=
  [[("index", vNat 0),
    ("sigla_answers", Value.vAnswers [⟨"cat", "Criminal"⟩, ⟨"right", "r1"⟩])],
   [("index", vNat 1),
    ("sigla_answers", Value.vAnswers [⟨"cat", "Civil"⟩, ⟨"right", "r2"⟩])]]

def exDataCivCrim : List Doc :=
  [[("index", vNat 0),
    ("sigla_answers", Value.vAnswers [⟨"cat", "Civil"⟩, ⟨"right", "r2"⟩])],
   [("index", vNat 1),
    ("sigla_answers", Value.vAnswers [⟨"cat", "Criminal"⟩, ⟨"right", "r1"⟩])]]

theorem claim_C5_witness :
    ((sortStrings (groupFold exDataCrimCiv).2).Sorted (fun a b => a ≤ b) ∧
      (sortStrings (groupFold exDataCrimCiv).2).Nodup) ∧
    ((aggregateVariables (vOid 7) exDataCrimCiv).map
        (fun v => (v.get "heading", v.get "variable_index")) =
      (sortStrings (groupFold exDataCrimCiv).2).enum.map
        (fun p => (vStr p.2, vNat p.1))) ∧
    ((aggregateVariables (vOid 7) exDataCrimCiv).map
        (fun v => (v.get "heading", v.get "variable_index")) =
      (aggregateVariables (vOid 7) exDataCivCrim).map
        (fun v => (v.get "heading", v.get "variable_index"))) :=
  claim_C5 (vOid 7) exDataCrimCiv exDataCivCrim (by
    intro s
    have h1 : List.map headingOf exDataCrimCiv = ["Criminal", "Civil"] := rfl
    have h2 : List.map headingOf exDataCivCrim = ["Civil", "Criminal"] := rfl
    rw [h1, h2]
    simp [or_comm])

/-! ## Claim C7: institution identity resolution -/

theorem institutionPrimaryKeys_nodup (meta : List (String × String)) :
    (institutionPrimaryKeys meta).Nodup := by
  rw [institutionPrimaryKeys]
  by_cases h : (metaGet meta "country").isSome
  · rw [if_pos h]
    decide
  · rw [if_neg h]
    decide

theorem institutionPrimaryKeys_no_id (meta : List (String × String)) :
    "_id" ∉ institutionPrimaryKeys meta := by
  rw [institutionPrimaryKeys]
  by_cases h : (metaGet meta "country").isSome
  · rw [if_pos h]
    decide
  · rw [if_neg h]
    decide

theorem pkFilter_keys (pks : List String) (row : Doc) :
    (pkFilter pks row).keys = pks := by
  induction pks with
  | nil => rfl
  | cons pk rest ih =>
      rw [pkFilter, List.map_cons, Doc.keys, List.map_cons]
      rw [pkFilter, Doc.keys] at ih
      rw [ih]

theorem pkFilter_get (pks : List String) (row : Doc) {k : String} (hk : k ∈ pks) :
    (pkFilter pks row).get k = row.get k := by
  induction pks with
  | nil => simp at hk
  | cons pk rest ih =>
      rw [pkFilter, List.map_cons, get_cons]
      by_cases h : pk = k
      · rw [if_pos h, h]
      · rw [if_neg h]
        rcases List.mem_cons.mp hk with rfl | hk2
        · exact absurd rfl h
        · exact ih hk2

theorem institution_agrees {pks : List String} {row : Doc} (hnd : row.keys.Nodup) :
    Agrees (pkFilter pks row) (institutionSetPayload row) := by
  intro kv hkv hkmem
  have hkv2 : kv ∈ row := List.mem_of_mem_filter hkv
  have h2 : row.get kv.1 = kv.2 := get_eq_of_mem_nodup hnd hkv2
  rw [pkFilter_keys] at hkmem
  rw [pkFilter_get pks row hkmem, h2]

theorem institutionSetPayload_keys_sub {row : Doc} {k : String}
    (h : k ∈ (institutionSetPayload row).keys) : k ∈ row.keys := by
  rw [institutionSetPayload, Doc.keys] at h
  obtain ⟨kv, hkv, rfl⟩ := List.mem_map.mp h
  exact mem_keys_of_mem (List.mem_of_mem_filter hkv)

theorem institutionRequests_length (pks : List String) (rows : List Doc) :
    (institutionRequests pks rows).length = rows.length := by
  rw [institutionRequests, List.length_map]

theorem institutionRequests_getElem (pks : List String) (rows : List Doc)
    {j : Nat} (hj : j < rows.length)
    (hj2 : j < (institutionRequests pks rows).length) :
    (institutionRequests pks rows)[j] =
      ⟨pkFilter pks (rows[j]), institutionSetPayload (rows[j])⟩ := by
  simp only [institutionRequests, List.getElem_map]

/-- C7: per-index institution identity resolution in
`_load_institutions`: for each input record `i`, when the institutions
bulk write reports a newly-created id for index `i`, exactly that id is
used as record `i`'s parent identity and a document carrying it and
matching record `i`'s natural-key filter exists; otherwise the identity
is obtained by a follow-up `find_one` on record `i`'s natural-key
filter, which is guaranteed to find a document; and the variable
request of each child of record `i` carries record `i`'s resolved
identity. -/
theorem claim_C7 (db db1 : DB) (fsd : FormattedSheetData) (res : BulkWriteResult)
    (hrows : ∀ row ∈ fsd.formatted_data, row.keys.Nodup ∧ "_id" ∉ row.keys)
    (hbulk : bulk_write db db_collection.institutions
      (institutionRequests (institutionPrimaryKeys fsd.meta_data) fsd.formatted_data) =
      (db1, .ok res)) :
    ∀ i, ∀ hi : i < fsd.formatted_data.length,
      (∀ id, res.getUpserted i = some id →
        institutionDocId db1 (institutionPrimaryKeys fsd.meta_data) res
          fsd.formatted_data i = vOid id ∧
        ∃ d2 ∈ db1.getCollection db_collection.institutions,
          d2.get "_id" = vOid id ∧
          matchesDoc (pkFilter (institutionPrimaryKeys fsd.meta_data)
            (fsd.formatted_data[i])) d2 = true) ∧
      (res.getUpserted i = none →
        institutionDocId db1 (institutionPrimaryKeys fsd.meta_data) res
          fsd.formatted_data i =
          docGetId (find_one db1 db_collection.institutions
            (pkFilter (institutionPrimaryKeys fsd.meta_data)
              (fsd.formatted_data.getD i []))) ∧
        ∃ d2, find_one db1 db_collection.institutions
          (pkFilter (institutionPrimaryKeys fsd.meta_data)
            (fsd.formatted_data.getD i [])) = some d2) ∧
      (∀ c ∈ childsOf (fsd.formatted_data[i]),
        UpdateOne.mk
          (childFilter (institutionDocId db1 (institutionPrimaryKeys fsd.meta_data)
            res fsd.formatted_data i) c)
          (childSetPayload (institutionDocId db1 (institutionPrimaryKeys fsd.meta_data)
            res fsd.formatted_data i) c) ∈
        variableRequests (institutionDocId db1 (institutionPrimaryKeys fsd.meta_data)
          res fsd.formatted_data) fsd.formatted_data) := by
  intro i hi
  obtain ⟨hne, hdb1, hres⟩ := bulk_write_ok_shape hbulk
  have hcoll : db1.getCollection db_collection.institutions =
      (bulkApply (db.getCollection db_collection.institutions) db.nextId 0
        (institutionRequests (institutionPrimaryKeys fsd.meta_data)
          fsd.formatted_data)).1 :=
    bulk_write_getCollection_same hbulk
  have hK : ∀ x ∈ institutionRequests (institutionPrimaryKeys fsd.meta_data)
      fsd.formatted_data, x.filter.keys = institutionPrimaryKeys fsd.meta_data := by
    intro x hx
    obtain ⟨row, hrow, rfl⟩ := List.mem_map.mp hx
    exact pkFilter_keys _ _
  have hA : ∀ x ∈ institutionRequests (institutionPrimaryKeys fsd.meta_data)
      fsd.formatted_data, Agrees x.filter x.set := by
    intro x hx
    obtain ⟨row, hrow, rfl⟩ := List.mem_map.mp hx
    exact institution_agrees (hrows row hrow).1
  have hIdS : ∀ x ∈ institutionRequests (institutionPrimaryKeys fsd.meta_data)
      fsd.formatted_data, "_id" ∉ x.set.keys := by
    intro x hx
    obtain ⟨row, hrow, rfl⟩ := List.mem_map.mp hx
    intro hm
    exact (hrows row hrow).2 (institutionSetPayload_keys_sub hm)
  have hreqlen : i < (institutionRequests (institutionPrimaryKeys fsd.meta_data)
      fsd.formatted_data).length := by
    rw [institutionRequests_length]
    exact hi
  obtain ⟨n, hn, hmatch, hid⟩ := @bulkApply_exists_spec
    (institutionPrimaryKeys fsd.meta_data)
    (institutionRequests (institutionPrimaryKeys fsd.meta_data) fsd.formatted_data)
    (institutionPrimaryKeys_nodup fsd.meta_data) hK hA
    (institutionPrimaryKeys_no_id fsd.meta_data) hIdS
    (db.getCollection db_collection.institutions) db.nextId 0 i hreqlen
  rw [institutionRequests_getElem _ _ hi (by rw [institutionRequests_length]; exact hi)] at hmatch
  have hgetU : ∀ t, res.getUpserted t = BulkWriteResult.getUpserted
      ⟨(bulkApply (db.getCollection db_collection.institutions) db.nextId 0
        (institutionRequests (institutionPrimaryKeys fsd.meta_data)
          fsd.formatted_data)).2.2⟩ t := by
    intro t
    rw [hres]
  refine ⟨?_, ?_, ?_⟩
  · intro id hupd
    constructor
    · rw [institutionDocId, hupd]
    · refine ⟨(bulkApply (db.getCollection db_collection.institutions) db.nextId 0
        (institutionRequests (institutionPrimaryKeys fsd.meta_data)
          fsd.formatted_data)).1[n], ?_, ?_, ?_⟩
      · rw [hcoll]
        exact List.getElem_mem hn
      · apply hid
        rw [← hgetU, Nat.zero_add]
        exact hupd
      · exact hmatch
  · intro hupd
    constructor
    · rw [institutionDocId, hupd]
    · have hgd : fsd.formatted_data.getD i [] = fsd.formatted_data[i] :=
        List.getD_eq_getElem _ _ hi
      rw [find_one, hcoll, hgd]
      have hsome : ((bulkApply (db.getCollection db_collection.institutions) db.nextId 0
          (institutionRequests (institutionPrimaryKeys fsd.meta_data)
            fsd.formatted_data)).1.find? (fun d => matchesDoc
          (pkFilter (institutionPrimaryKeys fsd.meta_data) (fsd.formatted_data[i]))
          d)).isSome := by
        rw [List.find?_isSome]
        exact ⟨_, List.getElem_mem hn, hmatch⟩
      obtain ⟨d2, hd2⟩ := Option.isSome_iff_exists.mp hsome
      exact ⟨d2, hd2⟩
  · intro c hc
    rw [variableRequests]
    rw [List.mem_flatten]
    refine ⟨(childsOf (fsd.formatted_data[i])).map (fun child =>
      UpdateOne.mk (childFilter (institutionDocId db1
        (institutionPrimaryKeys fsd.meta_data) res fsd.formatted_data i) child)
        (childSetPayload (institutionDocId db1
          (institutionPrimaryKeys fsd.meta_data) res fsd.formatted_data i) child)), ?_, ?_⟩
    · rw [List.mem_map]
      refine ⟨(i, fsd.formatted_data[i]), ?_, rfl⟩
      have := List.getElem_enum fsd.formatted_data i (by simpa using hi)
      rw [← this]
      exact List.getElem_mem _
    · rw [List.mem_map]
      exact ⟨c, hc, rfl⟩

def exC7child : ChildDoc :=
  [("heading", SValue.sStr "h"), ("name", SValue.sStr "n"),
   ("variable_index", SValue.sNat 0), ("sigla_answer_index", SValue.sNat 0)]

def exC7fsd : FormattedSheetData :=
  ⟨"S", [("name", "A"), ("category", "gov")],
   [[("name", vStr "A"), ("category", vStr "gov"), ("childs", Value.vChilds [exC7child])]]⟩

def exC7db1 : DB :=
  ⟨[("institutions",
      [[("_id", vOid 5), ("name", vStr "A"), ("category", vStr "gov")]])], 6⟩

def exC7res : BulkWriteResult := ⟨[(0, 5)]⟩

theorem claim_C7_witness :
    (∀ row ∈ exC7fsd.formatted_data, row.keys.Nodup ∧ "_id" ∉ row.keys) ∧
    bulk_write exDbNoInst db_collection.institutions
      (institutionRequests (institutionPrimaryKeys exC7fsd.meta_data)
        exC7fsd.formatted_data) = (exC7db1, .ok exC7res) ∧
    exC7res.getUpserted 0 = some 5 ∧
    institutionDocId exC7db1 (institutionPrimaryKeys exC7fsd.meta_data) exC7res
      exC7fsd.formatted_data 0 = vOid 5 := by
  refine ⟨by decide, by rfl, by decide, ?_⟩
  exact ((claim_C7 exDbNoInst exC7db1 exC7fsd exC7res (by decide) (by rfl)
    0 (by decide)).1 5 (by decide)).1

/-! ## Claim C8: reference integrity -/

theorem updateFirst_mem_of_some {p : Doc → Bool} {f : Doc → Doc} {docs docs1 : List Doc}
    {d : Doc} (h : updateFirst p f docs = (docs1, some d)) : d ∈ docs1 := by
  induction docs generalizing docs1 with
  | nil =>
      rw [updateFirst] at h
      injection h with h1 h2
      exact absurd h2 (by simp)
  | cons d0 ds ih =>
      rw [updateFirst] at h
      by_cases hp : p d0
      · rw [if_pos hp] at h
        injection h with h1 h2
        injection h2 with h2
        rw [← h1, ← h2]
        exact List.mem_cons_self _ _
      · rw [if_neg hp] at h
        injection h with h1 h2
        rcases hr : updateFirst p f ds with ⟨r1, r2⟩
        rw [hr] at h1 h2
        rw [← h1]
        cases r2 with
        | none => simp at h2
        | some d2 =>
            injection h2 with h2
            subst h2
            exact List.mem_cons_of_mem _ (ih hr)

theorem find_one_and_update_mem (db : DB) (coll : String) (pk : Doc) :
    (find_one_and_update db coll pk).2 ∈
      ((find_one_and_update db coll pk).1).getCollection coll := by
  rcases hu : updateFirst (matchesDoc pk) (fun d => d.setMany pk)
    (db.getCollection coll) with ⟨docs1, od⟩
  cases od with
  | some d =>
      have h1 : find_one_and_update db coll pk = (db.setCollection coll docs1, d) := by
        simp only [find_one_and_update, hu]
      rw [h1]
      rw [getCollection_setCollection_same]
      exact updateFirst_mem_of_some hu
  | none =>
      have h1 : find_one_and_update db coll pk =
          ({ colls := (db.setCollection coll (db.getCollection coll ++
              [upsertInsertDoc pk pk db.nextId])).colls,
             nextId := db.nextId + 1 },
           upsertInsertDoc pk pk db.nextId) := by
        simp only [find_one_and_update, hu]
      rw [h1]
      show upsertInsertDoc pk pk db.nextId ∈
        (db.setCollection coll (db.getCollection coll ++
          [upsertInsertDoc pk pk db.nextId])).getCollection coll
      rw [getCollection_setCollection_same]
      exact List.mem_append_right _ (List.mem_singleton.mpr rfl)

theorem aggregateVariables_get_institution (instId : Value) (data : List Doc) :
    ∀ v ∈ aggregateVariables instId data, v.get "institution" = instId := by
  intro v hv
  simp only [aggregateVariables] at hv
  obtain ⟨p, hp, rfl⟩ := List.mem_map.mp hv
  rw [get_cons, if_pos rfl]

theorem childFilter_get_institution (instId : Value) (c : ChildDoc) :
    (childFilter instId c).get "institution" = instId := by
  rw [childFilter, get_cons, if_pos rfl]

theorem childSetPayload_get_institution (instId : Value) (c : ChildDoc) :
    (childSetPayload instId c).get "institution" = instId := by
  rw [childSetPayload, get_cons, if_pos rfl]

theorem institutions_resolved_id_exists (db db1 : DB) (fsd : FormattedSheetData)
    (res : BulkWriteResult)
    (hrows : ∀ row ∈ fsd.formatted_data, row.keys.Nodup ∧ "_id" ∉ row.keys)
    (hbulk : bulk_write db db_collection.institutions
      (institutionRequests (institutionPrimaryKeys fsd.meta_data) fsd.formatted_data) =
      (db1, .ok res)) :
    ∀ i, i < fsd.formatted_data.length →
      ∃ d ∈ db1.getCollection db_collection.institutions,
        d.get "_id" = institutionDocId db1 (institutionPrimaryKeys fsd.meta_data) res
          fsd.formatted_data i := by
  intro i hi
  obtain ⟨hne, hdb1, hres⟩ := bulk_write_ok_shape hbulk
  have hcoll : db1.getCollection db_collection.institutions =
      (bulkApply (db.getCollection db_collection.institutions) db.nextId 0
        (institutionRequests (institutionPrimaryKeys fsd.meta_data)
          fsd.formatted_data)).1 :=
    bulk_write_getCollection_same hbulk
  cases hupd : res.getUpserted i with
  | some id =>
      have hK : ∀ x ∈ institutionRequests (institutionPrimaryKeys fsd.meta_data)
          fsd.formatted_data, x.filter.keys = institutionPrimaryKeys fsd.meta_data := by
        intro x hx
        obtain ⟨row, hrow, rfl⟩ := List.mem_map.mp hx
        exact pkFilter_keys _ _
      have hA : ∀ x ∈ institutionRequests (institutionPrimaryKeys fsd.meta_data)
          fsd.formatted_data, Agrees x.filter x.set := by
        intro x hx
        obtain ⟨row, hrow, rfl⟩ := List.mem_map.mp hx
        exact institution_agrees (hrows row hrow).1
      have hIdS : ∀ x ∈ institutionRequests (institutionPrimaryKeys fsd.meta_data)
          fsd.formatted_data, "_id" ∉ x.set.keys := by
        intro x hx
        obtain ⟨row, hrow, rfl⟩ := List.mem_map.mp hx
        intro hm
        exact (hrows row hrow).2 (institutionSetPayload_keys_sub hm)
      have hreqlen : i < (institutionRequests (institutionPrimaryKeys fsd.meta_data)
          fsd.formatted_data).length := by
        rw [institutionRequests_length]
        exact hi
      obtain ⟨n, hn, hmatch, hid⟩ := @bulkApply_exists_spec
        (institutionPrimaryKeys fsd.meta_data)
        (institutionRequests (institutionPrimaryKeys fsd.meta_data) fsd.formatted_data)
        (institutionPrimaryKeys_nodup fsd.meta_data) hK hA
        (institutionPrimaryKeys_no_id fsd.meta_data) hIdS
        (db.getCollection db_collection.institutions) db.nextId 0 i hreqlen
      refine ⟨(bulkApply (db.getCollection db_collection.institutions) db.nextId 0
        (institutionRequests (institutionPrimaryKeys fsd.meta_data)
          fsd.formatted_data)).1[n], ?_, ?_⟩
      · rw [hcoll]
        exact List.getElem_mem hn
      · rw [institutionDocId, hupd]
        apply hid
        rw [Nat.zero_add, ← hres]
        exact hupd
  | none =>
      rw [institutionDocId, hupd]
      have hK : ∀ x ∈ institutionRequests (institutionPrimaryKeys fsd.meta_data)
          fsd.formatted_data, x.filter.keys = institutionPrimaryKeys fsd.meta_data := by
        intro x hx
        obtain ⟨row, hrow, rfl⟩ := List.mem_map.mp hx
        exact pkFilter_keys _ _
      have hA : ∀ x ∈ institutionRequests (institutionPrimaryKeys fsd.meta_data)
          fsd.formatted_data, Agrees x.filter x.set := by
        intro x hx
        obtain ⟨row, hrow, rfl⟩ := List.mem_map.mp hx
        exact institution_agrees (hrows row hrow).1
      have hIdS : ∀ x ∈ institutionRequests (institutionPrimaryKeys fsd.meta_data)
          fsd.formatted_data, "_id" ∉ x.set.keys := by
        intro x hx
        obtain ⟨row, hrow, rfl⟩ := List.mem_map.mp hx
        intro hm
        exact (hrows row hrow).2 (institutionSetPayload_keys_sub hm)
      have hreqlen : i < (institutionRequests (institutionPrimaryKeys fsd.meta_data)
          fsd.formatted_data).length := by
        rw [institutionRequests_length]
        exact hi
      obtain ⟨n, hn, hmatch, hid⟩ := @bulkApply_exists_spec
        (institutionPrimaryKeys fsd.meta_data)
        (institutionRequests (institutionPrimaryKeys fsd.meta_data) fsd.formatted_data)
        (institutionPrimaryKeys_nodup fsd.meta_data) hK hA
        (institutionPrimaryKeys_no_id fsd.meta_data) hIdS
        (db.getCollection db_collection.institutions) db.nextId 0 i hreqlen
      rw [institutionRequests_getElem _ _ hi (by rw [institutionRequests_length]; exact hi)] at hmatch
      have hgd : fsd.formatted_data.getD i [] = fsd.formatted_data[i] :=
        List.getD_eq_getElem _ _ hi
      have hsome : (find_one db1 db_collection.institutions
          (pkFilter (institutionPrimaryKeys fsd.meta_data)
            (fsd.formatted_data.getD i []))).isSome := by
        rw [find_one, hcoll, hgd, List.find?_isSome]
        exact ⟨_, List.getElem_mem hn, hmatch⟩
      obtain ⟨d2, hd2⟩ := Option.isSome_iff_exists.mp hsome
      refine ⟨d2, ?_, ?_⟩
      · rw [find_one] at hd2
        exact List.mem_of_find?_eq_some hd2
      · rw [hd2]
        rfl

/-- C8: reference integrity. In `_load_institutions`, every variable
request's `institution` field (in both the natural-key filter and the
`$set` payload) is the identity resolved for its parent record, and a
document with that identity as its `_id` exists in the institutions
collection at the time the variable bulk write starts; the variable
bulk write targets the variables collection and so leaves the
institutions collection untouched. In
`_load_institution_with_aggregate_variable`, the find-or-create
primitive returns a document present in the updated institutions
collection, and every aggregate variable request's `institution`
field (filter and payload) is that document's `_id`. -/
theorem claim_C8 (db db1 : DB) (fsd : FormattedSheetData) (res : BulkWriteResult)
    (hrows : ∀ row ∈ fsd.formatted_data, row.keys.Nodup ∧ "_id" ∉ row.keys)
    (hbulk : bulk_write db db_collection.institutions
      (institutionRequests (institutionPrimaryKeys fsd.meta_data) fsd.formatted_data) =
      (db1, .ok res)) :
    (∀ req ∈ variableRequests
        (institutionDocId db1 (institutionPrimaryKeys fsd.meta_data) res
          fsd.formatted_data) fsd.formatted_data,
      (∃ d ∈ db1.getCollection db_collection.institutions,
        d.get "_id" = req.filter.get "institution") ∧
      req.set.get "institution" = req.filter.get "institution") ∧
    (∀ db2 r2, bulk_write db1 db_collection.variables
        (variableRequests (institutionDocId db1 (institutionPrimaryKeys fsd.meta_data)
          res fsd.formatted_data) fsd.formatted_data) = (db2, r2) →
      db2.getCollection db_collection.institutions =
        db1.getCollection db_collection.institutions) ∧
    (∀ (dbA : DB) (meta : List (String × String)) (data : List Doc),
      (find_one_and_update dbA db_collection.institutions (aggInstitutionKeys meta)).2 ∈
        ((find_one_and_update dbA db_collection.institutions
          (aggInstitutionKeys meta)).1).getCollection db_collection.institutions ∧
      ∀ req ∈ aggregateRequests (aggregateVariables
          (((find_one_and_update dbA db_collection.institutions
            (aggInstitutionKeys meta)).2).get "_id") data),
        req.filter.get "institution" =
          ((find_one_and_update dbA db_collection.institutions
            (aggInstitutionKeys meta)).2).get "_id" ∧
        req.set.get "institution" =
          ((find_one_and_update dbA db_collection.institutions
            (aggInstitutionKeys meta)).2).get "_id") := by
  refine ⟨?_, ?_, ?_⟩
  · intro req hreq
    rw [variableRequests, List.mem_flatten] at hreq
    obtain ⟨L, hL, hreqL⟩ := hreq
    obtain ⟨p, hp, rfl⟩ := List.mem_map.mp hL
    obtain ⟨child, hchild, rfl⟩ := List.mem_map.mp hreqL
    have hplt : p.1 < fsd.formatted_data.length := List.fst_lt_of_mem_enum hp
    have hfil : (UpdateOne.mk
        (childFilter (institutionDocId db1 (institutionPrimaryKeys fsd.meta_data) res
          fsd.formatted_data p.1) child)
        (childSetPayload (institutionDocId db1 (institutionPrimaryKeys fsd.meta_data) res
          fsd.formatted_data p.1) child)).filter.get "institution" =
        institutionDocId db1 (institutionPrimaryKeys fsd.meta_data) res
          fsd.formatted_data p.1 :=
      childFilter_get_institution _ _
    refine ⟨?_, ?_⟩
    · rw [hfil]
      exact institutions_resolved_id_exists db db1 fsd res hrows hbulk p.1 hplt
    · rw [hfil]
      exact childSetPayload_get_institution _ _
  · intro db2 r2 h2
    exact bulk_write_getCollection_other h2 (by decide)
  · intro dbA meta data
    refine ⟨find_one_and_update_mem dbA db_collection.institutions _, ?_⟩
    intro req hreq
    obtain ⟨v, hv, rfl⟩ := List.mem_map.mp hreq
    have hvi : v.get "institution" =
        ((find_one_and_update dbA db_collection.institutions
          (aggInstitutionKeys meta)).2).get "_id" :=
      aggregateVariables_get_institution _ data v hv
    constructor
    · rw [get_cons, if_pos rfl]
      exact hvi
    · exact hvi

theorem claim_C8_witness :
    (∀ row ∈ exC7fsd.formatted_data, row.keys.Nodup ∧ "_id" ∉ row.keys) ∧
    bulk_write exDbNoInst db_collection.institutions
      (institutionRequests (institutionPrimaryKeys exC7fsd.meta_data)
        exC7fsd.formatted_data) = (exC7db1, .ok exC7res) ∧
    (∀ req ∈ variableRequests
        (institutionDocId exC7db1 (institutionPrimaryKeys exC7fsd.meta_data) exC7res
          exC7fsd.formatted_data) exC7fsd.formatted_data,
      (∃ d ∈ exC7db1.getCollection db_collection.institutions,
        d.get "_id" = req.filter.get "institution") ∧
      req.set.get "institution" = req.filter.get "institution") := by
  refine ⟨by decide, by rfl, ?_⟩
  exact (claim_C8 exDbNoInst exC7db1 exC7fsd exC7res (by decide) (by rfl)).1

/-! ## Claim C1: idempotence machinery -/

/-! ## Sequential payload application (for bulk replay without
distinct-filter hypotheses) -/

/-- Apply a sequence of `$set` payloads in order. -/
def Doc.setManySeq (d : Doc) (ss : List Doc) : Doc :=
  ss.foldl Doc.setMany d

/-- The value the payload sequence leaves at key `k` (later payloads
win), if any payload binds `k`. -/
def seqVal? : List Doc → String → Option Value
  | [], _ => none
  | s :: ss, k =>
      match seqVal? ss k with
      | some v => some v
      | none => lastVal? s k

theorem setManySeq_nil (d : Doc) : d.setManySeq [] = d := rfl

theorem setManySeq_cons (d s : Doc) (ss : List Doc) :
    d.setManySeq (s :: ss) = (d.setMany s).setManySeq ss := rfl

theorem get_setManySeq (d : Doc) (ss : List Doc) (k : String) :
    (d.setManySeq ss).get k = (seqVal? ss k).getD (d.get k) := by
  induction ss generalizing d with
  | nil => rfl
  | cons s rest ih =>
      rw [setManySeq_cons, ih, seqVal?]
      rcases hr : seqVal? rest k with _ | w
      · rw [get_setMany]
        rcases hl : lastVal? s k with _ | v <;> rfl
      · rfl

theorem mem_keys_setManySeq_iff (d : Doc) (ss : List Doc) (k : String) :
    k ∈ (d.setManySeq ss).keys ↔ k ∈ d.keys ∨ ∃ s ∈ ss, k ∈ s.keys := by
  induction ss generalizing d with
  | nil => simp [setManySeq_nil]
  | cons s rest ih =>
      rw [setManySeq_cons, ih, mem_keys_setMany_iff]
      constructor
      · rintro (⟨h | h⟩ | ⟨s2, hs2, h⟩)
        · exact Or.inl h
        · exact Or.inr ⟨s, List.mem_cons_self _ _, h⟩
        · exact Or.inr ⟨s2, List.mem_cons_of_mem _ hs2, h⟩
      · rintro (h | ⟨s2, hs2, h⟩)
        · exact Or.inl (Or.inl h)
        · rcases List.mem_cons.mp hs2 with rfl | hs2r
          · exact Or.inl (Or.inr h)
          · exact Or.inr ⟨s2, hs2r, h⟩

theorem nodup_keys_setManySeq {d : Doc} (ss : List Doc) (h : d.keys.Nodup) :
    (d.setManySeq ss).keys.Nodup := by
  induction ss generalizing d with
  | nil => exact h
  | cons s rest ih => exact ih (nodup_keys_setMany s h)

theorem keys_setManySeq_of_subset {d : Doc} {ss : List Doc}
    (h : ∀ s ∈ ss, ∀ k ∈ s.keys, k ∈ d.keys) : (d.setManySeq ss).keys = d.keys := by
  induction ss generalizing d with
  | nil => rfl
  | cons s rest ih =>
      rw [setManySeq_cons]
      have h1 : (d.setMany s).keys = d.keys :=
        keys_setMany_of_subset (h s (List.mem_cons_self _ _))
      rw [ih, h1]
      intro s2 hs2 k hk
      rw [h1]
      exact h s2 (List.mem_cons_of_mem _ hs2) k hk

/-- Replaying a payload sequence on a document that has already
absorbed it is a no-op. -/
theorem setManySeq_replay {d : Doc} (ss : List Doc) (hnd : d.keys.Nodup) :
    (d.setManySeq ss).setManySeq ss = d.setManySeq ss := by
  have hsub : ∀ s ∈ ss, ∀ k ∈ s.keys, k ∈ (d.setManySeq ss).keys := by
    intro s hs k hk
    rw [mem_keys_setManySeq_iff]
    exact Or.inr ⟨s, hs, hk⟩
  refine doc_ext (keys_setManySeq_of_subset hsub)
    (nodup_keys_setManySeq ss (nodup_keys_setManySeq ss hnd)) (fun k => ?_)
  rw [get_setManySeq, get_setManySeq]
  rcases hr : seqVal? ss k with _ | w <;> rfl

theorem get_setManySeq_of_not_mem {d : Doc} {ss : List Doc} {k : String}
    (h : ∀ s ∈ ss, k ∉ s.keys) : (d.setManySeq ss).get k = d.get k := by
  rw [get_setManySeq]
  have : seqVal? ss k = none := by
    induction ss with
    | nil => rfl
    | cons s rest ih =>
        rw [seqVal?, ih (fun s2 hs2 => h s2 (List.mem_cons_of_mem _ hs2)),
          lastVal?_eq_none_of_not_mem (h s (List.mem_cons_self _ _))]
  rw [this]
  rfl

/-- Index of the first document matching a filter. -/
def fmi (f : Doc) : List Doc → Option Nat
  | [] => none
  | d :: ds => if matchesDoc f d then some 0 else (fmi f ds).map (fun m => m + 1)

theorem fmi_spec {f : Doc} {l : List Doc} {n : Nat} (h : fmi f l = some n) :
    ∃ hn : n < l.length, matchesDoc f l[n] = true ∧
      ∀ m, ∀ hm : m < l.length, m < n → ¬ matchesDoc f l[m] = true := by
  induction l generalizing n with
  | nil => simp [fmi] at h
  | cons d ds ih =>
      rw [fmi] at h
      by_cases hd : matchesDoc f d = true
      · rw [if_pos hd] at h
        injection h with h
        subst h
        exact ⟨by simp, hd, fun m hm hlt => by omega⟩
      · rw [if_neg hd] at h
        rcases hr : fmi f ds with _ | n0
        · rw [hr] at h
          cases h
        · rw [hr] at h
          have h2 : n0 + 1 = n := by simpa using h
          obtain ⟨hn0, hm0, hp0⟩ := ih hr
          subst h2
          refine ⟨by simp; omega, by simpa using hm0, ?_⟩
          intro m hm hlt
          cases m with
          | zero => simpa using hd
          | succ m0 =>
              have := hp0 m0 (by simp at hm; omega) (by omega)
              simpa using this

theorem fmi_of_spec {f : Doc} {l : List Doc} {n : Nat} (hn : n < l.length)
    (hmatch : matchesDoc f l[n] = true)
    (hpre : ∀ m, ∀ hm : m < l.length, m < n → ¬ matchesDoc f l[m] = true) :
    fmi f l = some n := by
  induction l generalizing n with
  | nil => simp at hn
  | cons d ds ih =>
      cases n with
      | zero =>
          rw [fmi, if_pos (by simpa using hmatch)]
      | succ n0 =>
          have hd : ¬ matchesDoc f d = true := by
            have := hpre 0 (by simp) (by omega)
            simpa using this
          rw [fmi, if_neg hd]
          have hr : fmi f ds = some n0 := by
            apply ih (by simp at hn; omega) (by simpa using hmatch)
            intro m hm hlt
            have := hpre (m + 1) (by simp; omega) (by omega)
            simpa using this
          rw [hr]
          rfl

theorem fmi_isSome_of_match {f : Doc} {l : List Doc} {d : Doc} (hd : d ∈ l)
    (hm : matchesDoc f d = true) : (fmi f l).isSome := by
  induction l with
  | nil => simp at hd
  | cons d0 ds ih =>
      rw [fmi]
      by_cases h0 : matchesDoc f d0 = true
      · rw [if_pos h0]
        rfl
      · rw [if_neg h0]
        rcases List.mem_cons.mp hd with rfl | hd2
        · exact absurd hm h0
        · have := ih hd2
          rcases hr : fmi f ds with _ | m
          · rw [hr] at this
            simp at this
          · rfl

theorem fmi_congr {f : Doc} {l1 l2 : List Doc} (hlen : l1.length = l2.length)
    (h : ∀ p, ∀ hp1 : p < l1.length, ∀ hp2 : p < l2.length,
      matchesDoc f l1[p] = matchesDoc f l2[p]) : fmi f l1 = fmi f l2 := by
  induction l1 generalizing l2 with
  | nil =>
      cases l2 with
      | nil => rfl
      | cons d2 ds2 => simp at hlen
  | cons d1 ds1 ih =>
      cases l2 with
      | nil => simp at hlen
      | cons d2 ds2 =>
          have h0 : matchesDoc f d1 = matchesDoc f d2 := by
            have := h 0 (by simp) (by simp)
            simpa using this
          rw [fmi, fmi, h0]
          by_cases hd2 : matchesDoc f d2 = true
          · rw [if_pos hd2, if_pos hd2]
          · rw [if_neg hd2, if_neg hd2]
            have hrec : fmi f ds1 = fmi f ds2 := by
              apply ih (by simpa using hlen)
              intro p hp1 hp2
              have := h (p + 1) (by simp; omega) (by simp; omega)
              simpa using this
            rw [hrec]

theorem updateFirst_of_first {p : Doc → Bool} {f : Doc → Doc} {l : List Doc}
    {n : Nat} (hn : n < l.length) (hp : p l[n] = true)
    (hpre : ∀ m, ∀ hm : m < l.length, m < n → ¬ p l[m] = true) :
    updateFirst p f l = (l.set n (f l[n]), some (f l[n])) := by
  induction l generalizing n with
  | nil => simp at hn
  | cons d0 ds ih =>
      cases n with
      | zero =>
          rw [updateFirst, if_pos (by simpa using hp)]
          simp
      | succ n0 =>
          have hd0 : ¬ p d0 = true := by
            have := hpre 0 (by simp) (by omega)
            simpa using this
          rw [updateFirst, if_neg hd0]
          have hrec := @ih n0 (by simp at hn; omega) (by simpa using hp)
            (fun m hm hlt => by
              have := hpre (m + 1) (by simp; omega) (by omega)
              simpa using this)
          rw [hrec]
          simp

/-- Generalised stability with content tracking: a first-match position
of `f` survives a bulk whose requests carry common-keyed agreeing
payloads (equal filters allowed); the document there accumulates
exactly the payloads of the same-filter requests, in order, and nothing
before it ever starts matching `f`. -/
theorem stable_content {K : List String} {reqs : List UpdateOne}
    (hKnd : K.Nodup)
    (hK : ∀ x ∈ reqs, x.filter.keys = K)
    (hA : ∀ x ∈ reqs, Agrees x.filter x.set)
    {f : Doc} (hfK : f.keys = K)
    {docs : List Doc} {n : Nat} (hn : n < docs.length)
    (hmatch : matchesDoc f docs[n] = true)
    (hpre : ∀ m, ∀ hm : m < docs.length, m < n → ¬ matchesDoc f docs[m] = true)
    (nid i : Nat) :
    ∃ hn2 : n < (bulkApply docs nid i reqs).1.length,
      (bulkApply docs nid i reqs).1[n] =
        docs[n].setManySeq ((reqs.filter (fun x => decide (x.filter = f))).map
          (fun x => x.set)) ∧
      matchesDoc f ((bulkApply docs nid i reqs).1[n]) = true ∧
      ∀ m, ∀ hm : m < (bulkApply docs nid i reqs).1.length, m < n →
        ¬ matchesDoc f ((bulkApply docs nid i reqs).1[m]) = true := by
  induction reqs generalizing docs nid i with
  | nil => exact ⟨hn, rfl, hmatch, fun m hm hlt => hpre m hm hlt⟩
  | cons x rest ih =>
      have hxK := hK x (List.mem_cons_self _ _)
      have hxA := hA x (List.mem_cons_self _ _)
      have hKrest : ∀ y ∈ rest, y.filter.keys = K :=
        fun y hy => hK y (List.mem_cons_of_mem _ hy)
      have hArest : ∀ y ∈ rest, Agrees y.filter y.set :=
        fun y hy => hA y (List.mem_cons_of_mem _ hy)
      by_cases hxf : x.filter = f
      · have hu : updateFirst (matchesDoc x.filter) (fun d => d.setMany x.set) docs =
            (docs.set n (docs[n].setMany x.set), some (docs[n].setMany x.set)) :=
          updateFirst_of_first hn (by rw [hxf]; exact hmatch)
            (fun m hm hlt => by rw [hxf]; exact hpre m hm hlt)
        have hlenu : (docs.set n (docs[n].setMany x.set)).length = docs.length :=
          List.length_set _ _ _
        have hn1 : n < (docs.set n (docs[n].setMany x.set)).length := by
          rw [hlenu]
          exact hn
        have hgn : (docs.set n (docs[n].setMany x.set))[n] = docs[n].setMany x.set :=
          List.getElem_set_self hn1
        have hmatch1 : matchesDoc f ((docs.set n (docs[n].setMany x.set))[n]) = true := by
          rw [hgn, matches_setMany_iff_of_agrees hxA (hxf ▸ hmatch)
            (fun k hk => by rw [hxK]; exact hfK ▸ hk)]
          exact hmatch
        have hpre1 : ∀ m, ∀ hm : m < (docs.set n (docs[n].setMany x.set)).length,
            m < n → ¬ matchesDoc f ((docs.set n (docs[n].setMany x.set))[m]) = true := by
          intro m hm hlt
          have hgm : (docs.set n (docs[n].setMany x.set))[m] = docs[m] :=
            List.getElem_set_ne (by omega) _
          rw [hgm]
          exact hpre m (by rw [hlenu] at hm; exact hm) hlt
        have hrec := ih hKrest hArest hn1 hmatch1 hpre1 nid (i + 1)
        obtain ⟨hn2, hcontent, hmfin, hprefin⟩ := hrec
        have hfst : (bulkApply docs nid i (x :: rest)).1 =
            (bulkApply (docs.set n (docs[n].setMany x.set)) nid (i + 1) rest).1 := by
          rw [bulkApply_cons, applyUpdateOne_matched hu]
        have hfilt : ((x :: rest).filter (fun y => decide (y.filter = f))).map
            (fun y => y.set) = x.set ::
            ((rest.filter (fun y => decide (y.filter = f))).map (fun y => y.set)) := by
          rw [List.filter_cons_of_pos (by simpa using hxf), List.map_cons]
        refine ⟨by rw [hfst]; exact hn2, ?_, ?_, ?_⟩
        · rw [getElem_congr_list hfst (by rw [hfst]; exact hn2) hn2, hcontent, hgn,
            hfilt, setManySeq_cons]
        · rw [getElem_congr_list hfst (by rw [hfst]; exact hn2) hn2]
          exact hmfin
        · intro p hp hlt
          have hp2 : p < (bulkApply (docs.set n (docs[n].setMany x.set)) nid
              (i + 1) rest).1.length := by
            rw [← hfst]
            exact hp
          rw [getElem_congr_list hfst hp hp2]
          exact hprefin p hp2 hlt
      · have hfilt : ((x :: rest).filter (fun y => decide (y.filter = f))).map
            (fun y => y.set) =
            ((rest.filter (fun y => decide (y.filter = f))).map (fun y => y.set)) := by
          rw [List.filter_cons_of_neg (by simpa using hxf)]
        rcases hu : updateFirst (matchesDoc x.filter) (fun d => d.setMany x.set) docs with
          ⟨docsu, od⟩
        cases od with
        | some d =>
            obtain ⟨m, hm, hxmatch, hd, hset, hxpre⟩ := updateFirst_some_spec hu
            have hmn : m ≠ n := by
              intro he
              subst he
              exact hxf (filter_eq_of_common_match (hxK.trans hfK.symm)
                (hxK ▸ hKnd) hxmatch hmatch)
            have hlen1 : docsu.length = docs.length := by rw [hset, List.length_set]
            have hn1 : n < docsu.length := by omega
            have hgn : docsu[n] = docs[n] := by
              rw [getElem_congr_list hset hn1 (by simp only [List.length_set]; omega)]
              exact List.getElem_set_ne hmn (by simp only [List.length_set]; omega)
            have hpre1 : ∀ p, ∀ hp : p < docsu.length, p < n →
                ¬ matchesDoc f (docsu[p]) = true := by
              intro p hp hlt
              by_cases hpm : p = m
              · subst hpm
                have hgp : docsu[p] = docs[p].setMany x.set := by
                  rw [getElem_congr_list hset hp (by simp only [List.length_set]; omega), hd]
                  exact List.getElem_set_self (by simp only [List.length_set]; omega)
                rw [hgp, matches_setMany_iff_of_agrees hxA hxmatch
                  (fun k hk => by rw [hxK]; exact hfK ▸ hk)]
                exact hpre p (by omega) hlt
              · have hgp : docsu[p] = docs[p] := by
                  rw [getElem_congr_list hset hp (by simp only [List.length_set]; omega)]
                  exact List.getElem_set_ne (fun he => hpm he.symm)
                    (by simp only [List.length_set]; omega)
                rw [hgp]
                exact hpre p (by omega) hlt
            have hrec := ih hKrest hArest hn1 (hgn ▸ hmatch) hpre1 nid (i + 1)
            obtain ⟨hn2, hcontent, hmfin, hprefin⟩ := hrec
            have hfst : (bulkApply docs nid i (x :: rest)).1 =
                (bulkApply docsu nid (i + 1) rest).1 := by
              rw [bulkApply_cons, applyUpdateOne_matched hu]
            refine ⟨by rw [hfst]; exact hn2, ?_, ?_, ?_⟩
            · rw [getElem_congr_list hfst (by rw [hfst]; exact hn2) hn2, hcontent, hgn,
                hfilt]
            · rw [getElem_congr_list hfst (by rw [hfst]; exact hn2) hn2]
              exact hmfin
            · intro p hp hlt
              have hp2 : p < (bulkApply docsu nid (i + 1) rest).1.length := by
                rw [← hfst]
                exact hp
              rw [getElem_congr_list hfst hp hp2]
              exact hprefin p hp2 hlt
        | none =>
            obtain ⟨he, hall⟩ := updateFirst_none_spec hu
            have hn1 : n < (docs ++ [upsertInsertDoc x.filter x.set nid]).length := by
              simp
              omega
            have hgn : (docs ++ [upsertInsertDoc x.filter x.set nid])[n] = docs[n] :=
              List.getElem_append_left hn
            have hpre1 : ∀ p,
                ∀ hp : p < (docs ++ [upsertInsertDoc x.filter x.set nid]).length,
                p < n → ¬ matchesDoc f
                  ((docs ++ [upsertInsertDoc x.filter x.set nid])[p]) = true := by
              intro p hp hlt
              have hpd : p < docs.length := by omega
              have hgp : (docs ++ [upsertInsertDoc x.filter x.set nid])[p] = docs[p] :=
                List.getElem_append_left hpd
              rw [hgp]
              exact hpre p hpd hlt
            have hrec := ih hKrest hArest hn1 (hgn ▸ hmatch) hpre1 (nid + 1) (i + 1)
            obtain ⟨hn2, hcontent, hmfin, hprefin⟩ := hrec
            have hfst : (bulkApply docs nid i (x :: rest)).1 =
                (bulkApply (docs ++ [upsertInsertDoc x.filter x.set nid]) (nid + 1)
                  (i + 1) rest).1 := by
              rw [bulkApply_cons, applyUpdateOne_created hu]
            refine ⟨by rw [hfst]; exact hn2, ?_, ?_, ?_⟩
            · rw [getElem_congr_list hfst (by rw [hfst]; exact hn2) hn2, hcontent, hgn,
                hfilt]
            · rw [getElem_congr_list hfst (by rw [hfst]; exact hn2) hn2]
              exact hmfin
            · intro p hp hlt
              have hp2 : p < (bulkApply (docs ++ [upsertInsertDoc x.filter x.set nid])
                  (nid + 1) (i + 1) rest).1.length := by
                rw [← hfst]
                exact hp
              rw [getElem_congr_list hfst hp hp2]
              exact hprefin p hp2 hlt

/-- All documents keep duplicate-free keys through a bulk pass. -/
theorem bulkApply_docs_nodup {reqs : List UpdateOne} {docs : List Doc}
    (hDnd : ∀ d ∈ docs, d.keys.Nodup) (nid i : Nat) :
    ∀ d ∈ (bulkApply docs nid i reqs).1, d.keys.Nodup := by
  induction reqs generalizing docs nid i with
  | nil => exact hDnd
  | cons x rest ih =>
      rcases hu : updateFirst (matchesDoc x.filter) (fun d => d.setMany x.set) docs with
        ⟨docsu, od⟩
      cases od with
      | some d =>
          obtain ⟨m, hm, hxm, hd, hset, hxpre⟩ := updateFirst_some_spec hu
          have hDndu : ∀ d2 ∈ docsu, d2.keys.Nodup := by
            intro d2 hd2
            rw [hset] at hd2
            rcases List.mem_or_eq_of_mem_set hd2 with h2 | h2
            · exact hDnd d2 h2
            · rw [h2, hd]
              exact nodup_keys_setMany _ (hDnd _ (List.getElem_mem hm))
          have hfst : (bulkApply docs nid i (x :: rest)).1 =
              (bulkApply docsu nid (i + 1) rest).1 := by
            rw [bulkApply_cons, applyUpdateOne_matched hu]
          rw [hfst]
          exact ih hDndu nid (i + 1)
      | none =>
          have hDndu : ∀ d2 ∈ docs ++ [upsertInsertDoc x.filter x.set nid],
              d2.keys.Nodup := by
            intro d2 hd2
            rcases List.mem_append.mp hd2 with h2 | h2
            · exact hDnd d2 h2
            · rw [List.mem_singleton.mp h2]
              exact upsertInsert_keys_nodup _ _ _
          have hfst : (bulkApply docs nid i (x :: rest)).1 =
              (bulkApply (docs ++ [upsertInsertDoc x.filter x.set nid]) (nid + 1)
                (i + 1) rest).1 := by
            rw [bulkApply_cons, applyUpdateOne_created hu]
          rw [hfst]
          exact ih hDndu (nid + 1) (i + 1)

/-- After a bulk pass, every filter occurring among the requests has a
definite first-match position whose document has absorbed all the
same-filter payloads: re-applying them is a no-op. -/
theorem pass1_absorbed_aux {K : List String} {reqs : List UpdateOne}
    (hKnd : K.Nodup)
    (hK : ∀ x ∈ reqs, x.filter.keys = K)
    (hA : ∀ x ∈ reqs, Agrees x.filter x.set)
    {docs : List Doc} (hDnd : ∀ d ∈ docs, d.keys.Nodup) (nid i : Nat)
    {f : Doc} (hfK : f.keys = K) (hex : ∃ x ∈ reqs, x.filter = f) :
    ∃ n, ∃ hn : n < (bulkApply docs nid i reqs).1.length,
      matchesDoc f ((bulkApply docs nid i reqs).1[n]) = true ∧
      (∀ m, ∀ hm : m < (bulkApply docs nid i reqs).1.length, m < n →
        ¬ matchesDoc f ((bulkApply docs nid i reqs).1[m]) = true) ∧
      ((bulkApply docs nid i reqs).1[n]).setManySeq
        ((reqs.filter (fun x => decide (x.filter = f))).map (fun x => x.set)) =
        (bulkApply docs nid i reqs).1[n] := by
  induction reqs generalizing docs nid i with
  | nil =>
      obtain ⟨x, hx, _⟩ := hex
      simp at hx
  | cons x rest ih =>
      have hxK := hK x (List.mem_cons_self _ _)
      have hxA := hA x (List.mem_cons_self _ _)
      have hKrest : ∀ y ∈ rest, y.filter.keys = K :=
        fun y hy => hK y (List.mem_cons_of_mem _ hy)
      have hArest : ∀ y ∈ rest, Agrees y.filter y.set :=
        fun y hy => hA y (List.mem_cons_of_mem _ hy)
      by_cases hxf : x.filter = f
      · subst hxf
        have hfilt : (((x :: rest).filter (fun y => decide (y.filter = x.filter))).map
            (fun y => y.set)) = x.set ::
            ((rest.filter (fun y => decide (y.filter = x.filter))).map
              (fun y => y.set)) := by
          rw [List.filter_cons_of_pos (by simp), List.map_cons]
        rcases hu : updateFirst (matchesDoc x.filter) (fun d => d.setMany x.set) docs with
          ⟨docsu, od⟩
        cases od with
        | some d =>
            obtain ⟨m, hm, hxm, hd, hset, hxpre⟩ := updateFirst_some_spec hu
            have hlen1 : docsu.length = docs.length := by rw [hset, List.length_set]
            have hmu : m < docsu.length := by omega
            have hgm : docsu[m] = docs[m].setMany x.set := by
              rw [getElem_congr_list hset hmu (by simp only [List.length_set]; omega), hd]
              exact List.getElem_set_self (by simp only [List.length_set]; omega)
            have hmatch1 : matchesDoc x.filter (docsu[m]) = true := by
              rw [hgm, matches_setMany_iff_of_agrees hxA hxm (fun k hk => hk)]
              exact hxm
            have hpre1 : ∀ p, ∀ hp : p < docsu.length, p < m →
                ¬ matchesDoc x.filter (docsu[p]) = true := by
              intro p hp hlt
              have hgp : docsu[p] = docs[p] := by
                rw [getElem_congr_list hset hp (by simp only [List.length_set]; omega)]
                exact List.getElem_set_ne (by omega)
                  (by simp only [List.length_set]; omega)
              rw [hgp]
              exact hxpre p (by omega) hlt
            obtain ⟨hm2, hcontent, hmfin, hprefin⟩ := stable_content hKnd hKrest hArest
              hxK hmu hmatch1 hpre1 nid (i + 1)
            have hfst : (bulkApply docs nid i (x :: rest)).1 =
                (bulkApply docsu nid (i + 1) rest).1 := by
              rw [bulkApply_cons, applyUpdateOne_matched hu]
            have hfull : (bulkApply docsu nid (i + 1) rest).1[m] =
                docs[m].setManySeq (((x :: rest).filter
                  (fun y => decide (y.filter = x.filter))).map (fun y => y.set)) := by
              rw [hcontent, hgm, hfilt, setManySeq_cons]
            refine ⟨m, by rw [hfst]; exact hm2, ?_, ?_, ?_⟩
            · rw [getElem_congr_list hfst (by rw [hfst]; exact hm2) hm2]
              exact hmfin
            · intro p hp hlt
              have hp2 : p < (bulkApply docsu nid (i + 1) rest).1.length := by
                rw [← hfst]
                exact hp
              rw [getElem_congr_list hfst hp hp2]
              exact hprefin p hp2 hlt
            · rw [getElem_congr_list hfst (by rw [hfst]; exact hm2) hm2, hfull]
              exact setManySeq_replay _ (hDnd _ (List.getElem_mem hm))
        | none =>
            obtain ⟨he, hall⟩ := updateFirst_none_spec hu
            have hnlen : docs.length <
                (docs ++ [upsertInsertDoc x.filter x.set nid]).length := by
              simp
            have hgnew : (docs ++ [upsertInsertDoc x.filter x.set nid])[docs.length] =
                upsertInsertDoc x.filter x.set nid :=
              List.getElem_concat_length _ _ _ rfl _
            have hmatchn : matchesDoc x.filter
                ((docs ++ [upsertInsertDoc x.filter x.set nid])[docs.length]) = true := by
              rw [hgnew]
              exact upsertInsert_matches (hxK ▸ hKnd) hxA nid
            have hpre1 : ∀ p,
                ∀ hp : p < (docs ++ [upsertInsertDoc x.filter x.set nid]).length,
                p < docs.length → ¬ matchesDoc x.filter
                  ((docs ++ [upsertInsertDoc x.filter x.set nid])[p]) = true := by
              intro p hp hlt
              rw [List.getElem_append_left hlt]
              exact hall _ (List.getElem_mem hlt)
            obtain ⟨hm2, hcontent, hmfin, hprefin⟩ := stable_content hKnd hKrest hArest
              hxK hnlen hmatchn hpre1 (nid + 1) (i + 1)
            have hfst : (bulkApply docs nid i (x :: rest)).1 =
                (bulkApply (docs ++ [upsertInsertDoc x.filter x.set nid]) (nid + 1)
                  (i + 1) rest).1 := by
              rw [bulkApply_cons, applyUpdateOne_created hu]
            have hcore : (Doc.setMany [("_id", vOid nid)] x.filter).keys.Nodup :=
              nodup_keys_setMany _ (by simp [Doc.keys])
            have hfull : (bulkApply (docs ++ [upsertInsertDoc x.filter x.set nid])
                (nid + 1) (i + 1) rest).1[docs.length] =
                (Doc.setMany [("_id", vOid nid)] x.filter).setManySeq
                  (((x :: rest).filter (fun y => decide (y.filter = x.filter))).map
                    (fun y => y.set)) := by
              rw [hcontent, hgnew, hfilt, setManySeq_cons]
              rfl
            refine ⟨docs.length, by rw [hfst]; exact hm2, ?_, ?_, ?_⟩
            · rw [getElem_congr_list hfst (by rw [hfst]; exact hm2) hm2]
              exact hmfin
            · intro p hp hlt
              have hp2 : p < (bulkApply (docs ++ [upsertInsertDoc x.filter x.set nid])
                  (nid + 1) (i + 1) rest).1.length := by
                rw [← hfst]
                exact hp
              rw [getElem_congr_list hfst hp hp2]
              exact hprefin p hp2 hlt
            · rw [getElem_congr_list hfst (by rw [hfst]; exact hm2) hm2, hfull]
              exact setManySeq_replay _ hcore
      · have hfilt : (((x :: rest).filter (fun y => decide (y.filter = f))).map
            (fun y => y.set)) =
            ((rest.filter (fun y => decide (y.filter = f))).map (fun y => y.set)) := by
          rw [List.filter_cons_of_neg (by simpa using hxf)]
        have hexr : ∃ y ∈ rest, y.filter = f := by
          obtain ⟨x0, hx0, hx0f⟩ := hex
          rcases List.mem_cons.mp hx0 with rfl | hx0r
          · exact absurd hx0f hxf
          · exact ⟨x0, hx0r, hx0f⟩
        rcases hu : updateFirst (matchesDoc x.filter) (fun d => d.setMany x.set) docs with
          ⟨docsu, od⟩
        cases od with
        | some d =>
            obtain ⟨m, hm, hxm, hd, hset, hxpre⟩ := updateFirst_some_spec hu
            have hDndu : ∀ d2 ∈ docsu, d2.keys.Nodup := by
              intro d2 hd2
              rw [hset] at hd2
              rcases List.mem_or_eq_of_mem_set hd2 with h2 | h2
              · exact hDnd d2 h2
              · rw [h2, hd]
                exact nodup_keys_setMany _ (hDnd _ (List.getElem_mem hm))
            have hfst : (bulkApply docs nid i (x :: rest)).1 =
                (bulkApply docsu nid (i + 1) rest).1 := by
              rw [bulkApply_cons, applyUpdateOne_matched hu]
            obtain ⟨n, hn, hA1, hA2, hA3⟩ := ih hKrest hArest hDndu nid (i + 1) hexr
            refine ⟨n, by rw [hfst]; exact hn, ?_, ?_, ?_⟩
            · rw [getElem_congr_list hfst (by rw [hfst]; exact hn) hn]
              exact hA1
            · intro p hp hlt
              have hp2 : p < (bulkApply docsu nid (i + 1) rest).1.length := by
                rw [← hfst]
                exact hp
              rw [getElem_congr_list hfst hp hp2]
              exact hA2 p hp2 hlt
            · rw [getElem_congr_list hfst (by rw [hfst]; exact hn) hn, hfilt]
              exact hA3
        | none =>
            have hDndu : ∀ d2 ∈ docs ++ [upsertInsertDoc x.filter x.set nid],
                d2.keys.Nodup := by
              intro d2 hd2
              rcases List.mem_append.mp hd2 with h2 | h2
              · exact hDnd d2 h2
              · rw [List.mem_singleton.mp h2]
                exact upsertInsert_keys_nodup _ _ _
            have hfst : (bulkApply docs nid i (x :: rest)).1 =
                (bulkApply (docs ++ [upsertInsertDoc x.filter x.set nid]) (nid + 1)
                  (i + 1) rest).1 := by
              rw [bulkApply_cons, applyUpdateOne_created hu]
            obtain ⟨n, hn, hA1, hA2, hA3⟩ := ih hKrest hArest hDndu (nid + 1) (i + 1) hexr
            refine ⟨n, by rw [hfst]; exact hn, ?_, ?_, ?_⟩
            · rw [getElem_congr_list hfst (by rw [hfst]; exact hn) hn]
              exact hA1
            · intro p hp hlt
              have hp2 : p < (bulkApply (docs ++ [upsertInsertDoc x.filter x.set nid])
                  (nid + 1) (i + 1) rest).1.length := by
                rw [← hfst]
                exact hp
              rw [getElem_congr_list hfst hp hp2]
              exact hA2 p hp2 hlt
            · rw [getElem_congr_list hfst (by rw [hfst]; exact hn) hn, hfilt]
              exact hA3

/-- When a bulk pass reports a created id for request `j`, the first
document matching request `j`'s filter afterwards carries that id. -/
theorem pass1_created_id {K : List String} {reqs : List UpdateOne}
    (hKnd : K.Nodup)
    (hK : ∀ x ∈ reqs, x.filter.keys = K)
    (hA : ∀ x ∈ reqs, Agrees x.filter x.set)
    (hIdK : "_id" ∉ K) (hIdS : ∀ x ∈ reqs, "_id" ∉ x.set.keys)
    {docs : List Doc} (nid i : Nat) :
    ∀ j, ∀ hj : j < reqs.length, ∀ id,
      BulkWriteResult.getUpserted ⟨(bulkApply docs nid i reqs).2.2⟩ (i + j) =
        some id →
      ∃ n, ∃ hn : n < (bulkApply docs nid i reqs).1.length,
        matchesDoc ((reqs[j]).filter) ((bulkApply docs nid i reqs).1[n]) = true ∧
        (∀ m, ∀ hm : m < (bulkApply docs nid i reqs).1.length, m < n →
          ¬ matchesDoc ((reqs[j]).filter) ((bulkApply docs nid i reqs).1[m]) = true) ∧
        ((bulkApply docs nid i reqs).1[n]).get "_id" = vOid id := by
  induction reqs generalizing docs nid i with
  | nil => intro j hj; simp at hj
  | cons x rest ih =>
      have hxK := hK x (List.mem_cons_self _ _)
      have hxA := hA x (List.mem_cons_self _ _)
      have hxIdS := hIdS x (List.mem_cons_self _ _)
      have hKrest : ∀ y ∈ rest, y.filter.keys = K :=
        fun y hy => hK y (List.mem_cons_of_mem _ hy)
      have hArest : ∀ y ∈ rest, Agrees y.filter y.set :=
        fun y hy => hA y (List.mem_cons_of_mem _ hy)
      have hIdSrest : ∀ y ∈ rest, "_id" ∉ y.set.keys :=
        fun y hy => hIdS y (List.mem_cons_of_mem _ hy)
      rcases hu : updateFirst (matchesDoc x.filter) (fun d => d.setMany x.set) docs with
        ⟨docsu, od⟩
      cases od with
      | some d =>
          have hfst : (bulkApply docs nid i (x :: rest)).1 =
              (bulkApply docsu nid (i + 1) rest).1 := by
            rw [bulkApply_cons, applyUpdateOne_matched hu]
          have hids : (bulkApply docs nid i (x :: rest)).2.2 =
              (bulkApply docsu nid (i + 1) rest).2.2 := by
            rw [bulkApply_cons, applyUpdateOne_matched hu]
            rfl
          intro j hj id hupd
          cases j with
          | zero =>
              rw [hids] at hupd
              have hge := @bulkApply_ids_ge rest docsu nid (i + 1)
              rw [getUpserted_of_keys_gt (by
                intro p hp
                have := hge p hp
                omega)] at hupd
              cases hupd
          | succ j0 =>
              have hj2 : j0 < rest.length := by simpa using hj
              rw [hids] at hupd
              have harith : i + (j0 + 1) = (i + 1) + j0 := by omega
              rw [harith] at hupd
              obtain ⟨n, hn, h1, h2, h3⟩ := ih hKrest hArest hIdSrest nid (i + 1)
                j0 hj2 id hupd
              refine ⟨n, by rw [hfst]; exact hn, ?_, ?_, ?_⟩
              · rw [getElem_congr_list hfst (by rw [hfst]; exact hn) hn]
                simpa using h1
              · intro p hp hlt
                have hp2 : p < (bulkApply docsu nid (i + 1) rest).1.length := by
                  rw [← hfst]
                  exact hp
                rw [getElem_congr_list hfst hp hp2]
                have := h2 p hp2 hlt
                simpa using this
              · rw [getElem_congr_list hfst (by rw [hfst]; exact hn) hn]
                exact h3
      | none =>
          obtain ⟨he, hall⟩ := updateFirst_none_spec hu
          have hfst : (bulkApply docs nid i (x :: rest)).1 =
              (bulkApply (docs ++ [upsertInsertDoc x.filter x.set nid]) (nid + 1)
                (i + 1) rest).1 := by
            rw [bulkApply_cons, applyUpdateOne_created hu]
          have hids : (bulkApply docs nid i (x :: rest)).2.2 =
              (i, nid) :: (bulkApply (docs ++ [upsertInsertDoc x.filter x.set nid])
                (nid + 1) (i + 1) rest).2.2 := by
            rw [bulkApply_cons, applyUpdateOne_created hu]
            rfl
          intro j hj id hupd
          cases j with
          | zero =>
              rw [hids] at hupd
              have hideq : id = nid := by
                have := @getUpserted_cons_self (i, nid)
                  (bulkApply (docs ++ [upsertInsertDoc x.filter x.set nid]) (nid + 1)
                    (i + 1) rest).2.2
                rw [show i + 0 = (i, nid).1 by omega] at hupd
                rw [this] at hupd
                injection hupd with h
                exact h.symm
              have hnlen : docs.length <
                  (docs ++ [upsertInsertDoc x.filter x.set nid]).length := by
                simp
              have hgnew : (docs ++ [upsertInsertDoc x.filter x.set nid])[docs.length] =
                  upsertInsertDoc x.filter x.set nid :=
                List.getElem_concat_length _ _ _ rfl _
              have hmatchn : matchesDoc x.filter
                  ((docs ++ [upsertInsertDoc x.filter x.set nid])[docs.length]) = true := by
                rw [hgnew]
                exact upsertInsert_matches (hxK ▸ hKnd) hxA nid
              have hpre1 : ∀ p,
                  ∀ hp : p < (docs ++ [upsertInsertDoc x.filter x.set nid]).length,
                  p < docs.length → ¬ matchesDoc x.filter
                    ((docs ++ [upsertInsertDoc x.filter x.set nid])[p]) = true := by
                intro p hp hlt
                rw [List.getElem_append_left hlt]
                exact hall _ (List.getElem_mem hlt)
              obtain ⟨hm2, hcontent, hmfin, hprefin⟩ := stable_content hKnd hKrest
                hArest hxK hnlen hmatchn hpre1 (nid + 1) (i + 1)
              refine ⟨docs.length, by rw [hfst]; exact hm2, ?_, ?_, ?_⟩
              · rw [getElem_congr_list hfst (by rw [hfst]; exact hm2) hm2]
                exact hmfin
              · intro p hp hlt
                have hp2 : p < (bulkApply (docs ++ [upsertInsertDoc x.filter x.set nid])
                    (nid + 1) (i + 1) rest).1.length := by
                  rw [← hfst]
                  exact hp
                rw [getElem_congr_list hfst hp hp2]
                exact hprefin p hp2 hlt
              · rw [getElem_congr_list hfst (by rw [hfst]; exact hm2) hm2, hcontent,
                  hgnew]
                rw [get_setManySeq_of_not_mem (by
                  intro s hs
                  obtain ⟨y, hy, rfl⟩ := List.mem_map.mp hs
                  exact hIdSrest y (List.mem_of_mem_filter hy))]
                rw [hideq]
                exact upsertInsert_id (hxK ▸ hIdK) hxIdS nid
          | succ j0 =>
              have hj2 : j0 < rest.length := by simpa using hj
              rw [hids] at hupd
              rw [getUpserted_cons_ne (by show i ≠ i + (j0 + 1); omega)] at hupd
              have harith : i + (j0 + 1) = (i + 1) + j0 := by omega
              rw [harith] at hupd
              obtain ⟨n, hn, h1, h2, h3⟩ := ih hKrest hArest hIdSrest (nid + 1) (i + 1)
                j0 hj2 id hupd
              refine ⟨n, by rw [hfst]; exact hn, ?_, ?_, ?_⟩
              · rw [getElem_congr_list hfst (by rw [hfst]; exact hn) hn]
                simpa using h1
              · intro p hp hlt
                have hp2 : p < (bulkApply (docs ++ [upsertInsertDoc x.filter x.set nid])
                    (nid + 1) (i + 1) rest).1.length := by
                  rw [← hfst]
                  exact hp
                rw [getElem_congr_list hfst hp hp2]
                have := h2 p hp2 hlt
                simpa using this
              · rw [getElem_congr_list hfst (by rw [hfst]; exact hn) hn]
                exact h3

/-- Lockstep replay: running requests against a state `docsX` that is
match-equivalent to the absorbed state `docsC` and whose positions are
missing exactly the pending same-position payloads ends at `docsC`,
consuming no ids and creating nothing. -/
theorem bulkApply_replay_gen {K : List String} {reqs : List UpdateOne}
    (hKnd : K.Nodup)
    (hK : ∀ x ∈ reqs, x.filter.keys = K)
    (hA : ∀ x ∈ reqs, Agrees x.filter x.set)
    {docsC : List Doc} {docsX : List Doc}
    (hlen : docsX.length = docsC.length)
    (hmp : ∀ p, ∀ hpX : p < docsX.length, ∀ hpC : p < docsC.length,
      ∀ g : Doc, g.keys = K → matchesDoc g (docsX[p]) = matchesDoc g (docsC[p]))
    (hAll : ∀ x ∈ reqs, (fmi x.filter docsC).isSome)
    (hcontent : ∀ p, ∀ hpX : p < docsX.length, ∀ hpC : p < docsC.length,
      docsC[p] = (docsX[p]).setManySeq
        ((reqs.filter (fun x => decide (fmi x.filter docsC = some p))).map
          (fun x => x.set)))
    (nid i : Nat) :
    bulkApply docsX nid i reqs = (docsC, nid, []) := by
  induction reqs generalizing docsX i with
  | nil =>
      have hXC : docsX = docsC := by
        apply List.ext_getElem hlen
        intro p hpX hpC
        exact (hcontent p hpX hpC).symm
      rw [bulkApply_nil, hXC]
  | cons r rest ih =>
      have hrK := hK r (List.mem_cons_self _ _)
      have hrA := hA r (List.mem_cons_self _ _)
      have hKrest : ∀ y ∈ rest, y.filter.keys = K :=
        fun y hy => hK y (List.mem_cons_of_mem _ hy)
      have hArest : ∀ y ∈ rest, Agrees y.filter y.set :=
        fun y hy => hA y (List.mem_cons_of_mem _ hy)
      have hAllrest : ∀ y ∈ rest, (fmi y.filter docsC).isSome :=
        fun y hy => hAll y (List.mem_cons_of_mem _ hy)
      have hsome : (fmi r.filter docsC).isSome := hAll r (List.mem_cons_self _ _)
      rcases hc : fmi r.filter docsC with _ | n
      · rw [hc] at hsome
        simp at hsome
      · have hfmiX : fmi r.filter docsX = some n := by
          rw [fmi_congr hlen (fun p hp1 hp2 => hmp p hp1 hp2 r.filter hrK), hc]
        obtain ⟨hnX, hmatchX, hpreX⟩ := fmi_spec hfmiX
        have hnC : n < docsC.length := by omega
        have hu : updateFirst (matchesDoc r.filter) (fun d => d.setMany r.set) docsX =
            (docsX.set n (docsX[n].setMany r.set), some (docsX[n].setMany r.set)) :=
          updateFirst_of_first hnX hmatchX hpreX
        have hlenB : (docsX.set n (docsX[n].setMany r.set)).length = docsC.length := by
          rw [List.length_set]
          exact hlen
        have hmpB : ∀ p, ∀ hpX : p < (docsX.set n (docsX[n].setMany r.set)).length,
            ∀ hpC : p < docsC.length, ∀ g : Doc, g.keys = K →
            matchesDoc g ((docsX.set n (docsX[n].setMany r.set))[p]) =
              matchesDoc g (docsC[p]) := by
          intro p hpX' hpC g hgK
          have hpX0 : p < docsX.length := by simpa using hpX'
          by_cases hpn : p = n
          · subst hpn
            have hg : (docsX.set p (docsX[p].setMany r.set))[p] =
                docsX[p].setMany r.set := List.getElem_set_self hpX'
            rw [hg, matches_setMany_iff_of_agrees hrA hmatchX
              (fun k hk => by rw [hrK]; exact hgK ▸ hk)]
            exact hmp p hpX0 hpC g hgK
          · have hg : (docsX.set n (docsX[n].setMany r.set))[p] = docsX[p] :=
              List.getElem_set_ne (by omega) _
            rw [hg]
            exact hmp p hpX0 hpC g hgK
        have hcontentB : ∀ p,
            ∀ hpX : p < (docsX.set n (docsX[n].setMany r.set)).length,
            ∀ hpC : p < docsC.length,
            docsC[p] = ((docsX.set n (docsX[n].setMany r.set))[p]).setManySeq
              ((rest.filter (fun x => decide (fmi x.filter docsC = some p))).map
                (fun x => x.set)) := by
          intro p hpX' hpC
          have hpX0 : p < docsX.length := by simpa using hpX'
          by_cases hpn : p = n
          · subst hpn
            have hg : (docsX.set p (docsX[p].setMany r.set))[p] =
                docsX[p].setMany r.set := List.getElem_set_self hpX'
            have hold := hcontent p hpX0 hpC
            rw [List.filter_cons_of_pos (by rw [hc]; simp), List.map_cons,
              setManySeq_cons] at hold
            rw [hg]
            exact hold
          · have hg : (docsX.set n (docsX[n].setMany r.set))[p] = docsX[p] :=
              List.getElem_set_ne (by omega) _
            have hold := hcontent p hpX0 hpC
            rw [List.filter_cons_of_neg (by rw [hc]; simp; omega)] at hold
            rw [hg]
            exact hold
        have hrec := ih hKrest hArest hlenB hmpB hAllrest hcontentB (i + 1)
        rw [bulkApply_cons, applyUpdateOne_matched hu, hrec]
        rfl


theorem get_append_left {d1 d2 : Doc} {k : String} (h : k ∈ d1.keys) :
    (d1 ++ d2).get k = d1.get k := by
  induction d1 with
  | nil => simp [Doc.keys] at h
  | cons kv rest ih =>
      rw [List.cons_append, get_cons, get_cons]
      by_cases hk : kv.1 = k
      · rw [if_pos hk, if_pos hk]
      · rw [if_neg hk, if_neg hk]
        apply ih
        rcases List.mem_cons.mp h with he | h2
        · exact absurd he.symm hk
        · exact h2

theorem get_append_right {d1 d2 : Doc} {k : String} (h : k ∉ d1.keys) :
    (d1 ++ d2).get k = d2.get k := by
  induction d1 with
  | nil => rfl
  | cons kv rest ih =>
      rw [List.cons_append, get_cons]
      have hk : kv.1 ≠ k := fun he => h (by rw [Doc.keys]; exact List.mem_map.mpr ⟨kv, List.mem_cons_self _ _, he⟩)
      rw [if_neg hk]
      exact ih (fun h2 => h (by rw [Doc.keys, List.map_cons]; exact List.mem_cons_of_mem _ h2))

theorem keys_append (d1 d2 : Doc) : (d1 ++ d2).keys = d1.keys ++ d2.keys := by
  rw [Doc.keys, Doc.keys, Doc.keys, List.map_append]

theorem setCollAux_mem_name (colls : List (String × List Doc)) (name : String)
    (docs : List Doc) : name ∈ (setCollAux colls name docs).map (fun c => c.1) := by
  induction colls with
  | nil => simp [setCollAux]
  | cons c rest ih =>
      rw [setCollAux]
      by_cases h : c.1 = name
      · rw [if_pos h]
        simp
      · rw [if_neg h, List.map_cons]
        exact List.mem_cons_of_mem _ ih

theorem setCollAux_getColl_self {colls : List (String × List Doc)} {name : String}
    (hmem : name ∈ colls.map (fun c => c.1)) :
    setCollAux colls name
      (match colls.find? (fun c => c.1 = name) with
       | some c => c.2
       | none => []) = colls := by
  induction colls with
  | nil => simp at hmem
  | cons c rest ih =>
      by_cases h : c.1 = name
      · rw [List.find?_cons_of_pos _ (by simp [h]), setCollAux, if_pos h]
        have : (name, c.2) = c := by
          rcases c with ⟨c1, c2⟩
          simp at h
          rw [h]
        rw [this]
      · rw [List.find?_cons_of_neg _ (by simp [h]), setCollAux, if_neg h]
        have hmem2 : name ∈ rest.map (fun c => c.1) := by
          rw [List.map_cons] at hmem
          rcases List.mem_cons.mp hmem with he | h2
          · exact absurd he.symm h
          · exact h2
        rw [ih hmem2]

theorem setCollection_getCollection_self {db : DB} {name : String}
    (hmem : name ∈ db.colls.map (fun c => c.1)) :
    db.setCollection name (db.getCollection name) = db := by
  have h : setCollAux db.colls name (db.getCollection name) = db.colls :=
    setCollAux_getColl_self hmem
  show DB.mk (setCollAux db.colls name (db.getCollection name)) db.nextId = db
  rw [h]

/-- Replaying a bulk whose requests are already settled in the stored
collection does not change the database and creates nothing. -/
theorem bulk_write_settled {db : DB} {coll : String} {reqs : List UpdateOne}
    (hne : reqs ≠ [])
    (hset : ∀ r ∈ reqs, Settled (db.getCollection coll) r)
    (hmem : coll ∈ db.colls.map (fun c => c.1)) :
    bulk_write db coll reqs = (db, .ok ⟨[]⟩) := by
  rw [bulk_write_of_ne_nil hne, bulkApply_of_settled hset]
  simp [setCollection_getCollection_self hmem]

/-- Replaying the same bulk of common-keyed agreeing upserts against
the state it produced (or any store holding that collection) is a
no-op: the database is returned unchanged with nothing created.  No
distinctness of filters is required. -/
theorem bulk_write_replay {K : List String} {db db1 db2 : DB} {coll : String}
    {reqs : List UpdateOne} {res : BulkWriteResult}
    (hKnd : K.Nodup)
    (hK : ∀ x ∈ reqs, x.filter.keys = K)
    (hA : ∀ x ∈ reqs, Agrees x.filter x.set)
    (hIdK : "_id" ∉ K) (hIdS : ∀ x ∈ reqs, "_id" ∉ x.set.keys)
    (hDnd : ∀ d ∈ db.getCollection coll, d.keys.Nodup)
    (hbw : bulk_write db coll reqs = (db1, .ok res))
    (hcoll2 : db2.getCollection coll = db1.getCollection coll)
    (hmem : coll ∈ db2.colls.map (fun c => c.1)) :
    bulk_write db2 coll reqs = (db2, .ok ⟨[]⟩) := by
  obtain ⟨hne, hdb1, hres⟩ := bulk_write_ok_shape hbw
  have hcoll1 : db1.getCollection coll =
      (bulkApply (db.getCollection coll) db.nextId 0 reqs).1 :=
    bulk_write_getCollection_same hbw
  have hAll : ∀ x ∈ reqs, (fmi x.filter
      (bulkApply (db.getCollection coll) db.nextId 0 reqs).1).isSome := by
    intro x hx
    obtain ⟨j, hj, hxj⟩ := List.mem_iff_getElem.mp hx
    obtain ⟨n, hn, hmatch, _⟩ := bulkApply_exists_spec hKnd hK hA hIdK hIdS
      db.nextId 0 j hj
    apply fmi_isSome_of_match (List.getElem_mem hn)
    rw [hxj] at hmatch
    exact hmatch
  have hcontent : ∀ p,
      ∀ hpX : p < (bulkApply (db.getCollection coll) db.nextId 0 reqs).1.length,
      ∀ hpC : p < (bulkApply (db.getCollection coll) db.nextId 0 reqs).1.length,
      (bulkApply (db.getCollection coll) db.nextId 0 reqs).1[p] =
        ((bulkApply (db.getCollection coll) db.nextId 0 reqs).1[p]).setManySeq
          ((reqs.filter (fun x => decide (fmi x.filter
            (bulkApply (db.getCollection coll) db.nextId 0 reqs).1 = some p))).map
            (fun x => x.set)) := by
    intro p hpX hpC
    by_cases hexp : ∃ x ∈ reqs, fmi x.filter
        (bulkApply (db.getCollection coll) db.nextId 0 reqs).1 = some p
    · obtain ⟨x0, hx0, hf0⟩ := hexp
      obtain ⟨hp0, hm0, hpre0⟩ := fmi_spec hf0
      have hfeq : ∀ x ∈ reqs, (decide (fmi x.filter
          (bulkApply (db.getCollection coll) db.nextId 0 reqs).1 = some p)) =
          (decide (x.filter = x0.filter)) := by
        intro x hx
        rw [decide_eq_decide]
        constructor
        · intro hfx
          obtain ⟨hpx, hmx, _⟩ := fmi_spec hfx
          exact filter_eq_of_common_match ((hK x hx).trans (hK x0 hx0).symm)
            ((hK x hx) ▸ hKnd) hmx hm0
        · intro hfx
          rw [hfx]
          exact hf0
      rw [List.filter_congr hfeq]
      obtain ⟨n, hn, hmatchn, hpren, habs⟩ := pass1_absorbed_aux hKnd hK hA hDnd
        db.nextId 0 (hK x0 hx0) ⟨x0, hx0, rfl⟩
      have hfn : fmi x0.filter
          (bulkApply (db.getCollection coll) db.nextId 0 reqs).1 = some n :=
        fmi_of_spec hn hmatchn hpren
      rw [hf0] at hfn
      injection hfn with hfn
      subst hfn
      exact habs.symm
    · push_neg at hexp
      have hnil : reqs.filter (fun x => decide (fmi x.filter
          (bulkApply (db.getCollection coll) db.nextId 0 reqs).1 = some p)) = [] := by
        rw [List.filter_eq_nil_iff]
        intro x hx
        simpa using hexp x hx
      rw [hnil]
      rfl
  have hreplay : bulkApply (db2.getCollection coll) db2.nextId 0 reqs =
      ((bulkApply (db.getCollection coll) db.nextId 0 reqs).1, db2.nextId, []) := by
    rw [hcoll2, hcoll1]
    exact bulkApply_replay_gen hKnd hK hA rfl
      (fun p hpX hpC g hgK => rfl) hAll hcontent db2.nextId 0
  rw [bulk_write_of_ne_nil hne, hreplay]
  have hself : db2.setCollection coll (db2.getCollection coll) = db2 :=
    setCollection_getCollection_self hmem
  rw [← hcoll1, ← hcoll2]
  simp [hself]

/-- The reference resolver reads only the institutions and variables
collections. -/
theorem create_variable_reference_congr {db db2 : DB} (t : String)
    (meta : List (String × String))
    (hi : db2.getCollection db_collection.institutions =
      db.getCollection db_collection.institutions)
    (hv : db2.getCollection db_collection.variables =
      db.getCollection db_collection.variables) :
    create_variable_reference db2 t meta = create_variable_reference db t meta := by
  have h1 : institutionDocsId db2 meta = institutionDocsId db meta := by
    rw [institutionDocsId, institutionDocsId, hi]
  have h2 : variableQuery db2 meta = variableQuery db meta := by
    rw [variableQuery, variableQuery, h1]
  have h3 : variableDocsId db2 meta = variableDocsId db meta := by
    rw [variableDocsId, variableDocsId, hv, h2]
  simp only [create_variable_reference, h2, h3]

/-- The shape of a successfully resolved reference: a single binding
under `variables` or under `variable`. -/
theorem create_variable_reference_shape {db : DB} {t : String}
    {meta : List (String × String)} {ref : Doc}
    (h : create_variable_reference db t meta = .ok ref) :
    (∃ v, ref = [("variables", v)]) ∨ (∃ v, ref = [("variable", v)]) := by
  rw [create_variable_reference] at h
  by_cases hlen : (variableDocsId db meta).length ≠ (institutionNamesOf meta).length
  · rw [if_pos hlen] at h
    cases h
  · rw [if_neg hlen] at h
    by_cases hdt : metaGet meta "data_type" = some db_collection.legal_framework
    · rw [if_pos hdt] at h
      injection h with h
      exact Or.inl ⟨_, h.symm⟩
    · rw [if_neg hdt] at h
      injection h with h
      exact Or.inr ⟨_, h.symm⟩

theorem ref_shape_cases {ref : Doc}
    (hshape : (∃ v, ref = [("variables", v)]) ∨ (∃ v, ref = [("variable", v)])) :
    ∃ rk v, ref = [(rk, v)] ∧ (rk = "variables" ∨ rk = "variable") := by
  rcases hshape with ⟨v, rfl⟩ | ⟨v, rfl⟩
  · exact ⟨"variables", v, rfl, Or.inl rfl⟩
  · exact ⟨"variable", v, rfl, Or.inr rfl⟩

theorem compositeRequests_filter_keys (ref : Doc) (data : List Doc) :
    ∀ x ∈ compositeRequests ref data, x.filter.keys = ref.keys ++ ["index"] := by
  intro x hx
  obtain ⟨d, hd, rfl⟩ := List.mem_map.mp hx
  rw [keys_append]
  rfl

theorem compositeRequests_agrees {ref : Doc} {data : List Doc}
    (hshape : (∃ v, ref = [("variables", v)]) ∨ (∃ v, ref = [("variable", v)]))
    (hrows : ∀ row ∈ data, row.keys.Nodup ∧ "_id" ∉ row.keys ∧
      "variable" ∉ row.keys ∧ "variables" ∉ row.keys) :
    ∀ x ∈ compositeRequests ref data, Agrees x.filter x.set := by
  obtain ⟨rk, v, rfl, hrk⟩ := ref_shape_cases hshape
  intro x hx
  obtain ⟨d, hd, rfl⟩ := List.mem_map.mp hx
  obtain ⟨hnd, hid, hv1, hv2⟩ := hrows d hd
  intro kv hkv hkmem
  rcases List.mem_append.mp hkv with hkv1 | hkv2
  · rcases List.mem_singleton.mp hkv1 with rfl
    rw [get_append_left (by simp [Doc.keys])]
    rw [get_cons, if_pos rfl]
  · have hkd : kv.1 ∈ d.keys := mem_keys_of_mem hkv2
    rw [keys_append] at hkmem
    rcases List.mem_append.mp hkmem with hk1 | hk2
    · rcases List.mem_singleton.mp (by simpa [Doc.keys] using hk1) with hkrk
      rcases hrk with rfl | rfl
      · rw [hkrk] at hkd
        exact absurd hkd hv2
      · rw [hkrk] at hkd
        exact absurd hkd hv1
    · have hki : kv.1 = "index" := by
        simpa [Doc.keys] using hk2
      have hrkne : rk ∉ (Doc.keys [(rk, v)] : List String) → True := fun _ => trivial
      have hne : "index" ∉ (Doc.keys [(rk, v)] : List String) := by
        rcases hrk with rfl | rfl <;> simp [Doc.keys]
      rw [hki]
      rw [get_append_right hne, get_cons, if_pos rfl]
      have := get_eq_of_mem_nodup hnd hkv2
      rw [hki] at this
      exact this.symm

theorem compositeRequests_no_id_filter {ref : Doc}
    (hshape : (∃ v, ref = [("variables", v)]) ∨ (∃ v, ref = [("variable", v)])) :
    "_id" ∉ ref.keys ++ ["index"] := by
  obtain ⟨rk, v, rfl, hrk⟩ := ref_shape_cases hshape
  rcases hrk with rfl | rfl <;> simp [Doc.keys]

theorem compositeRequests_no_id_set {ref : Doc} {data : List Doc}
    (hshape : (∃ v, ref = [("variables", v)]) ∨ (∃ v, ref = [("variable", v)]))
    (hrows : ∀ row ∈ data, row.keys.Nodup ∧ "_id" ∉ row.keys ∧
      "variable" ∉ row.keys ∧ "variables" ∉ row.keys) :
    ∀ x ∈ compositeRequests ref data, "_id" ∉ x.set.keys := by
  obtain ⟨rk, v, rfl, hrk⟩ := ref_shape_cases hshape
  intro x hx
  obtain ⟨d, hd, rfl⟩ := List.mem_map.mp hx
  obtain ⟨hnd, hid, hv1, hv2⟩ := hrows d hd
  rw [keys_append]
  intro hmem
  rcases List.mem_append.mp hmem with h1 | h2
  · rcases hrk with rfl | rfl <;> simp [Doc.keys] at h1
  · exact hid h2

theorem compositeRequests_keys_nodup {ref : Doc}
    (hshape : (∃ v, ref = [("variables", v)]) ∨ (∃ v, ref = [("variable", v)])) :
    (ref.keys ++ ["index"]).Nodup := by
  obtain ⟨rk, v, rfl, hrk⟩ := ref_shape_cases hshape
  rcases hrk with rfl | rfl <;> simp [Doc.keys]

theorem compositeRequests_dist (ref : Doc) {data : List Doc}
    (hIdx : (data.map (fun d => d.get "index")).Nodup) :
    ((compositeRequests ref data).map (fun x => x.filter)).Nodup := by
  have he : (compositeRequests ref data).map (fun x => x.filter) =
      (data.map (fun d => d.get "index")).map
        (fun w => ref ++ [("index", w)]) := by
    rw [compositeRequests, List.map_map, List.map_map]
    rfl
  rw [he]
  apply List.Nodup.map ?_ hIdx
  intro a b hab
  have h := List.append_cancel_left hab
  simpa using h

/-- Replaying `_load_composite_variable` directly after a successful
run is a no-op: the database is unchanged and the reported creation
count of the target collection is zero.  Duplicate `index` values are
allowed. -/
theorem load_composite_variable_idempotent {db db1 : DB} {fsd : FormattedSheetData}
    {out : List (String × Nat)}
    (h1 : load_composite_variable db fsd = (db1, .ok out))
    (hdtI : (metaGet fsd.meta_data "data_type").getD "" ≠ db_collection.institutions)
    (hdtV : (metaGet fsd.meta_data "data_type").getD "" ≠ db_collection.variables)
    (hrows : ∀ row ∈ fsd.formatted_data, row.keys.Nodup ∧ "_id" ∉ row.keys ∧
      "variable" ∉ row.keys ∧ "variables" ∉ row.keys)
    (hWF : ∀ d ∈ db.getCollection ((metaGet fsd.meta_data "data_type").getD ""),
      d.keys.Nodup) :
    load_composite_variable db1 fsd =
      (db1, .ok [((metaGet fsd.meta_data "data_type").getD "", 0)]) := by
  rw [load_composite_variable] at h1
  split at h1
  · rename_i e href
    injection h1 with ha hb
    cases hb
  · rename_i ref href
    split at h1
    · rename_i dbx res hbw
      injection h1 with hdb hout
      subst hdb
      have hinst : dbx.getCollection db_collection.institutions =
          db.getCollection db_collection.institutions :=
        bulk_write_getCollection_other hbw (Ne.symm hdtI)
      have hvars : dbx.getCollection db_collection.variables =
          db.getCollection db_collection.variables :=
        bulk_write_getCollection_other hbw (Ne.symm hdtV)
      have href2 : create_variable_reference dbx fsd.sheet_title fsd.meta_data =
          .ok ref :=
        (create_variable_reference_congr fsd.sheet_title fsd.meta_data hinst
          hvars).trans href
      have hshape := create_variable_reference_shape href
      obtain ⟨hne, hdbx, hres⟩ := bulk_write_ok_shape hbw
      have hmemdt : ((metaGet fsd.meta_data "data_type").getD "") ∈
          dbx.colls.map (fun c => c.1) := by
        rw [hdbx]
        exact setCollAux_mem_name _ _ _
      have hbw2 : bulk_write dbx ((metaGet fsd.meta_data "data_type").getD "")
          (compositeRequests ref fsd.formatted_data) = (dbx, .ok ⟨[]⟩) :=
        bulk_write_replay (compositeRequests_keys_nodup hshape)
          (compositeRequests_filter_keys ref fsd.formatted_data)
          (compositeRequests_agrees hshape hrows)
          (compositeRequests_no_id_filter hshape)
          (compositeRequests_no_id_set hshape hrows)
          hWF hbw rfl hmemdt
      simp only [load_composite_variable, href2, hbw2]
      rfl
    · rename_i dbx e hbw
      injection h1 with ha hb
      cases hb

/-! ## Idempotence of the find-or-create primitive and the aggregate
strategy -/

theorem agrees_self {f : Doc} (hnd : f.keys.Nodup) : Agrees f f :=
  fun kv hkv _ => (get_eq_of_mem_nodup hnd hkv).symm

theorem matches_setMany_self {f : Doc} (hnd : f.keys.Nodup) (d : Doc) :
    matchesDoc f (d.setMany f) = true := by
  rw [matchesDoc_iff]
  intro kv hkv
  rw [get_setMany, lastVal?_of_nodup hnd hkv]
  rfl

theorem find_one_and_update_getCollection_ne (db : DB) {coll other : String}
    (pk : Doc) (hne : coll ≠ other) :
    ((find_one_and_update db coll pk).1).getCollection other =
      db.getCollection other := by
  rcases hu : updateFirst (matchesDoc pk) (fun d => d.setMany pk)
    (db.getCollection coll) with ⟨docsu, od⟩
  cases od with
  | some d =>
      simp only [find_one_and_update, hu]
      exact getCollection_setCollection_ne db _ hne
  | none =>
      simp only [find_one_and_update, hu]
      show (db.setCollection coll (db.getCollection coll ++
        [upsertInsertDoc pk pk db.nextId])).getCollection other = _
      exact getCollection_setCollection_ne db _ hne

theorem find_one_and_update_colls (db : DB) (coll : String) (pk : Doc) :
    ∃ L, ((find_one_and_update db coll pk).1).colls = setCollAux db.colls coll L := by
  rcases hu : updateFirst (matchesDoc pk) (fun d => d.setMany pk)
    (db.getCollection coll) with ⟨docsu, od⟩
  cases od with
  | some d =>
      simp only [find_one_and_update, hu]
      exact ⟨docsu, rfl⟩
  | none =>
      simp only [find_one_and_update, hu]
      exact ⟨db.getCollection coll ++ [upsertInsertDoc pk pk db.nextId], rfl⟩

/-- Replaying `find_one_and_update(pk, {"$set": pk}, upsert)` against
the store it produced (or any store holding that collection) finds the
very document it returned, changes nothing, and returns it again. -/
theorem find_one_and_update_idem {db dbF db2 : DB} {coll : String} {pk : Doc}
    {d1 : Doc}
    (hpkNd : pk.keys.Nodup)
    (hDnd : ∀ d ∈ db.getCollection coll, d.keys.Nodup)
    (hfou : find_one_and_update db coll pk = (dbF, d1))
    (hcoll2 : db2.getCollection coll = dbF.getCollection coll)
    (hmem : coll ∈ db2.colls.map (fun c => c.1)) :
    find_one_and_update db2 coll pk = (db2, d1) := by
  rcases hu : updateFirst (matchesDoc pk) (fun d => d.setMany pk)
    (db.getCollection coll) with ⟨docsu, od⟩
  cases od with
  | some d =>
      simp only [find_one_and_update, hu] at hfou
      injection hfou with hdbF hd1
      obtain ⟨n, hn, hmatch, hd, hset, hpre⟩ := updateFirst_some_spec hu
      have hlenu : docsu.length = (db.getCollection coll).length := by
        rw [hset, List.length_set]
      have hnu : n < docsu.length := by omega
      have hgnu : docsu[n] = d := by
        rw [getElem_congr_list hset hnu (by simp only [List.length_set]; omega), hd]
        exact List.getElem_set_self (by simp only [List.length_set]; omega)
      have hmatchu : matchesDoc pk (docsu[n]) = true := by
        rw [hgnu, hd]
        exact matches_setMany_self hpkNd _
      have hfixu : docsu[n].setMany pk = docsu[n] := by
        rw [hgnu, hd]
        exact setMany_setMany pk (hDnd _ (List.getElem_mem hn))
      have hpreu : ∀ m, ∀ hm : m < docsu.length, m < n →
          ¬ matchesDoc pk (docsu[m]) = true := by
        intro m hm hlt
        have hgm : docsu[m] = (db.getCollection coll)[m] := by
          rw [getElem_congr_list hset hm (by simp only [List.length_set]; omega)]
          exact List.getElem_set_ne (by omega) (by simp only [List.length_set]; omega)
        rw [hgm]
        exact hpre m (by omega) hlt
      have hu2 : updateFirst (matchesDoc pk) (fun d => d.setMany pk) docsu =
          (docsu, some (docsu[n])) :=
        updateFirst_of_first_fix hnu hmatchu hfixu hpreu
      have hc2 : db2.getCollection coll = docsu := by
        rw [hcoll2, ← hdbF]
        exact getCollection_setCollection_same db coll docsu
      have hself : db2.setCollection coll docsu = db2 := by
        rw [← hc2]
        exact setCollection_getCollection_self hmem
      simp only [find_one_and_update, hc2, hu2]
      rw [hself, hgnu, hd1]
  | none =>
      simp only [find_one_and_update, hu] at hfou
      injection hfou with hdbF hd1
      obtain ⟨he, hall⟩ := updateFirst_none_spec hu
      have hc2 : db2.getCollection coll =
          db.getCollection coll ++ [upsertInsertDoc pk pk db.nextId] := by
        rw [hcoll2, ← hdbF]
        show (db.setCollection coll (db.getCollection coll ++
          [upsertInsertDoc pk pk db.nextId])).getCollection coll = _
        exact getCollection_setCollection_same db coll _
      have hlen2 : (db.getCollection coll).length <
          (db.getCollection coll ++ [upsertInsertDoc pk pk db.nextId]).length := by
        simp
      have hgn : (db.getCollection coll ++
          [upsertInsertDoc pk pk db.nextId])[(db.getCollection coll).length] =
          upsertInsertDoc pk pk db.nextId :=
        List.getElem_concat_length _ _ _ rfl _
      have hmatchn : matchesDoc pk ((db.getCollection coll ++
          [upsertInsertDoc pk pk db.nextId])[(db.getCollection coll).length]) = true := by
        rw [hgn]
        exact upsertInsert_matches hpkNd (agrees_self hpkNd) _
      have hfixn : ((db.getCollection coll ++
          [upsertInsertDoc pk pk db.nextId])[(db.getCollection coll).length]).setMany pk =
          (db.getCollection coll ++
            [upsertInsertDoc pk pk db.nextId])[(db.getCollection coll).length] := by
        rw [hgn]
        exact upsertInsert_fix pk pk db.nextId
      have hpren : ∀ m, ∀ hm : m < (db.getCollection coll ++
          [upsertInsertDoc pk pk db.nextId]).length, m < (db.getCollection coll).length →
          ¬ matchesDoc pk ((db.getCollection coll ++
            [upsertInsertDoc pk pk db.nextId])[m]) = true := by
        intro m hm hlt
        rw [List.getElem_append_left hlt]
        exact hall _ (List.getElem_mem hlt)
      have hu2 : updateFirst (matchesDoc pk) (fun d => d.setMany pk)
          (db.getCollection coll ++ [upsertInsertDoc pk pk db.nextId]) =
          (db.getCollection coll ++ [upsertInsertDoc pk pk db.nextId],
           some ((db.getCollection coll ++
             [upsertInsertDoc pk pk db.nextId])[(db.getCollection coll).length])) :=
        updateFirst_of_first_fix hlen2 hmatchn hfixn hpren
      have hself : db2.setCollection coll (db.getCollection coll ++
          [upsertInsertDoc pk pk db.nextId]) = db2 := by
        rw [← hc2]
        exact setCollection_getCollection_self hmem
      simp only [find_one_and_update, hc2, hu2]
      rw [hself, hgn, hd1]

theorem aggregateVariables_nodup (instId : Value) (data : List Doc) :
    ∀ v ∈ aggregateVariables instId data, v.keys.Nodup := by
  intro v hv
  simp only [aggregateVariables] at hv
  obtain ⟨p, hp, rfl⟩ := List.mem_map.mp hv
  simp [Doc.keys]

theorem aggregateVariables_no_id (instId : Value) (data : List Doc) :
    ∀ v ∈ aggregateVariables instId data, "_id" ∉ v.keys := by
  intro v hv
  simp only [aggregateVariables] at hv
  obtain ⟨p, hp, rfl⟩ := List.mem_map.mp hv
  simp [Doc.keys]

theorem aggregateRequests_K (vars : List Doc) :
    ∀ x ∈ aggregateRequests vars, x.filter.keys =
      ["institution", "name", "variable_index", "sigla_answer_index"] := by
  intro x hx
  obtain ⟨v, hv, rfl⟩ := List.mem_map.mp hx
  rfl

theorem aggregateRequests_agrees {vars : List Doc}
    (hnd : ∀ v ∈ vars, v.keys.Nodup) :
    ∀ x ∈ aggregateRequests vars, Agrees x.filter x.set := by
  intro x hx
  obtain ⟨v, hv, rfl⟩ := List.mem_map.mp hx
  intro kv hkv hkmem
  have hv2 : v.get kv.1 = kv.2 := get_eq_of_mem_nodup (hnd v hv) hkv
  have hkmem2 : kv.1 ∈ (["institution", "name", "variable_index",
      "sigla_answer_index"] : List String) := hkmem
  simp only [List.mem_cons, List.not_mem_nil, or_false] at hkmem2
  rcases hkmem2 with h | h | h | h <;>
    · rw [h] at hv2 ⊢
      rw [← hv2]
      rfl

theorem aggregateRequests_no_id_set {vars : List Doc}
    (hid : ∀ v ∈ vars, "_id" ∉ v.keys) :
    ∀ x ∈ aggregateRequests vars, "_id" ∉ x.set.keys := by
  intro x hx
  obtain ⟨v, hv, rfl⟩ := List.mem_map.mp hx
  exact hid v hv

theorem aggInstitutionKeys_nodup (meta : List (String × String)) :
    (aggInstitutionKeys meta).keys.Nodup := by
  simp [aggInstitutionKeys, Doc.keys]


theorem setCollAux_mem_preserve {colls : List (String × List Doc)} {name : String}
    (h : name ∈ colls.map (fun c => c.1)) (name2 : String) (docs : List Doc) :
    name ∈ (setCollAux colls name2 docs).map (fun c => c.1) := by
  induction colls with
  | nil => simp at h
  | cons c rest ih =>
      rw [setCollAux]
      by_cases h2 : c.1 = name2
      · rw [if_pos h2, List.map_cons]
        rw [List.map_cons] at h
        rcases List.mem_cons.mp h with he | hr
        · rw [he, h2]
          exact List.mem_cons_self _ _
        · exact List.mem_cons_of_mem _ hr
      · rw [if_neg h2, List.map_cons]
        rw [List.map_cons] at h
        rcases List.mem_cons.mp h with he | hr
        · rw [he]
          exact List.mem_cons_self _ _
        · exact List.mem_cons_of_mem _ (ih hr)

/-- Replaying `_load_institution_with_aggregate_variable` directly
after a successful run is a no-op: the database is unchanged and the
reported creation count of the variables collection is zero. -/
theorem load_aggregate_idempotent {db db2 : DB} {fsd : FormattedSheetData}
    {out : List (String × Nat)}
    (h1 : load_institution_with_aggregate_variable db fsd = (db2, .ok out))
    (hWFI : ∀ d ∈ db.getCollection db_collection.institutions, d.keys.Nodup)
    (hWFV : ∀ d ∈ db.getCollection db_collection.variables, d.keys.Nodup) :
    load_institution_with_aggregate_variable db2 fsd =
      (db2, .ok [(db_collection.variables, 0)]) := by
  rcases hfou : find_one_and_update db db_collection.institutions
    (aggInstitutionKeys fsd.meta_data) with ⟨dbF, d1⟩
  rw [load_institution_with_aggregate_variable, hfou] at h1
  split at h1
  · rename_i db2x res hbw
    injection h1 with ha hb
    subst ha
    obtain ⟨hne, hdb2x, hres⟩ := bulk_write_ok_shape hbw
    have hI : db2x.getCollection db_collection.institutions =
        dbF.getCollection db_collection.institutions :=
      bulk_write_getCollection_other hbw (by decide)
    have hVF : dbF.getCollection db_collection.variables =
        db.getCollection db_collection.variables := by
      have := @find_one_and_update_getCollection_ne db db_collection.institutions
        db_collection.variables (aggInstitutionKeys fsd.meta_data) (by decide)
      rw [hfou] at this
      exact this
    have hmemI2 : db_collection.institutions ∈ db2x.colls.map (fun c => c.1) := by
      rw [hdb2x]
      apply setCollAux_mem_preserve ?_ _ _
      obtain ⟨L, hL⟩ := find_one_and_update_colls db db_collection.institutions
        (aggInstitutionKeys fsd.meta_data)
      rw [hfou] at hL
      rw [hL]
      exact setCollAux_mem_name _ _ _
    have hmemV2 : db_collection.variables ∈ db2x.colls.map (fun c => c.1) := by
      rw [hdb2x]
      exact setCollAux_mem_name _ _ _
    have hfou2 : find_one_and_update db2x db_collection.institutions
        (aggInstitutionKeys fsd.meta_data) = (db2x, d1) :=
      find_one_and_update_idem (aggInstitutionKeys_nodup fsd.meta_data) hWFI hfou
        hI hmemI2
    have hWFVF : ∀ d ∈ dbF.getCollection db_collection.variables, d.keys.Nodup :=
      fun d hd => hWFV d (hVF ▸ hd)
    have hbw2 : bulk_write db2x db_collection.variables
        (aggregateRequests (aggregateVariables (d1.get "_id") fsd.formatted_data)) =
        (db2x, .ok ⟨[]⟩) :=
      bulk_write_replay (by decide) (aggregateRequests_K _)
        (aggregateRequests_agrees (aggregateVariables_nodup _ _))
        (by decide) (aggregateRequests_no_id_set (aggregateVariables_no_id _ _))
        hWFVF hbw rfl hmemV2
    rw [load_institution_with_aggregate_variable, hfou2]
    simp only [hbw2]
    rfl
  · rename_i db2x e hbw
    injection h1 with ha hb
    cases hb

/-! ## Resolver stability across the aggregate strategy (for the
combined format) -/

theorem matchesQuery_congr_of_gets {q : Query} {d1 d2 : Doc}
    (h : ∀ k, d1.get k = d2.get k) : matchesQuery q d1 = matchesQuery q d2 := by
  rw [matchesQuery, matchesQuery]
  congr 1
  funext kc
  rcases kc with ⟨k, c⟩
  cases c with
  | qEq v => simp [h k]
  | qIn vs => simp [h k]

theorem gets_setMany_of_matches {f d : Doc} (hm : matchesDoc f d = true) :
    ∀ k, (d.setMany f).get k = d.get k := by
  intro k
  rw [get_setMany]
  rcases hl : lastVal? f k with _ | v
  · rfl
  · have hv : (k, v) ∈ f := lastVal?_mem hl
    have hd : d.get k = v := matchesDoc_iff.mp hm (k, v) hv
    simp [hd]

theorem findDocs_map_id_congr {q : Query} : ∀ {l1 l2 : List Doc},
    l1.length = l2.length →
    (∀ p, ∀ hp1 : p < l1.length, ∀ hp2 : p < l2.length, ∀ k,
      (l1[p]).get k = (l2[p]).get k) →
    (findDocs l1 q).map (fun d => d.get "_id") =
      (findDocs l2 q).map (fun d => d.get "_id") := by
  intro l1
  induction l1 with
  | nil =>
      intro l2 hlen h
      cases l2 with
      | nil => rfl
      | cons d2 t2 => simp at hlen
  | cons d1 t1 ih =>
      intro l2 hlen h
      cases l2 with
      | nil => simp at hlen
      | cons d2 t2 =>
          have h0 : ∀ k, d1.get k = d2.get k := fun k => h 0 (by simp) (by simp) k
          have hq : matchesQuery q d1 = matchesQuery q d2 :=
            matchesQuery_congr_of_gets h0
          have htail := @ih t2 (by simpa using hlen) (fun p hp1 hp2 k => by
            have := h (p + 1) (by simp; omega) (by simp; omega) k
            simpa using this)
          rw [findDocs, findDocs, List.filter_cons, List.filter_cons, hq]
          by_cases hm : matchesQuery q d2 = true
          · rw [if_pos hm, if_pos hm, List.map_cons, List.map_cons, h0 "_id"]
            rw [findDocs, findDocs] at htail
            rw [htail]
          · rw [if_neg hm, if_neg hm]
            rw [findDocs, findDocs] at htail
            exact htail

theorem institutionDocsId_congr {dbA dbB : DB} (meta : List (String × String))
    (h : dbA.getCollection db_collection.institutions =
      dbB.getCollection db_collection.institutions) :
    institutionDocsId dbA meta = institutionDocsId dbB meta := by
  rw [institutionDocsId, institutionDocsId, h]

/-- The find-or-create of the aggregate institution does not disturb
the composite resolver's institution lookup, provided the aggregate
institution's name is none of the looked-up names. -/
theorem institutionDocsId_fou_stable {db : DB} {meta : List (String × String)}
    (H1 : metaValue meta "variable_heading" ∉ (institutionNamesOf meta).map vStr) :
    institutionDocsId ((find_one_and_update db db_collection.institutions
      (aggInstitutionKeys meta)).1) meta = institutionDocsId db meta := by
  rcases hu : updateFirst (matchesDoc (aggInstitutionKeys meta))
    (fun d => d.setMany (aggInstitutionKeys meta))
    (db.getCollection db_collection.institutions) with ⟨docsu, od⟩
  cases od with
  | some d =>
      obtain ⟨n, hn, hmatch, hd, hset, hpre⟩ := updateFirst_some_spec hu
      simp only [find_one_and_update, hu]
      rw [institutionDocsId, institutionDocsId,
        getCollection_setCollection_same]
      apply findDocs_map_id_congr
      · rw [hset, List.length_set]
      · intro p hp1 hp2 k
        have hp1' : p < ((db.getCollection db_collection.institutions).set n d).length := by
          rw [← hset]
          exact hp1
        rw [getElem_congr_list hset hp1 hp1']
        by_cases hpn : p = n
        · subst hpn
          have hg : ((db.getCollection db_collection.institutions).set p d)[p] = d :=
            List.getElem_set_self hp1'
          rw [hg, hd]
          exact gets_setMany_of_matches hmatch k
        · have hg : ((db.getCollection db_collection.institutions).set n d)[p] =
              (db.getCollection db_collection.institutions)[p] :=
            List.getElem_set_ne (fun he => hpn he.symm)
              (by simp only [List.length_set] at hp1'; simp only [List.length_set]; omega)
          rw [hg]
  | none =>
      obtain ⟨he, hall⟩ := updateFirst_none_spec hu
      simp only [find_one_and_update, hu]
      have hcoll : (DB.mk (db.setCollection db_collection.institutions
          (db.getCollection db_collection.institutions ++
            [upsertInsertDoc (aggInstitutionKeys meta) (aggInstitutionKeys meta)
              db.nextId])).colls (db.nextId + 1)).getCollection
          db_collection.institutions =
          db.getCollection db_collection.institutions ++
            [upsertInsertDoc (aggInstitutionKeys meta) (aggInstitutionKeys meta)
              db.nextId] := by
        show (db.setCollection db_collection.institutions _).getCollection
          db_collection.institutions = _
        exact getCollection_setCollection_same db _ _
      rw [institutionDocsId, institutionDocsId, hcoll]
      have hname : (upsertInsertDoc (aggInstitutionKeys meta)
          (aggInstitutionKeys meta) db.nextId).get "name" =
          metaValue meta "variable_heading" := by
        have hm := upsertInsert_matches (aggInstitutionKeys_nodup meta)
          (agrees_self (aggInstitutionKeys_nodup meta)) db.nextId
        exact matchesDoc_iff.mp hm ("name", metaValue meta "variable_heading")
          (List.mem_cons_self _ _)
      have hdead : matchesQuery (institutionQuery meta)
          (upsertInsertDoc (aggInstitutionKeys meta) (aggInstitutionKeys meta)
            db.nextId) = false := by
        rw [matchesQuery]
        rw [List.all_eq_false]
        refine ⟨("name", QCond.qIn ((institutionNamesOf meta).map vStr)),
          List.mem_cons_self _ _, ?_⟩
        simp only [hname]
        simpa using H1
      rw [findDocs, List.filter_append]
      have hnil : List.filter (matchesQuery (institutionQuery meta))
          [upsertInsertDoc (aggInstitutionKeys meta) (aggInstitutionKeys meta)
            db.nextId] = [] := by
        simp [hdead]
      rw [hnil, List.append_nil]
      rfl

theorem matchesQuery_false_of_qEq {q : Query} {k : String} {w : Value} {d : Doc}
    (hq : (k, QCond.qEq w) ∈ q) (hne : ¬ d.get k = w) :
    matchesQuery q d = false := by
  rw [matchesQuery, List.all_eq_false]
  refine ⟨(k, QCond.qEq w), hq, ?_⟩
  simpa using hne

theorem filter_set_congr {α : Type} {p : α → Bool} : ∀ {l : List α} {m : Nat}
    {d : α}, ∀ hm : m < l.length, p d = false → p (l[m]) = false →
    (l.set m d).filter p = l.filter p := by
  intro l
  induction l with
  | nil =>
      intro m d hm
      simp at hm
  | cons a t ih =>
      intro m d hm hd ha
      cases m with
      | zero =>
          simp only [List.getElem_cons_zero] at ha
          rw [List.set_cons_zero, List.filter_cons, List.filter_cons, hd, ha]
          simp
      | succ m0 =>
          simp only [List.getElem_cons_succ] at ha
          rw [List.set_cons_succ, List.filter_cons, List.filter_cons,
            ih (by simpa using hm) hd ha]

/-- A bulk whose requests only ever touch documents dead to the query
`q` (before and after the update, and at creation) leaves the query's
result list unchanged. -/
theorem findDocs_bulk_dead {q : Query} : ∀ {reqs : List UpdateOne}
    {docs : List Doc},
    (∀ r ∈ reqs,
      (∀ d, matchesDoc r.filter d = true → matchesQuery q d = false ∧
        matchesQuery q (d.setMany r.set) = false) ∧
      (∀ id, matchesQuery q (upsertInsertDoc r.filter r.set id) = false)) →
    ∀ (nid i : Nat),
    findDocs (bulkApply docs nid i reqs).1 q = findDocs docs q := by
  intro reqs
  induction reqs with
  | nil =>
      intro docs hdead nid i
      rfl
  | cons r rest ih =>
      intro docs hdead nid i
      have hrdead := hdead r (List.mem_cons_self _ _)
      have hrest : ∀ r2 ∈ rest,
          (∀ d, matchesDoc r2.filter d = true → matchesQuery q d = false ∧
            matchesQuery q (d.setMany r2.set) = false) ∧
          (∀ id, matchesQuery q (upsertInsertDoc r2.filter r2.set id) = false) :=
        fun r2 hr2 => hdead r2 (List.mem_cons_of_mem _ hr2)
      rcases hu : updateFirst (matchesDoc r.filter) (fun d => d.setMany r.set) docs with
        ⟨docsu, od⟩
      cases od with
      | some d =>
          obtain ⟨m, hm, hmatch, hd, hset, hpre⟩ := updateFirst_some_spec hu
          have hfst : (bulkApply docs nid i (r :: rest)).1 =
              (bulkApply docsu nid (i + 1) rest).1 := by
            rw [bulkApply_cons, applyUpdateOne_matched hu]
          rw [hfst, ih hrest nid (i + 1)]
          rw [hset]
          show findDocs _ q = findDocs docs q
          rw [findDocs, findDocs, hd]
          have hdd := hrdead.1 (docs[m]) hmatch
          exact filter_set_congr hm hdd.2 hdd.1
      | none =>
          have hfst : (bulkApply docs nid i (r :: rest)).1 =
              (bulkApply (docs ++ [upsertInsertDoc r.filter r.set nid]) (nid + 1)
                (i + 1) rest).1 := by
            rw [bulkApply_cons, applyUpdateOne_created hu]
          rw [hfst, ih hrest (nid + 1) (i + 1)]
          rw [findDocs, findDocs, List.filter_append]
          have hnil : List.filter (matchesQuery q)
              [upsertInsertDoc r.filter r.set nid] = [] := by
            simp [hrdead.2 nid]
          rw [hnil, List.append_nil]

theorem aggregateVariables_name (instId : Value) (data : List Doc) :
    ∀ v ∈ aggregateVariables instId data, ∃ h, h ∈ data.map headingOf ∧
      v.get "name" = vStr h ∧ lastVal? v "name" = some (vStr h) := by
  intro v hv
  simp only [aggregateVariables] at hv
  obtain ⟨p, hp, rfl⟩ := List.mem_map.mp hv
  refine ⟨p.2, ?_, rfl, rfl⟩
  have hmem : p.2 ∈ sortStrings (groupFold data).2 := List.snd_mem_of_mem_enum hp
  have hmem2 : p.2 ∈ (groupFold data).2 :=
    (List.Perm.mem_iff (sortStrings_perm _)).mp hmem
  exact (groupFold_headings_mem data p.2).mp hmem2

/-- Every aggregate request is dead to any query demanding a `name`
that is none of the sheet's headings: it can only match, rewrite, or
create documents whose `name` is one of the headings. -/
theorem aggregateRequests_query_dead {instId : Value} {data : List Doc} {q : Query}
    {w : Value} (hq : ("name", QCond.qEq w) ∈ q)
    (H2 : ∀ datum ∈ data, vStr (headingOf datum) ≠ w) :
    ∀ r ∈ aggregateRequests (aggregateVariables instId data),
      (∀ d, matchesDoc r.filter d = true → matchesQuery q d = false ∧
        matchesQuery q (d.setMany r.set) = false) ∧
      (∀ id, matchesQuery q (upsertInsertDoc r.filter r.set id) = false) := by
  intro r hr
  obtain ⟨v, hv, rfl⟩ := List.mem_map.mp hr
  obtain ⟨h, hhm, hvn, hvl⟩ := aggregateVariables_name instId data v hv
  obtain ⟨datum, hdatum, hdh⟩ := List.mem_map.mp hhm
  have hhw : vStr h ≠ w := by
    rw [← hdh]
    exact H2 datum hdatum
  constructor
  · intro d hmatch
    have hdn : d.get "name" = vStr h := by
      have := matchesDoc_iff.mp hmatch ("name", v.get "name")
        (by simp)
      rw [this, hvn]
    constructor
    · exact matchesQuery_false_of_qEq hq (by rw [hdn]; exact hhw)
    · have hsn : (d.setMany v).get "name" = vStr h := by
        rw [get_setMany, hvl]
        rfl
      exact matchesQuery_false_of_qEq hq (by rw [hsn]; exact hhw)
  · intro id
    have hun : (upsertInsertDoc ([("institution", v.get "institution"),
        ("name", v.get "name"), ("variable_index", v.get "variable_index"),
        ("sigla_answer_index", v.get "sigla_answer_index")] : Doc) v id).get "name" =
        vStr h := by
      rw [upsertInsertDoc, get_setMany, hvl]
      rfl
    exact matchesQuery_false_of_qEq hq (by rw [hun]; exact hhw)

theorem create_variable_reference_congr_ids {dbA dbB : DB} (t : String)
    (meta : List (String × String))
    (hI : institutionDocsId dbA meta = institutionDocsId dbB meta)
    (hV : variableDocsId dbA meta = variableDocsId dbB meta) :
    create_variable_reference dbA t meta = create_variable_reference dbB t meta := by
  have hq : variableQuery dbA meta = variableQuery dbB meta := by
    rw [variableQuery, variableQuery, hI]
  simp only [create_variable_reference, hV, hq]

theorem getUpserted_empty (i : Nat) :
    BulkWriteResult.getUpserted ⟨[]⟩ i = none := rfl

theorem variableRequests_congr {a b : Nat → Value} {rows : List Doc}
    (h : ∀ i, i < rows.length → a i = b i) :
    variableRequests a rows = variableRequests b rows := by
  rw [variableRequests, variableRequests]
  congr 1
  apply List.map_congr_left
  intro p hp
  rw [h p.1 (List.fst_lt_of_mem_enum hp)]

theorem childGet_eq_of_mem_nodup {c : ChildDoc} {k : String} {v : SValue}
    (hnd : (c.map (fun kv => kv.1)).Nodup) (hm : (k, v) ∈ c) :
    childGet c k = Value.sc v := by
  induction c with
  | nil => simp at hm
  | cons kv rest ih =>
      rw [childGet]
      rcases List.mem_cons.mp hm with he | hr
      · rw [← he]
        rw [List.find?_cons_of_pos _ (by simp)]
      · rw [List.map_cons] at hnd
        have hk : kv.1 ≠ k := by
          intro he2
          exact (List.nodup_cons.mp hnd).1
            (he2 ▸ List.mem_map.mpr ⟨(k, v), hr, he2 ▸ rfl⟩)
        rw [List.find?_cons_of_neg _ (by simp [hk])]
        have := ih (List.nodup_cons.mp hnd).2 hr
        rw [childGet] at this
        exact this

theorem childFilter_keys (instId : Value) (c : ChildDoc) :
    (childFilter instId c).keys =
      ["institution", "heading", "name", "variable_index", "sigla_answer_index"] := rfl

theorem childSetPayload_keys (instId : Value) (c : ChildDoc) :
    (childSetPayload instId c).keys = "institution" :: c.map (fun kv => kv.1) := by
  rw [childSetPayload, Doc.keys, List.map_cons, List.map_map]
  rfl

theorem childFilter_get_heading (instId : Value) (c : ChildDoc) :
    (childFilter instId c).get "heading" = childGet c "heading" := rfl

theorem childFilter_get_name (instId : Value) (c : ChildDoc) :
    (childFilter instId c).get "name" = childGet c "name" := rfl

theorem childFilter_get_vi (instId : Value) (c : ChildDoc) :
    (childFilter instId c).get "variable_index" = childGet c "variable_index" := rfl

theorem childFilter_get_sai (instId : Value) (c : ChildDoc) :
    (childFilter instId c).get "sigla_answer_index" = childGet c "sigla_answer_index" := rfl

theorem variableRequests_shape {ids : Nat → Value} {rows : List Doc} :
    ∀ x ∈ variableRequests ids rows, ∃ i c, i < rows.length ∧
      (∃ hi : i < rows.length, c ∈ childsOf (rows[i])) ∧
      x = UpdateOne.mk (childFilter (ids i) c) (childSetPayload (ids i) c) := by
  intro x hx
  rw [variableRequests, List.mem_flatten] at hx
  obtain ⟨L, hL, hxL⟩ := hx
  obtain ⟨p, hp, rfl⟩ := List.mem_map.mp hL
  obtain ⟨c, hc, rfl⟩ := List.mem_map.mp hxL
  have hlt : p.1 < rows.length := List.fst_lt_of_mem_enum hp
  refine ⟨p.1, c, hlt, ⟨hlt, ?_⟩, rfl⟩
  have hpe : p.2 = rows[p.1] := by
    obtain ⟨i, x0⟩ := p
    have := List.mem_enum_iff_getElem?.mp hp
    simp only at this ⊢
    rw [List.getElem?_eq_getElem hlt] at this
    injection this with h
    exact h.symm
  rw [← hpe]
  exact hc

theorem variable_agrees (instId : Value) {c : ChildDoc}
    (hnd : (c.map (fun kv => kv.1)).Nodup)
    (hinst : "institution" ∉ c.map (fun kv => kv.1)) :
    Agrees (childFilter instId c) (childSetPayload instId c) := by
  intro kv hkv hkmem
  rw [childSetPayload] at hkv
  rcases List.mem_cons.mp hkv with he | hr
  · rw [he]
    exact (childFilter_get_institution instId c).symm
  · obtain ⟨kv0, hkv0, rfl⟩ := List.mem_map.mp hr
    show Value.sc kv0.2 = (childFilter instId c).get kv0.1
    rw [childFilter_keys] at hkmem
    have hg : childGet c kv0.1 = Value.sc kv0.2 := childGet_eq_of_mem_nodup hnd hkv0
    simp only [List.mem_cons, List.not_mem_nil, or_false] at hkmem
    rcases hkmem with h | h | h | h | h
    · exact absurd (List.mem_map.mpr ⟨kv0, hkv0, h⟩) hinst
    · rw [h] at hg ⊢
      rw [childFilter_get_heading]
      exact hg.symm
    · rw [h] at hg ⊢
      rw [childFilter_get_name]
      exact hg.symm
    · rw [h] at hg ⊢
      rw [childFilter_get_vi]
      exact hg.symm
    · rw [h] at hg ⊢
      rw [childFilter_get_sai]
      exact hg.symm

theorem variableRequests_K (ids : Nat → Value) (rows : List Doc) :
    ∀ x ∈ variableRequests ids rows, x.filter.keys =
      ["institution", "heading", "name", "variable_index", "sigla_answer_index"] := by
  intro x hx
  obtain ⟨i, c, hi, _, rfl⟩ := variableRequests_shape x hx
  exact childFilter_keys _ _

theorem variableRequests_agrees (ids : Nat → Value) {rows : List Doc}
    (hchilds : ∀ row ∈ rows, ∀ c ∈ childsOf row,
      (c.map (fun kv => kv.1)).Nodup ∧ "_id" ∉ c.map (fun kv => kv.1) ∧
      "institution" ∉ c.map (fun kv => kv.1)) :
    ∀ x ∈ variableRequests ids rows, Agrees x.filter x.set := by
  intro x hx
  obtain ⟨i, c, hi, ⟨hi2, hc⟩, rfl⟩ := variableRequests_shape x hx
  obtain ⟨hnd, _, hin⟩ := hchilds _ (List.getElem_mem hi2) c hc
  exact variable_agrees _ hnd hin

theorem variableRequests_no_id_set (ids : Nat → Value) {rows : List Doc}
    (hchilds : ∀ row ∈ rows, ∀ c ∈ childsOf row,
      (c.map (fun kv => kv.1)).Nodup ∧ "_id" ∉ c.map (fun kv => kv.1) ∧
      "institution" ∉ c.map (fun kv => kv.1)) :
    ∀ x ∈ variableRequests ids rows, "_id" ∉ x.set.keys := by
  intro x hx
  obtain ⟨i, c, hi, ⟨hi2, hc⟩, rfl⟩ := variableRequests_shape x hx
  obtain ⟨_, hid, _⟩ := hchilds _ (List.getElem_mem hi2) c hc
  rw [childSetPayload_keys]
  intro hmem
  rcases List.mem_cons.mp hmem with he | hr
  · exact absurd he (by decide)
  · exact hid hr

theorem institutionRequests_K (pks : List String) (rows : List Doc) :
    ∀ x ∈ institutionRequests pks rows, x.filter.keys = pks := by
  intro x hx
  obtain ⟨row, hrow, rfl⟩ := List.mem_map.mp hx
  exact pkFilter_keys _ _

theorem institutionRequests_agrees {pks : List String} {rows : List Doc}
    (h : ∀ row ∈ rows, row.keys.Nodup) :
    ∀ x ∈ institutionRequests pks rows, Agrees x.filter x.set := by
  intro x hx
  obtain ⟨row, hrow, rfl⟩ := List.mem_map.mp hx
  exact institution_agrees (h row hrow)

theorem institutionRequests_no_id {pks : List String} {rows : List Doc}
    (h : ∀ row ∈ rows, "_id" ∉ row.keys) :
    ∀ x ∈ institutionRequests pks rows, "_id" ∉ x.set.keys := by
  intro x hx
  obtain ⟨row, hrow, rfl⟩ := List.mem_map.mp hx
  intro hm
  exact h row hrow (institutionSetPayload_keys_sub hm)

/-- Replaying `_load_institutions` directly after a successful run is a
no-op: the database is unchanged and both reported creation counts are
zero.  Duplicate natural keys among records and duplicate child
natural keys are allowed. -/
theorem load_institutions_idempotent {db db2 : DB} {fsd : FormattedSheetData}
    {out : List (String × Nat)}
    (h1 : load_institutions db fsd = (db2, .ok out))
    (hrows : ∀ row ∈ fsd.formatted_data, row.keys.Nodup ∧ "_id" ∉ row.keys)
    (hchilds : ∀ row ∈ fsd.formatted_data, ∀ c ∈ childsOf row,
      (c.map (fun kv => kv.1)).Nodup ∧ "_id" ∉ c.map (fun kv => kv.1) ∧
      "institution" ∉ c.map (fun kv => kv.1))
    (hWFI : ∀ d ∈ db.getCollection db_collection.institutions, d.keys.Nodup)
    (hWFV : ∀ d ∈ db.getCollection db_collection.variables, d.keys.Nodup) :
    load_institutions db2 fsd =
      (db2, .ok [(db_collection.institutions, 0), (db_collection.variables, 0)]) := by
  rw [load_institutions] at h1
  split at h1
  · rename_i db1 e hbw1
    injection h1 with ha hb
    cases hb
  · rename_i db1 res hbw1
    split at h1
    · rename_i db2x e hbw2
      injection h1 with ha hb
      cases hb
    · rename_i db2x vres hbw2
      injection h1 with ha hb
      subst ha
      obtain ⟨hne1, hdb1, hres1⟩ := bulk_write_ok_shape hbw1
      obtain ⟨hne2, hdb2, hres2⟩ := bulk_write_ok_shape hbw2
      have hI21 : db2x.getCollection db_collection.institutions =
          db1.getCollection db_collection.institutions :=
        bulk_write_getCollection_other hbw2 (by decide)
      have hV10 : db1.getCollection db_collection.variables =
          db.getCollection db_collection.variables :=
        bulk_write_getCollection_other hbw1 (by decide)
      have hcollI : db1.getCollection db_collection.institutions =
          (bulkApply (db.getCollection db_collection.institutions) db.nextId 0
            (institutionRequests (institutionPrimaryKeys fsd.meta_data)
              fsd.formatted_data)).1 :=
        bulk_write_getCollection_same hbw1
      have hrowsN : ∀ row ∈ fsd.formatted_data, row.keys.Nodup :=
        fun row hrow => (hrows row hrow).1
      have hrowsI : ∀ row ∈ fsd.formatted_data, "_id" ∉ row.keys :=
        fun row hrow => (hrows row hrow).2
      have hmemI : db_collection.institutions ∈ db2x.colls.map (fun c => c.1) := by
        rw [hdb2]
        apply setCollAux_mem_preserve ?_ _ _
        rw [hdb1]
        exact setCollAux_mem_name _ _ _
      have hstep1 : bulk_write db2x db_collection.institutions
          (institutionRequests (institutionPrimaryKeys fsd.meta_data)
            fsd.formatted_data) = (db2x, .ok ⟨[]⟩) :=
        bulk_write_replay (institutionPrimaryKeys_nodup fsd.meta_data)
          (institutionRequests_K _ _) (institutionRequests_agrees hrowsN)
          (institutionPrimaryKeys_no_id fsd.meta_data)
          (institutionRequests_no_id hrowsI)
          hWFI hbw1 hI21 hmemI
      have hfo : ∀ f, find_one db2x db_collection.institutions f =
          find_one db1 db_collection.institutions f := by
        intro f
        rw [find_one, find_one, hI21]
      have hids : ∀ i, i < fsd.formatted_data.length →
          institutionDocId db2x (institutionPrimaryKeys fsd.meta_data)
            (⟨[]⟩ : BulkWriteResult) fsd.formatted_data i =
          institutionDocId db1 (institutionPrimaryKeys fsd.meta_data) res
            fsd.formatted_data i := by
        intro i hi
        have hL : institutionDocId db2x (institutionPrimaryKeys fsd.meta_data)
            (⟨[]⟩ : BulkWriteResult) fsd.formatted_data i =
            docGetId (find_one db2x db_collection.institutions
              (pkFilter (institutionPrimaryKeys fsd.meta_data)
                (fsd.formatted_data.getD i []))) := rfl
        cases hupd : res.getUpserted i with
        | some id =>
            have hR : institutionDocId db1 (institutionPrimaryKeys fsd.meta_data) res
                fsd.formatted_data i = vOid id := by
              rw [institutionDocId, hupd]
            rw [hL, hR, hfo]
            have hreqlen : i < (institutionRequests
                (institutionPrimaryKeys fsd.meta_data) fsd.formatted_data).length := by
              rw [institutionRequests_length]
              exact hi
            have hupd2 : BulkWriteResult.getUpserted
                ⟨(bulkApply (db.getCollection db_collection.institutions) db.nextId 0
                  (institutionRequests (institutionPrimaryKeys fsd.meta_data)
                    fsd.formatted_data)).2.2⟩ (0 + i) = some id := by
              rw [Nat.zero_add, ← hres1]
              exact hupd
            obtain ⟨n, hn, hmatchn, hpren, hidv⟩ := pass1_created_id
              (institutionPrimaryKeys_nodup fsd.meta_data)
              (institutionRequests_K _ _) (institutionRequests_agrees hrowsN)
              (institutionPrimaryKeys_no_id fsd.meta_data)
              (institutionRequests_no_id hrowsI)
              db.nextId 0 i hreqlen id hupd2
            rw [institutionRequests_getElem _ _ hi
              (by rw [institutionRequests_length]; exact hi)] at hmatchn hpren
            have hgd : fsd.formatted_data.getD i [] = fsd.formatted_data[i] :=
              List.getD_eq_getElem _ _ hi
            have hfind : find_one db1 db_collection.institutions
                (pkFilter (institutionPrimaryKeys fsd.meta_data)
                  (fsd.formatted_data.getD i [])) =
                some ((bulkApply (db.getCollection db_collection.institutions)
                  db.nextId 0 (institutionRequests
                    (institutionPrimaryKeys fsd.meta_data) fsd.formatted_data)).1[n]) := by
              rw [find_one, hcollI, hgd]
              exact find?_eq_of_first hn hmatchn hpren
            rw [hfind]
            exact hidv
        | none =>
            have hR : institutionDocId db1 (institutionPrimaryKeys fsd.meta_data) res
                fsd.formatted_data i =
                docGetId (find_one db1 db_collection.institutions
                  (pkFilter (institutionPrimaryKeys fsd.meta_data)
                    (fsd.formatted_data.getD i []))) := by
              rw [institutionDocId, hupd]
            rw [hL, hR, hfo]
      have hreqeq : variableRequests (institutionDocId db2x
            (institutionPrimaryKeys fsd.meta_data) (⟨[]⟩ : BulkWriteResult)
            fsd.formatted_data) fsd.formatted_data =
          variableRequests (institutionDocId db1
            (institutionPrimaryKeys fsd.meta_data) res fsd.formatted_data)
            fsd.formatted_data :=
        variableRequests_congr hids
      have hWFV1 : ∀ d ∈ db1.getCollection db_collection.variables, d.keys.Nodup :=
        fun d hd => hWFV d (hV10 ▸ hd)
      have hmemV : db_collection.variables ∈ db2x.colls.map (fun c => c.1) := by
        rw [hdb2]
        exact setCollAux_mem_name _ _ _
      have hstep2 : bulk_write db2x db_collection.variables
          (variableRequests (institutionDocId db1
            (institutionPrimaryKeys fsd.meta_data) res fsd.formatted_data)
            fsd.formatted_data) = (db2x, .ok ⟨[]⟩) :=
        @bulk_write_replay
          ["institution", "heading", "name", "variable_index", "sigla_answer_index"]
          db1 db2x db2x db_collection.variables
          (variableRequests (institutionDocId db1
            (institutionPrimaryKeys fsd.meta_data) res fsd.formatted_data)
            fsd.formatted_data) vres
          (by decide) (variableRequests_K _ _) (variableRequests_agrees _ hchilds)
          (by decide) (variableRequests_no_id_set _ hchilds)
          hWFV1 hbw2 rfl hmemV
      simp only [load_institutions, hstep1, hreqeq, hstep2]
      rfl

/-- Replaying `_load_institution_and_composite_variable` directly after
a successful run is a no-op: the database is unchanged and both
reported creation counts are zero.  Requires that the aggregate
institution's name (`variable_heading`) is none of the composite
resolver's institution names and that no sheet heading equals the
composite variable's name, so the aggregate writes cannot disturb the
resolver's lookups. -/
theorem load_combined_idempotent {db db2 : DB} {fsd : FormattedSheetData}
    {out : List (String × Nat)}
    (h1 : load_institution_and_composite_variable db fsd = (db2, .ok out))
    (hdtI : (metaGet fsd.meta_data "data_type").getD "" ≠ db_collection.institutions)
    (hdtV : (metaGet fsd.meta_data "data_type").getD "" ≠ db_collection.variables)
    (hrows : ∀ row ∈ fsd.formatted_data, row.keys.Nodup ∧ "_id" ∉ row.keys ∧
      "variable" ∉ row.keys ∧ "variables" ∉ row.keys)
    (hWFdt : ∀ d ∈ db.getCollection ((metaGet fsd.meta_data "data_type").getD ""),
      d.keys.Nodup)
    (hWFI : ∀ d ∈ db.getCollection db_collection.institutions, d.keys.Nodup)
    (hWFV : ∀ d ∈ db.getCollection db_collection.variables, d.keys.Nodup)
    (H1 : metaValue fsd.meta_data "variable_heading" ∉
      (institutionNamesOf fsd.meta_data).map vStr)
    (H2 : ∀ datum ∈ fsd.formatted_data, vStr (headingOf datum) ≠
      metaValue fsd.meta_data "variable_name") :
    load_institution_and_composite_variable db2 fsd =
      (db2, .ok [((metaGet fsd.meta_data "data_type").getD "", 0),
        (db_collection.variables, 0)]) := by
  rw [load_institution_and_composite_variable] at h1
  split at h1
  · rename_i db1 s1 h1a
    split at h1
    · rename_i db2x s2 h1b
      injection h1 with ha hb
      subst ha
      rw [load_composite_variable] at h1a
      split at h1a
      · rename_i e href
        injection h1a with hx hy
        cases hy
      · rename_i ref href
        split at h1a
        · rename_i db1x resC hbwC
          injection h1a with hdb1 hs1
          subst hdb1
          rcases hfou : find_one_and_update db1x db_collection.institutions
            (aggInstitutionKeys fsd.meta_data) with ⟨dbF, d1⟩
          rw [load_institution_with_aggregate_variable, hfou] at h1b
          split at h1b
          · rename_i db2y resA hbwA
            injection h1b with ha2 hb2
            subst ha2
            obtain ⟨hneC, hdbC, hresC⟩ := bulk_write_ok_shape hbwC
            obtain ⟨hneA, hdbA, hresA⟩ := bulk_write_ok_shape hbwA
            have hC_I : db1x.getCollection db_collection.institutions =
                db.getCollection db_collection.institutions :=
              bulk_write_getCollection_other hbwC (Ne.symm hdtI)
            have hC_V : db1x.getCollection db_collection.variables =
                db.getCollection db_collection.variables :=
              bulk_write_getCollection_other hbwC (Ne.symm hdtV)
            have hF_V : dbF.getCollection db_collection.variables =
                db1x.getCollection db_collection.variables := by
              have := @find_one_and_update_getCollection_ne db1x
                db_collection.institutions db_collection.variables
                (aggInstitutionKeys fsd.meta_data) (by decide)
              rw [hfou] at this
              exact this
            have hF_dt : dbF.getCollection
                ((metaGet fsd.meta_data "data_type").getD "") =
                db1x.getCollection ((metaGet fsd.meta_data "data_type").getD "") := by
              have := @find_one_and_update_getCollection_ne db1x
                db_collection.institutions
                ((metaGet fsd.meta_data "data_type").getD "")
                (aggInstitutionKeys fsd.meta_data) (Ne.symm hdtI)
              rw [hfou] at this
              exact this
            have hA_I : db2y.getCollection db_collection.institutions =
                dbF.getCollection db_collection.institutions :=
              bulk_write_getCollection_other hbwA (by decide)
            have hA_dt : db2y.getCollection
                ((metaGet fsd.meta_data "data_type").getD "") =
                dbF.getCollection ((metaGet fsd.meta_data "data_type").getD "") :=
              bulk_write_getCollection_other hbwA hdtV
            have hdt21 : db2y.getCollection
                ((metaGet fsd.meta_data "data_type").getD "") =
                db1x.getCollection ((metaGet fsd.meta_data "data_type").getD "") :=
              hA_dt.trans hF_dt
            have hV2 : db2y.getCollection db_collection.variables =
                (bulkApply (dbF.getCollection db_collection.variables) dbF.nextId 0
                  (aggregateRequests (aggregateVariables (d1.get "_id")
                    fsd.formatted_data))).1 :=
              bulk_write_getCollection_same hbwA
            have hIds : institutionDocsId db2y fsd.meta_data =
                institutionDocsId db fsd.meta_data := by
              have h1i : institutionDocsId db2y fsd.meta_data =
                  institutionDocsId dbF fsd.meta_data :=
                institutionDocsId_congr fsd.meta_data hA_I
              have h2i : institutionDocsId dbF fsd.meta_data =
                  institutionDocsId db1x fsd.meta_data := by
                have := @institutionDocsId_fou_stable db1x fsd.meta_data H1
                rw [hfou] at this
                exact this
              have h3i : institutionDocsId db1x fsd.meta_data =
                  institutionDocsId db fsd.meta_data :=
                institutionDocsId_congr fsd.meta_data hC_I
              rw [h1i, h2i, h3i]
            have hVq : variableQuery db2y fsd.meta_data =
                variableQuery db fsd.meta_data := by
              rw [variableQuery, variableQuery, hIds]
            have hVIds : variableDocsId db2y fsd.meta_data =
                variableDocsId db fsd.meta_data := by
              rw [variableDocsId, variableDocsId, hVq, hV2, hF_V, hC_V]
              have hq : ("name", QCond.qEq (metaValue fsd.meta_data "variable_name")) ∈
                  variableQuery db fsd.meta_data := by
                simp [variableQuery]
              rw [findDocs_bulk_dead (aggregateRequests_query_dead hq H2) _ _]
            have href2 : create_variable_reference db2y fsd.sheet_title
                fsd.meta_data = .ok ref :=
              (create_variable_reference_congr_ids fsd.sheet_title fsd.meta_data
                hIds hVIds).trans href
            have hshape := create_variable_reference_shape href
            have hmemdt1 : ((metaGet fsd.meta_data "data_type").getD "") ∈
                db1x.colls.map (fun c => c.1) := by
              rw [hdbC]
              exact setCollAux_mem_name _ _ _
            have hmemdtF : ((metaGet fsd.meta_data "data_type").getD "") ∈
                dbF.colls.map (fun c => c.1) := by
              obtain ⟨L, hL⟩ := find_one_and_update_colls db1x
                db_collection.institutions (aggInstitutionKeys fsd.meta_data)
              rw [hfou] at hL
              rw [hL]
              exact setCollAux_mem_preserve hmemdt1 _ _
            have hmemdt2 : ((metaGet fsd.meta_data "data_type").getD "") ∈
                db2y.colls.map (fun c => c.1) := by
              rw [hdbA]
              exact setCollAux_mem_preserve hmemdtF _ _
            have hbwC2 : bulk_write db2y
                ((metaGet fsd.meta_data "data_type").getD "")
                (compositeRequests ref fsd.formatted_data) = (db2y, .ok ⟨[]⟩) :=
              bulk_write_replay (compositeRequests_keys_nodup hshape)
                (compositeRequests_filter_keys ref fsd.formatted_data)
                (compositeRequests_agrees hshape hrows)
                (compositeRequests_no_id_filter hshape)
                (compositeRequests_no_id_set hshape hrows)
                hWFdt hbwC hdt21 hmemdt2
            have hcomp2 : load_composite_variable db2y fsd =
                (db2y, .ok [((metaGet fsd.meta_data "data_type").getD "", 0)]) := by
              simp only [load_composite_variable, href2, hbwC2]
              rfl
            have hWFI1 : ∀ d ∈ db1x.getCollection db_collection.institutions,
                d.keys.Nodup := fun d hd => hWFI d (hC_I ▸ hd)
            have hmemI1 : db_collection.institutions ∈
                dbF.colls.map (fun c => c.1) := by
              obtain ⟨L, hL⟩ := find_one_and_update_colls db1x
                db_collection.institutions (aggInstitutionKeys fsd.meta_data)
              rw [hfou] at hL
              rw [hL]
              exact setCollAux_mem_name _ _ _
            have hmemI2 : db_collection.institutions ∈
                db2y.colls.map (fun c => c.1) := by
              rw [hdbA]
              exact setCollAux_mem_preserve hmemI1 _ _
            have hfou2 : find_one_and_update db2y db_collection.institutions
                (aggInstitutionKeys fsd.meta_data) = (db2y, d1) :=
              find_one_and_update_idem (aggInstitutionKeys_nodup fsd.meta_data)
                hWFI1 hfou hA_I hmemI2
            have hWFVF : ∀ d ∈ dbF.getCollection db_collection.variables,
                d.keys.Nodup := fun d hd => hWFV d (hC_V ▸ hF_V ▸ hd)
            have hmemV2 : db_collection.variables ∈
                db2y.colls.map (fun c => c.1) := by
              rw [hdbA]
              exact setCollAux_mem_name _ _ _
            have hbwA2 : bulk_write db2y db_collection.variables
                (aggregateRequests (aggregateVariables (d1.get "_id")
                  fsd.formatted_data)) = (db2y, .ok ⟨[]⟩) :=
              bulk_write_replay (by decide) (aggregateRequests_K _)
                (aggregateRequests_agrees (aggregateVariables_nodup _ _))
                (by decide)
                (aggregateRequests_no_id_set (aggregateVariables_no_id _ _))
                hWFVF hbwA rfl hmemV2
            have hagg2 : load_institution_with_aggregate_variable db2y fsd =
                (db2y, .ok [(db_collection.variables, 0)]) := by
              rw [load_institution_with_aggregate_variable, hfou2]
              simp only [hbwA2]
              rfl
            simp only [load_institution_and_composite_variable, hcomp2, hagg2]
            rfl
          · rename_i db2y e hbwA
            injection h1b with ha2 hb2
            cases hb2
        · rename_i db1x e hbwC
          injection h1a with hx hy
          cases hy
    · rename_i db2x e h1b
      injection h1 with ha hb
      cases hb
  · rename_i db1 e h1a
    injection h1 with ha hb
    cases hb

theorem load_eq_institutions {db : DB} {fsd : FormattedSheetData}
    (hm : metaGet fsd.meta_data "format" = some gs_format.standard_institution ∨
      metaGet fsd.meta_data "format" = some gs_format.institution_by_rows ∨
      metaGet fsd.meta_data "format" = some gs_format.multiple_sigla_answer_variable) :
    load db fsd = load_institutions db fsd := by
  rcases hm with hm | hm | hm <;>
    simp [load, hm, gs_format.standard_institution, gs_format.institution_by_rows,
      gs_format.institution_and_composite_variable, gs_format.composite_variable,
      gs_format.multiple_sigla_answer_variable]

theorem load_eq_composite {db : DB} {fsd : FormattedSheetData}
    (hm : metaGet fsd.meta_data "format" = some gs_format.composite_variable) :
    load db fsd = load_composite_variable db fsd := by
  simp [load, hm, gs_format.standard_institution, gs_format.institution_by_rows,
    gs_format.institution_and_composite_variable, gs_format.composite_variable,
    gs_format.multiple_sigla_answer_variable]

theorem load_eq_combined {db : DB} {fsd : FormattedSheetData}
    (hm : metaGet fsd.meta_data "format" =
      some gs_format.institution_and_composite_variable) :
    load db fsd = load_institution_and_composite_variable db fsd := by
  simp [load, hm, gs_format.standard_institution, gs_format.institution_by_rows,
    gs_format.institution_and_composite_variable, gs_format.composite_variable,
    gs_format.multiple_sigla_answer_variable]

/-- C1 (corrected): re-loading an identical payload is only guaranteed
to create zero new documents and leave every field unchanged under
well-formedness conditions on the payload; in particular, for the three
institution formats, records and their children must carry
duplicate-free keys, no `_id`, and children no `institution` key; for
the composite-variable format, the target data type must not name the
institutions or variables collection and no record may carry an `_id`,
`variable` or `variables` key; for the combined format, additionally
the aggregate institution's `variable_heading` must not collide with
the resolver's institution names and no record's heading may equal the
composite variable's name.  Under these conditions the second load
returns the same database with every reported creation count zero.
Without such conditions idempotence fails (see the counterexample,
where a record overrides the reference key `variable`). -/
theorem claim_C1 :
    (∀ (db dbX : DB) (fsd : FormattedSheetData) (out : List (String × Nat)),
      (metaGet fsd.meta_data "format" = some gs_format.standard_institution ∨
       metaGet fsd.meta_data "format" = some gs_format.institution_by_rows ∨
       metaGet fsd.meta_data "format" = some gs_format.multiple_sigla_answer_variable) →
      load db fsd = (dbX, .ok out) →
      (∀ row ∈ fsd.formatted_data, row.keys.Nodup ∧ "_id" ∉ row.keys) →
      (∀ row ∈ fsd.formatted_data, ∀ c ∈ childsOf row,
        (c.map (fun kv => kv.1)).Nodup ∧ "_id" ∉ c.map (fun kv => kv.1) ∧
        "institution" ∉ c.map (fun kv => kv.1)) →
      (∀ d ∈ db.getCollection db_collection.institutions, d.keys.Nodup) →
      (∀ d ∈ db.getCollection db_collection.variables, d.keys.Nodup) →
      load dbX fsd = (dbX, .ok [(db_collection.institutions, 0),
        (db_collection.variables, 0)])) ∧
    (∀ (db dbX : DB) (fsd : FormattedSheetData) (out : List (String × Nat)),
      metaGet fsd.meta_data "format" = some gs_format.composite_variable →
      load db fsd = (dbX, .ok out) →
      (metaGet fsd.meta_data "data_type").getD "" ≠ db_collection.institutions →
      (metaGet fsd.meta_data "data_type").getD "" ≠ db_collection.variables →
      (∀ row ∈ fsd.formatted_data, row.keys.Nodup ∧ "_id" ∉ row.keys ∧
        "variable" ∉ row.keys ∧ "variables" ∉ row.keys) →
      (∀ d ∈ db.getCollection ((metaGet fsd.meta_data "data_type").getD ""),
        d.keys.Nodup) →
      load dbX fsd = (dbX, .ok [((metaGet fsd.meta_data "data_type").getD "", 0)])) ∧
    (∀ (db dbX : DB) (fsd : FormattedSheetData) (out : List (String × Nat)),
      metaGet fsd.meta_data "format" =
        some gs_format.institution_and_composite_variable →
      load db fsd = (dbX, .ok out) →
      (metaGet fsd.meta_data "data_type").getD "" ≠ db_collection.institutions →
      (metaGet fsd.meta_data "data_type").getD "" ≠ db_collection.variables →
      (∀ row ∈ fsd.formatted_data, row.keys.Nodup ∧ "_id" ∉ row.keys ∧
        "variable" ∉ row.keys ∧ "variables" ∉ row.keys) →
      (∀ d ∈ db.getCollection ((metaGet fsd.meta_data "data_type").getD ""),
        d.keys.Nodup) →
      (∀ d ∈ db.getCollection db_collection.institutions, d.keys.Nodup) →
      (∀ d ∈ db.getCollection db_collection.variables, d.keys.Nodup) →
      metaValue fsd.meta_data "variable_heading" ∉
        (institutionNamesOf fsd.meta_data).map vStr →
      (∀ datum ∈ fsd.formatted_data, vStr (headingOf datum) ≠
        metaValue fsd.meta_data "variable_name") →
      load dbX fsd = (dbX, .ok [((metaGet fsd.meta_data "data_type").getD "", 0),
        (db_collection.variables, 0)])) := by
  refine ⟨?_, ?_, ?_⟩
  · intro db dbX fsd out hm h1 hrows hchilds hWFI hWFV
    rw [load_eq_institutions hm] at h1 ⊢
    exact load_institutions_idempotent h1 hrows hchilds hWFI hWFV
  · intro db dbX fsd out hm h1 hdtI hdtV hrows hWF
    rw [load_eq_composite hm] at h1 ⊢
    exact load_composite_variable_idempotent h1 hdtI hdtV hrows hWF
  · intro db dbX fsd out hm h1 hdtI hdtV hrows hWFdt hWFI hWFV H1 H2
    rw [load_eq_combined hm] at h1 ⊢
    exact load_combined_idempotent h1 hdtI hdtV hrows hWFdt hWFI hWFV H1 H2

def exMetaC1 : List (String × String) :=
  [("format", "composite_variable"), ("data_type", "x"), ("name", "A"),
   ("country", "FR"), ("category", "gov"), ("variable_heading", "H"),
   ("variable_name", "N")]

def exFsdC1 : FormattedSheetData :=
  ⟨"S", exMetaC1, [[("index", vNat 0), ("variable", vStr "boom")]]⟩

/-- C1 counterexample: a recognized composite-variable payload whose
single record overrides the reference key `variable`.  The first load
stores the record with the overridden value; the second load's filter
still carries the resolver's identity, misses the stored record, and
creates a second document: the reported creation count of the second
load is 1 and the target collection grows from one document to two. -/
theorem claim_C1_counterexample :
    metaGet exFsdC1.meta_data "format" = some gs_format.composite_variable ∧
    (((load exDbOneInst exFsdC1).1).getCollection "x").length = 1 ∧
    (load (load exDbOneInst exFsdC1).1 exFsdC1).2 = .ok [("x", 1)] ∧
    ((((load (load exDbOneInst exFsdC1).1 exFsdC1).1).getCollection "x").length) = 2 :=
  ⟨rfl, rfl, rfl, rfl⟩

def exC1fsdInst : FormattedSheetData :=
  ⟨"S", [("format", "standard_institution"), ("name", "A"), ("category", "gov")],
   [[("name", vStr "A"), ("category", vStr "gov"), ("childs", Value.vChilds [exC7child])]]⟩

def exC1dbI : DB :=
  ⟨[("institutions",
      [[("_id", vOid 5), ("name", vStr "A"), ("category", vStr "gov")]]),
    ("variables",
      [[("_id", vOid 6), ("institution", vOid 5), ("heading", vStr "h"),
        ("name", vStr "n"), ("variable_index", vNat 0),
        ("sigla_answer_index", vNat 0)]])], 7⟩

def exC1fsdComp : FormattedSheetData := ⟨"S", exMetaC1, [[("index", vNat 0)]]⟩

def exC1dbC : DB :=
  ⟨[("institutions",
      [[("_id", vOid 1), ("name", vStr "A"), ("country", vStr "FR"),
        ("category", vStr "gov")]]),
    ("variables",
      [[("_id", vOid 2), ("institution", vOid 1), ("heading", vStr "H"),
        ("name", vStr "N"), ("type", vStr "composite")]]),
    ("x",
      [[("_id", vOid 10), ("variable", vOid 2), ("index", vNat 0)]])], 11⟩

def exMetaC1B : List (String × String) :=
  [("format", "institution_and_composite_variable"), ("data_type", "x"),
   ("name", "A"), ("country", "FR"), ("category", "gov"),
   ("variable_heading", "H"), ("variable_name", "N")]

def exC1fsdComb : FormattedSheetData :=
  ⟨"S", exMetaC1B,
   [[("index", vNat 0),
     ("sigla_answers", Value.vAnswers [⟨"n", "Criminal"⟩, ⟨"q", "yes"⟩])]]⟩

def exC1dbComb : DB :=
  ⟨[("institutions",
      [[("_id", vOid 1), ("name", vStr "A"), ("country", vStr "FR"),
        ("category", vStr "gov")],
       [("_id", vOid 11), ("name", vStr "H"), ("country", vStr "FR"),
        ("category", vStr "gov")]]),
    ("variables",
      [[("_id", vOid 2), ("institution", vOid 1), ("heading", vStr "H"),
        ("name", vStr "N"), ("type", vStr "composite")],
       [("_id", vOid 12), ("institution", vOid 11), ("name", vStr "Criminal"),
        ("variable_index", vNat 0), ("sigla_answer_index", vNat 0),
        ("heading", vStr "Criminal"),
        ("sigla_answer", Value.vAnswerGroups [[⟨"q", "yes"⟩]]),
        ("type", vStr "aggregate")]]),
    ("x",
      [[("_id", vOid 10), ("variable", vOid 2), ("index", vNat 0),
        ("sigla_answers", Value.vAnswers [⟨"n", "Criminal"⟩, ⟨"q", "yes"⟩])]])],
   13⟩

theorem claim_C1_witness :
    load exDbNoInst exC1fsdInst =
      (exC1dbI, .ok [(db_collection.institutions, 1), (db_collection.variables, 1)]) ∧
    load exC1dbI exC1fsdInst =
      (exC1dbI, .ok [(db_collection.institutions, 0), (db_collection.variables, 0)]) ∧
    load exDbOneInst exC1fsdComp = (exC1dbC, .ok [("x", 1)]) ∧
    load exC1dbC exC1fsdComp = (exC1dbC, .ok [("x", 0)]) ∧
    load exDbOneInst exC1fsdComb =
      (exC1dbComb, .ok [("x", 1), (db_collection.variables, 1)]) ∧
    load exC1dbComb exC1fsdComb =
      (exC1dbComb, .ok [("x", 0), (db_collection.variables, 0)]) := by
  refine ⟨by rfl, ?_, by rfl, ?_, by rfl, ?_⟩
  · exact claim_C1.1 exDbNoInst exC1dbI exC1fsdInst
      [(db_collection.institutions, 1), (db_collection.variables, 1)]
      (Or.inl (by decide)) (by rfl) (by decide) (by decide) (by decide) (by decide)
  · exact claim_C1.2.1 exDbOneInst exC1dbC exC1fsdComp [("x", 1)]
      (by decide) (by rfl) (by decide) (by decide) (by decide) (by decide)
  · exact claim_C1.2.2 exDbOneInst exC1dbComb exC1fsdComb
      [("x", 1), (db_collection.variables, 1)]
      (by decide) (by rfl) (by decide) (by decide) (by decide) (by decide)
      (by decide) (by decide) (by decide) (by decide)
